import Mathlib

/-!
# Proxy store of `steve` (package `sqlproxy`): a shallow embedding

The definitions below follow `pkg/stores/sqlproxy/proxy_store.go`.

* Go values of type `interface{}` that come out of a JSON document are
  embedded as `Value`; a `map[string]interface{}` is an association list
  `Obj` read through `Obj.get`, so two maps are the same Go map when they
  agree on `Obj.get` for every key.
* Go's `nil` interface value is `Value.null`; a key that is absent is
  `none` under `Obj.get`.
-/

namespace Sqlproxy

/-! ## JSON values and Go maps -/

/-- Go values held in a `map[string]interface{}`. The values decoded from JSON are `null`,
`bool`, `num`, `str` (a string that is UTF-8 text, as every string decoded from JSON is),
`arr` and `obj`; `raw` is a Go string whose bytes are not UTF-8 text, which no JSON document
yields and which the store makes by slicing a string inside a character. -/
inductive Value where
  | null
  | bool (b : Bool)
  | num (n : Int)
  | str (s : String)
  | arr (xs : List Value)
  | obj (kvs : List (String × Value))
  | raw (bytes : List Nat)

/-- A Go `map[string]interface{}`. -/
abbrev Obj := List (String × Value)

/-- Map lookup `v, ok := o[k]`: `none` when `ok` is false. -/
def Obj.get : Obj → String → Option Value
  | [], _ => none
  | (k', v) :: rest, k => if k' = k then some v else Obj.get rest k

/-- Map index `o[k]` without the `ok` flag: the zero value `nil` for an absent key. -/
def Obj.index (o : Obj) (k : String) : Value :=
  (o.get k).getD Value.null

/-- Go `delete(o, k)`. -/
def Obj.delete : Obj → String → Obj
  | [], _ => []
  | (k', v) :: rest, k => if k' = k then Obj.delete rest k else (k', v) :: Obj.delete rest k

/-- Go `o[k] = v`. -/
def Obj.set (o : Obj) (k : String) (v : Value) : Obj :=
  (k, v) :: o.delete k

/-! ## Reserved fields -/

/-- The key set of `types.ReservedFields` (package `rancher/apiserver/pkg/types`,
not part of this repository): `id`, `type`, `links`, `actions`. The functions
below take the reserved names as a parameter, in the order the `range` loop
visits them; this constant is the instance used for concrete evaluation. -/
def ReservedFields : List String := ["id", "type", "links", "actions"]

/-- One iteration of the loop body of `moveFromUnderscore` for the reserved name `k`. -/
def moveFromUnderscoreStep (o : Obj) (k : String) : Obj :=
  let v := o.get ("_" ++ k)
  let o1 := o.delete ("_" ++ k)
  let o2 := o1.delete k
  match v with
  | some x => o2.set k x
  | none => o2

/-- The function `moveFromUnderscore`: `none` is the nil map; `reserved` lists the keys of
`types.ReservedFields` in the order in which the `range` loop visits them. -/
def moveFromUnderscore (reserved : List String) : Option Obj → Option Obj
  | none => none
  | some o => some (reserved.foldl moveFromUnderscoreStep o)

/-- No reserved name is the underscore alias of a reserved name. -/
def AliasFree (reserved : List String) : Prop :=
  ∀ a ∈ reserved, ("_" ++ a) ∉ reserved

instance (reserved : List String) : Decidable (AliasFree reserved) := by
  unfold AliasFree; infer_instance

/-! ## Helpers of the libraries the store calls

These functions belong to `rancher/wrangler` (`pkg/data`, `pkg/data/convert`) and
`rancher/apiserver` (`pkg/types`); they are not part of this repository and are
embedded here from their sources, since the store's behaviour runs through them. -/

/-- The function `data.GetValue(data, keys...)` of wrangler, on paths none of whose keys is a
decimal slice index (every path the store reads is made of field names): the keys are
walked, a step through a value that is not a map yields nothing, and the last key is looked
up in the map reached. -/
def GetValue : Obj → List String → Option Value
  | _, [] => none
  | d, [key] => d.get key
  | d, key :: rest =>
    match d.get key with
    | some (Value.obj m) => GetValue m rest
    | _ => GetValue [] rest

/-- The function `data.GetValueN`: `GetValue` without the `ok` flag. -/
def GetValueN (d : Obj) (keys : List String) : Value :=
  (GetValue d keys).getD Value.null

/-- The function `data.PutValue(data, val, keys...)` of wrangler on a non-nil map: the last key
is assigned; an absent intermediate key gets a fresh map; an intermediate key that holds a
value that is not a map makes the function return without writing. -/
def PutValue : Obj → Value → List String → Obj
  | d, _, [] => d
  | d, val, [key] => d.set key val
  | d, val, key :: rest =>
    match d.get key with
    | some (Value.obj m) => d.set key (Value.obj (PutValue m val rest))
    | some _ => d
    | none => d.set key (Value.obj (PutValue [] val rest))

/-- The function `convert.Singular`: the first element of a slice, nil for an empty slice. -/
def Singular : Value → Value
  | Value.arr [] => Value.null
  | Value.arr (x :: _) => x
  | v => v

/-- The function `unicode.IsSpace`: the characters with the Unicode property `White_Space`. -/
def isSpace (c : Char) : Bool :=
  (9 ≤ c.toNat && c.toNat ≤ 13) || c.toNat == 0x20 || c.toNat == 0x85 || c.toNat == 0xA0 ||
    c.toNat == 0x1680 || (0x2000 ≤ c.toNat && c.toNat ≤ 0x200A) || c.toNat == 0x2028 ||
    c.toNat == 0x2029 || c.toNat == 0x202F || c.toNat == 0x205F || c.toNat == 0x3000

/-- The function `strings.TrimSpace`: the string without its leading and its trailing white
space. -/
def TrimSpace (s : String) : String :=
  String.mk ((s.data.dropWhile isSpace).reverse.dropWhile isSpace).reverse

/-- The function `convert.ToString`: the empty string for nil, and
`strings.TrimSpace(fmt.Sprint(value))` for every other value; `fmt.Sprint` of a string is the
string itself, and it is the parameter `sprint` on every other value. -/
def ToString (sprint : Value → String) (v : Value) : String :=
  match Singular v with
  | Value.null => ""
  | Value.str s => TrimSpace s
  | x => TrimSpace (sprint x)

/-- The method `data.Object.String(names...)`. -/
def ObjString (sprint : Value → String) (o : Obj) (names : List String) : String :=
  ToString sprint (GetValueN o names)

/-- The function `types.Name(data)`: the string at `metadata.name`. -/
def Name (sprint : Value → String) (d : Obj) : String :=
  ToString sprint (GetValueN d ["metadata", "name"])

/-- The function `types.Namespace(data)`: the string at `metadata.namespace`. -/
def Namespace (sprint : Value → String) (d : Obj) : String :=
  ToString sprint (GetValueN d ["metadata", "namespace"])

/-- Comparison `v == s` of an interface value with a string constant. -/
def Value.isStr : Value → String → Bool
  | Value.str t, s => t == s
  | _, _ => false

/-! ## Table normalization -/

/-- Body of the loop of `tableToObjects` for one row: the object the row appends to the
result, with the row's cells put under `metadata.fields`; `none` when the row is skipped. -/
def rowObject : Value → Option Obj
  | Value.obj m =>
    match Obj.get m "object" with
    | some (Value.obj object) => some (PutValue object (Obj.index m "cells") ["metadata", "fields"])
    | _ => none
  | _ => none

/-- The function `tableToObjects`: the list it returns. -/
def tableToObjects (obj : Obj) : List Obj :=
  match obj.index "rows" with
  | Value.arr rows => rows.filterMap rowObject
  | _ => []

/-- A row after `tableToObjects` ran: `data.PutValue` writes into the row's own object map. -/
def rowAfter : Value → Value
  | Value.obj m =>
    match Obj.get m "object" with
    | some (Value.obj object) =>
      Value.obj (Obj.set m "object" (Value.obj (PutValue object (Obj.index m "cells") ["metadata", "fields"])))
    | _ => Value.obj m
  | v => v

/-- The table map after `tableToObjects` ran on it (its rows are written in place). -/
def tableAfter (obj : Obj) : Obj :=
  match obj.index "rows" with
  | Value.arr rows => obj.set "rows" (Value.arr (rows.map rowAfter))
  | _ => obj

/-- The guard of `rowToObject`: the object is a `Table` of `meta.k8s.io/v1` or `v1beta1`. -/
def isTable (o : Obj) : Bool :=
  (o.index "kind").isStr "Table" &&
    ((o.index "apiVersion").isStr "meta.k8s.io/v1" ||
      (o.index "apiVersion").isStr "meta.k8s.io/v1beta1")

/-- The function `rowToObject`: the content of `obj.Object` after the call (`none`: `obj` is nil). -/
def rowToObject : Option Obj → Option Obj
  | none => none
  | some o =>
    if isTable o then
      match tableToObjects o with
      | [item] => some item
      | _ => some (tableAfter o)
    else some o

/-- The rows `tableToObjects` ranges over, `rows, _ := obj["rows"].([]interface{})`: the empty
list when the key is absent or does not hold a list. -/
def tableRows (obj : Obj) : List Value :=
  match obj.index "rows" with
  | Value.arr rows => rows
  | _ => []

/-- Spec side: a row that is a map carrying an object map (a row that is not is malformed). -/
def isObjectRow : Value → Bool
  | Value.obj m =>
    match Obj.get m "object" with
    | some (Value.obj _) => true
    | _ => false
  | _ => false

/-! ## Errors -/

/-- The struct `validation.ErrorCode`. -/
structure ErrorCode where
  Code : String
  Status : Nat
  deriving DecidableEq, Repr

/-- The constant `validation.InvalidBodyContent`. -/
def InvalidBodyContent : ErrorCode := ⟨"InvalidBodyContent", 422⟩

/-- The constant `validation.MissingRequired`. -/
def MissingRequired : ErrorCode := ⟨"MissingRequired", 422⟩

/-- The constant `errNamespaceRequired`. -/
def errNamespaceRequired : String := "metadata.namespace or apiOp.namespace are required"

/-- The constant `errResourceVersionRequired`. -/
def errResourceVersionRequired : String := "metadata.resourceVersion is required for update"

/-- Go error values the store builds or receives. -/
inductive Err where
  /-- An error made by `errors.New(msg)`. -/
  | errorsNew (msg : String)
  /-- An error made by `apierror.NewAPIError(code, msg)`. -/
  | apiError (code : ErrorCode) (msg : String)
  /-- A `validation.ErrorCode` value returned as an error. -/
  | errorCode (code : ErrorCode)
  /-- The sentinel `informer.ErrInvalidColumn`. -/
  | invalidColumn
  /-- An error with message `msg` that wraps `inner` (`fmt.Errorf` with `%w`). -/
  | wrap (msg : String) (inner : Err)
  /-- Any other error, with its message. -/
  | other (msg : String)
  deriving DecidableEq, Repr

/-- The method `Error()`. -/
def Err.Error : Err → String
  | Err.errorsNew msg => msg
  | Err.apiError code msg => code.Code ++ " " ++ toString code.Status ++ ": " ++ msg
  | Err.errorCode code => code.Code ++ " " ++ toString code.Status
  | Err.invalidColumn => "supplied column is invalid"
  | Err.wrap msg _ => msg
  | Err.other msg => msg

/-- The function `errors.Unwrap`. -/
def Err.Unwrap : Err → Option Err
  | Err.wrap _ inner => some inner
  | _ => none

/-- The test `errors.Is(err, informer.ErrInvalidColumn)`. -/
def Err.isInvalidColumn : Err → Bool
  | Err.invalidColumn => true
  | Err.wrap _ inner => inner.isInvalidColumn
  | _ => false

/-- The test `errors.As(err, &apiError)`: the first `*apierror.APIError` of the chain. -/
def Err.asAPIError : Err → Option (ErrorCode × String)
  | Err.apiError code msg => some (code, msg)
  | Err.wrap _ inner => inner.asAPIError
  | _ => none

/-- The error is itself an API error of the given code (a type assertion, no unwrapping). -/
def Err.hasCode (e : Err) (c : ErrorCode) : Bool :=
  match e with
  | Err.apiError code _ => code == c
  | _ => false

/-- The call `fmt.Errorf(format ++ ": %w", err)`, `pre` being the text formatted before `: `. -/
def Errorf (pre : String) (err : Err) : Err :=
  Err.wrap (pre ++ ": " ++ err.Error) err

/-! ## Schemas, group/version/kind and the indexed-field registry -/

/-- The struct `schema.GroupVersionKind`. -/
structure GroupVersionKind where
  Group : String
  Version : String
  Kind : String
  deriving DecidableEq, Repr

/-- The method `GroupVersionKind.String()`, used by `%v`. -/
def gvkString (gvk : GroupVersionKind) : String :=
  gvk.Group ++ "/" ++ gvk.Version ++ ", Kind=" ++ gvk.Kind

/-- The method `GroupVersionKind.ToAPIVersionAndKind()`. -/
def GroupVersionKind.ToAPIVersionAndKind (gvk : GroupVersionKind) : String × String :=
  if gvk.Group = "" ∧ gvk.Version = "" ∧ gvk.Kind = "" then ("", "")
  else if gvk.Group ≠ "" then (gvk.Group ++ "/" ++ gvk.Version, gvk.Kind)
  else (gvk.Version, gvk.Kind)

/-- What the store reads of a `types.APISchema`: its `ID` and the attributes
`attributes.Namespaced`, `attributes.GVK`, `attributes.Columns` (the `Field` of every
column definition; `none` when the attribute is nil or not a `[]ColumnDefinition`),
`attributes.IsCRD` and `controllerschema.IsListWatchable`. -/
structure APISchema where
  ID : String
  Namespaced : Bool
  GVK : GroupVersionKind
  Columns : Option (List String)
  IsCRD : Bool
  IsListWatchable : Bool

/-- The function `gvkKey`. -/
def gvkKey (group version kind : String) : String :=
  group ++ "_" ++ version ++ "_" ++ kind

/-- The table `typeSpecificIndexedFields`. -/
def typeSpecificIndexedFields : List (String × List (List String)) := [
  (gvkKey "" "v1" "Event", [["_type"], ["involvedObject", "kind"], ["involvedObject", "uid"], ["message"], ["reason"]]),
  (gvkKey "" "v1" "Namespace", [["spec", "displayName"]]),
  (gvkKey "" "v1" "Node", [["status", "nodeInfo", "kubeletVersion"], ["status", "nodeInfo", "operatingSystem"]]),
  (gvkKey "" "v1" "PersistentVolume", [["status", "reason"], ["spec", "persistentVolumeReclaimPolicy"]]),
  (gvkKey "" "v1" "PersistentVolumeClaim", [["spec", "volumeName"]]),
  (gvkKey "" "v1" "Pod", [["spec", "containers", "image"], ["spec", "nodeName"]]),
  (gvkKey "" "v1" "ReplicationController", [["spec", "template", "spec", "containers", "image"]]),
  (gvkKey "" "v1" "Secret", [["metadata", "annotations", "management.cattle.io/project-scoped-secret-copy"]]),
  (gvkKey "" "v1" "Service", [["spec", "clusterIP"], ["spec", "type"]]),
  (gvkKey "apps" "v1" "DaemonSet", [["metadata", "annotations", "field.cattle.io/publicEndpoints"], ["spec", "template", "spec", "containers", "image"]]),
  (gvkKey "apps" "v1" "Deployment", [["metadata", "annotations", "field.cattle.io/publicEndpoints"], ["spec", "template", "spec", "containers", "image"]]),
  (gvkKey "apps" "v1" "ReplicaSet", [["spec", "template", "spec", "containers", "image"]]),
  (gvkKey "apps" "v1" "StatefulSet", [["metadata", "annotations", "field.cattle.io/publicEndpoints"], ["spec", "template", "spec", "containers", "image"]]),
  (gvkKey "autoscaling" "v2" "HorizontalPodAutoscaler", [["spec", "scaleTargetRef", "name"], ["spec", "minReplicas"], ["spec", "maxReplicas"], ["status", "currentReplicas"]]),
  (gvkKey "batch" "v1" "CronJob", [["metadata", "annotations", "field.cattle.io/publicEndpoints"], ["spec", "jobTemplate", "spec", "template", "spec", "containers", "image"]]),
  (gvkKey "batch" "v1" "Job", [["metadata", "annotations", "field.cattle.io/publicEndpoints"], ["spec", "template", "spec", "containers", "image"]]),
  (gvkKey "catalog.cattle.io" "v1" "App", [["spec", "chart", "metadata", "name"]]),
  (gvkKey "catalog.cattle.io" "v1" "ClusterRepo", [["metadata", "annotations", "clusterrepo.cattle.io/hidden"], ["spec", "gitBranch"], ["spec", "gitRepo"]]),
  (gvkKey "catalog.cattle.io" "v1" "Operation", [["status", "action"], ["status", "namespace"], ["status", "releaseName"]]),
  (gvkKey "cluster.x-k8s.io" "v1beta1" "Machine", [["spec", "clusterName"]]),
  (gvkKey "cluster.x-k8s.io" "v1beta1" "MachineDeployment", [["spec", "clusterName"]]),
  (gvkKey "management.cattle.io" "v3" "Cluster", [["spec", "internal"], ["spec", "displayName"], ["status", "connected"], ["status", "provider"]]),
  (gvkKey "management.cattle.io" "v3" "ClusterRoleTemplateBinding", [["clusterName"], ["userName"], ["userPrincipalName"]]),
  (gvkKey "management.cattle.io" "v3" "GlobalRoleBinding", [["userName"], ["userPrincipalName"]]),
  (gvkKey "management.cattle.io" "v3" "Node", [["status", "nodeName"]]),
  (gvkKey "management.cattle.io" "v3" "NodePool", [["spec", "clusterName"]]),
  (gvkKey "management.cattle.io" "v3" "NodeTemplate", [["spec", "clusterName"]]),
  (gvkKey "management.cattle.io" "v3" "Project", [["spec", "clusterName"], ["spec", "displayName"]]),
  (gvkKey "management.cattle.io" "v3" "ProjectRoleTemplateBinding", [["userName"], ["userPrincipalName"]]),
  (gvkKey "management.cattle.io" "v3" "RoleTemplate", [["context"]]),
  (gvkKey "networking.k8s.io" "v1" "Ingress", [["spec", "rules", "host"], ["spec", "ingressClassName"]]),
  (gvkKey "provisioning.cattle.io" "v1" "Cluster", [["metadata", "annotations", "provisioning.cattle.io/management-cluster-display-name"], ["status", "clusterName"], ["status", "provider"]]),
  (gvkKey "rke.cattle.io" "v1" "ETCDSnapshot", [["snapshotFile", "createdAt"], ["spec", "clusterName"]]),
  (gvkKey "storage.k8s.io" "v1" "StorageClass", [["provisioner"], ["metadata", "annotations", "storageclass.kubernetes.io/is-default-class"]])]

/-- The table `commonIndexFields`. -/
def commonIndexFields : List (List String) := [["id"], ["metadata", "state", "name"]]

/-- Lookup in a Go map with string keys held as a list of entries. -/
def lookupKey {α : Type} : List (String × α) → String → Option α
  | [], _ => none
  | (k', v) :: rest, k => if k' = k then some v else lookupKey rest k

/-- The function `getFieldForGVK`. -/
def getFieldForGVK (gvk : GroupVersionKind) : List (List String) :=
  let fields := [] ++ commonIndexFields
  match lookupKey typeSpecificIndexedFields (gvkKey gvk.Group gvk.Version gvk.Kind) with
  | some typeFields => fields ++ typeFields
  | none => fields

/-- The call `strings.TrimPrefix(field, "$.")`. -/
def trimDollarDot (field : String) : String :=
  if field.data.take 2 = ['$', '.'] then String.mk (field.data.drop 2) else field

/-- The function `getFieldsFromSchema`; `safeSplit` is `queryhelper.SafeSplit`, whose source
is not among the files of this development. -/
def getFieldsFromSchema (safeSplit : String → List String) (schema : APISchema) :
    List (List String) :=
  match schema.Columns with
  | none => []
  | some colDefs => colDefs.map (fun field => safeSplit (trimDollarDot field))

/-- The struct `sqltypes.ExternalLabelDependency`. -/
structure ExternalLabelDependency where
  SourceGVK : String
  SourceLabelName : String
  TargetGVK : String
  TargetKeyFieldName : String
  TargetFinalFieldName : String
  deriving DecidableEq, Repr

/-- The struct `sqltypes.ExternalGVKUpdates`; `ExternalDependencies` is nil wherever the store
builds one and is left out. -/
structure ExternalGVKUpdates where
  AffectedGVK : GroupVersionKind
  ExternalLabelDependencies : List ExternalLabelDependency
  deriving DecidableEq, Repr

/-- The variable `namespaceGVK`. -/
def namespaceGVK : GroupVersionKind := ⟨"", "v1", "Namespace"⟩

/-- The variable `mcioProjectGvk`. -/
def mcioProjectGvk : GroupVersionKind := ⟨"management.cattle.io", "v3", "Project"⟩

/-- The variable `namespaceProjectLabelDep`. -/
def namespaceProjectLabelDep : ExternalLabelDependency :=
  { SourceGVK := gvkKey "" "v1" "Namespace"
    SourceLabelName := "field.cattle.io/projectId"
    TargetGVK := gvkKey "management.cattle.io" "v3" "Project"
    TargetKeyFieldName := "metadata.name"
    TargetFinalFieldName := "spec.displayName" }

/-- The variable `namespaceUpdates`. -/
def namespaceUpdates : ExternalGVKUpdates :=
  { AffectedGVK := namespaceGVK
    ExternalLabelDependencies := [namespaceProjectLabelDep] }

/-- The map `externalGVKDependencies`, read at a key. -/
def externalGVKDependencies (gvk : GroupVersionKind) : Option ExternalGVKUpdates :=
  if gvk = mcioProjectGvk then some namespaceUpdates else none

/-- The map `selfGVKDependencies`, read at a key. -/
def selfGVKDependencies (gvk : GroupVersionKind) : Option ExternalGVKUpdates :=
  if gvk = namespaceGVK then some namespaceUpdates else none

/-! ## Requests, list options and the world outside the store -/

/-- A byte slice. -/
abbrev Bytes := List Nat

/-- Decoded request options (`metav1.GetOptions`, `CreateOptions`, ...), as the list of the
fields that were set; the zero value is the empty list. -/
abbrev Options := List (String × String)

/-- The target of `decodeParams`. -/
inductive ParamTarget where
  | GetOptions
  | CreateOptions
  | UpdateOptions
  | PatchOptions
  | DeleteOptions
  deriving DecidableEq, Repr

/-- The struct `types.Warning`. -/
structure Warning where
  Code : Int
  Agent : String
  Text : String
  deriving DecidableEq, Repr

/-- The type `sqltypes.Op`. -/
inductive Op where
  | Eq
  | NotEq
  | named (name : String)
  deriving DecidableEq, Repr

/-- The struct `sqltypes.Filter`, with the fields the store sets. -/
structure Filter where
  Field : List String
  Matches : List String
  Op : Op
  deriving DecidableEq, Repr

/-- The struct `sqltypes.OrFilter`. -/
structure OrFilter where
  Filters : List Filter
  deriving DecidableEq, Repr

/-- The struct `sqltypes.ListOptions`: its filters, and in `Rest` everything else (sorting,
pagination, ...), which the store passes on untouched. -/
structure ListOptions where
  Filters : List OrFilter
  Rest : String
  deriving DecidableEq, Repr

/-- The struct `partition.Partition`. -/
structure Partition where
  Namespace : String
  All : Bool
  Passthrough : Bool
  Names : List String
  deriving DecidableEq, Repr

/-- An `accesscontrol.AccessSet`, through its method `Grants(verb, groupResource, ns, name)`. -/
structure AccessSet where
  Grants : String → String × String → String → String → Bool

/-- What the store reads of a `types.APIRequest`. `Body` is the request body or the error
met while reading it; `decodeParams` is the function `decodeParams` applied to the request
(the parameter codec decoding `Request.URL.Query()` into the target); `ContentType` is
`Request.Header.Get("content-type")`; `User` is the name of `request.UserFrom`, when there
is one; `AccessSet` is `accesscontrol.AccessSetFromAPIRequest`, `none` for nil. -/
structure APIRequest where
  Namespace : String
  Method : String
  ContentType : String
  Body : Except Err Bytes
  decodeParams : ParamTarget → Except Err Options
  User : Option String
  AccessSet : Option AccessSet

/-- The constant `apitypes.JSONPatchType`. -/
def JSONPatchType : String := "application/json-patch+json"

/-- The constant `apitypes.StrategicMergePatchType`. -/
def StrategicMergePatchType : String := "application/strategic-merge-patch+json"

/-- The arguments of `CacheFactory.CacheFor` the store computes. -/
structure CacheForArgs where
  fields : List (List String)
  externalUpdateInfo : Option ExternalGVKUpdates
  selfUpdateInfo : Option ExternalGVKUpdates
  gvk : GroupVersionKind
  namespaced : Bool
  watchable : Bool
  deriving DecidableEq, Repr

/-- The struct `types.WatchRequest`. -/
structure WatchRequest where
  Revision : String
  ID : String
  Selector : String
  deriving DecidableEq, Repr

/-- The struct `informer.WatchFilter`; `Selector` is the parsed `labels.Selector`, `none` for
nil. -/
structure WatchFilter where
  ID : String
  Namespace : String
  Selector : Option String
  deriving DecidableEq, Repr

/-- The struct `informer.WatchOptions`. -/
structure WatchOptions where
  ResourceVersion : String
  Filter : WatchFilter
  deriving DecidableEq, Repr

/-- A call the store makes on the client getter, on a Kubernetes client or on the cache. -/
inductive Call where
  | TableClient (ns : String)
  | TableAdminClient (ns : String)
  | Create (ns : String) (obj : Obj) (opts : Options)
  | Update (ns : String) (obj : Option Obj) (opts : Options)
  | Patch (ns : String) (id : String) (pType : String) (bytes : Bytes) (opts : Options)
  | Delete (ns : String) (id : String) (opts : Options)
  | Get (ns : String) (id : String) (opts : Options)
  | CacheFor (args : CacheForArgs)
  | ListByOptions (lo : ListOptions) (partitions : List Partition) (ns : String)
  | TableAdminClientForWatch (ns : String)
  | InformerWatch (opts : WatchOptions)

/-- What a call on a Kubernetes client gives back: the object, the error, and the warnings
it hands to the warning handler (the request's `WarningBuffer`) while it runs. -/
structure ClientResult where
  resp : Option Obj
  err : Option Err
  warnings : List Warning

/-- What `Delete` on a Kubernetes client gives back. -/
structure DeleteResult where
  err : Option Err
  warnings : List Warning

/-- An `unstructured.UnstructuredList`. -/
structure UnstructuredList where
  Items : List Obj
  ResourceVersion : String

/-- What `Cache.ListByOptions` gives back. -/
structure ListResult where
  list : Option UnstructuredList
  total : Int
  continueToken : String
  err : Option Err

/-- Everything outside the store. Each collaborator answers from the calls made so far in
the request (first argument) and the arguments of the call, so that two calls with the
same arguments may be answered differently. `TableClient` and `TableAdminClient` give the
error of the client getter, if any; `Sprint` is `fmt.Sprint`, `SafeSplit` is
`queryhelper.SafeSplit`, `Unmarshal` and `Marshal` are those of `encoding/json` on a
`map[string]interface{}` (`none`: the nil map), `ParseQuery` is `listprocessor.ParseQuery`
applied to the request and the namespace cache, and `Reserved` lists the keys of
`types.ReservedFields` in the order a `range` over that map visits them. -/
structure World where
  Reserved : List String
  Sprint : Value → String
  SafeSplit : String → List String
  Unmarshal : Bytes → Except Err (Option Obj)
  Marshal : Option Obj → Except Err Bytes
  TableClient : List Call → String → Option Err
  TableAdminClient : List Call → String → Option Err
  Create : List Call → String → Obj → Options → ClientResult
  Update : List Call → String → Option Obj → Options → ClientResult
  Patch : List Call → String → String → String → Bytes → Options → ClientResult
  Delete : List Call → String → String → Options → DeleteResult
  Get : List Call → String → String → Options → ClientResult
  CacheFor : List Call → CacheForArgs → Option Err
  GetLatestResourceVersion : List Call → List String
  ParseQuery : List Call → Except Err ListOptions
  ListByOptions : List Call → ListOptions → List Partition → String → ListResult

/-- What an operation of the store returns, and the calls it made, in order. -/
structure Outcome where
  resp : Option Obj
  warnings : List Warning
  err : Option Err
  calls : List Call

/-- What `ListByPartitions` returns, and the calls it made, in order. -/
structure ListOutcome where
  list : Option UnstructuredList
  total : Int
  continueToken : String
  err : Option Err
  calls : List Call

/-! ## The operations of the store -/

/-- The method `Store.byID`, run after the calls `h`. -/
def byID (w : World) (h : List Call) (apiOp : APIRequest) (_schema : APISchema)
    (ns id : String) : Outcome :=
  let h1 := h ++ [Call.TableClient ns]
  match w.TableClient h ns with
  | some err => ⟨none, [], some err, h1⟩
  | none =>
    match apiOp.decodeParams ParamTarget.GetOptions with
    | Except.error err => ⟨none, [], some err, h1⟩
    | Except.ok opts =>
      let r := w.Get h1 ns id opts
      ⟨rowToObject r.resp, r.warnings, r.err, h1 ++ [Call.Get ns id opts]⟩

/-- The method `Store.ByID`. -/
def ByID (w : World) (apiOp : APIRequest) (schema : APISchema) (id : String) : Outcome :=
  byID w [] apiOp schema apiOp.Namespace id

/-- The UTF-8 encoding of a character, as bytes. -/
def utf8Char (c : Char) : List Nat :=
  if c.toNat < 0x80 then [c.toNat]
  else if c.toNat < 0x800 then [0xC0 + c.toNat / 0x40, 0x80 + c.toNat % 0x40]
  else if c.toNat < 0x10000 then
    [0xE0 + c.toNat / 0x1000, 0x80 + c.toNat / 0x40 % 0x40, 0x80 + c.toNat % 0x40]
  else
    [0xF0 + c.toNat / 0x40000, 0x80 + c.toNat / 0x1000 % 0x40, 0x80 + c.toNat / 0x40 % 0x40,
      0x80 + c.toNat % 0x40]

/-- The Go expression `s[0:1] + "-"`, as the value `Create` stores: `s[0:1]` is the first
byte of `s`. When `s` starts with a one-byte (ASCII) character, the result is the text made
of that character and `-`. When `s` starts with a character of several bytes, the result is
the first byte of that character followed by the byte of `-`, which is not UTF-8 text. On the
empty string the slice expression panics; `Create` returns `none` without evaluating this
function then. -/
def firstByteDash (s : String) : Value :=
  match s.data with
  | [] => Value.str "-"
  | c :: _ =>
    if c.toNat < 0x80 then Value.str (String.mk [c] ++ "-")
    else Value.raw ((utf8Char c).take 1 ++ [0x2D])

/-- Spec side: the first character of a string. -/
def firstChar (s : String) : String :=
  String.mk (s.data.take 1)

/-- The method `Store.Create`; `params` is `params.Data()` (`none`: nil). The result `none`
is the run-time panic of `schema.ID[0:1]` on an empty `schema.ID`. -/
def Create (w : World) (apiOp : APIRequest) (schema : APISchema) (params : Option Obj) :
    Option Outcome :=
  let input := params.getD []
  let name := Name w.Sprint input
  let ns := Namespace w.Sprint input
  let generateName := ObjString w.Sprint input ["metadata", "generateName"]
  if name = "" ∧ generateName = "" ∧ schema.ID = "" then none
  else
    let input :=
      if name = "" ∧ generateName = "" then
        PutValue input (firstByteDash schema.ID) ["metadata", "generateName"]
      else input
    if schema.Namespaced = true ∧ ns = "" ∧ apiOp.Namespace = "" then
      some ⟨none, [], some (Err.apiError InvalidBodyContent errNamespaceRequired), []⟩
    else
      let namespaced := schema.Namespaced = true ∧ ns = ""
      let ns := if namespaced then apiOp.Namespace else ns
      let input := if namespaced then PutValue input (Value.str ns) ["metadata", "namespace"] else input
      let input := (input.set "apiVersion" (Value.str schema.GVK.ToAPIVersionAndKind.1)).set "kind"
        (Value.str schema.GVK.ToAPIVersionAndKind.2)
      let h1 := [Call.TableClient ns]
      match w.TableClient [] ns with
      | some err => some ⟨none, [], some err, h1⟩
      | none =>
        match apiOp.decodeParams ParamTarget.CreateOptions with
        | Except.error err => some ⟨none, [], some err, h1⟩
        | Except.ok opts =>
          let r := w.Create h1 ns input opts
          some ⟨rowToObject r.resp, r.warnings, r.err, h1 ++ [Call.Create ns input opts]⟩

/-- The method `Store.Update`; `params` is `params.Data()` (`none`: nil). -/
def Update (w : World) (apiOp : APIRequest) (schema : APISchema) (params : Option Obj)
    (id : String) : Outcome :=
  let input := params.getD []
  let ns := Namespace w.Sprint input
  let h1 := [Call.TableClient ns]
  match w.TableClient [] ns with
  | some err => ⟨none, [], some err, h1⟩
  | none =>
    if apiOp.Method = "PATCH" then
      match apiOp.Body with
      | Except.error err => ⟨none, [], some err, h1⟩
      | Except.ok body =>
        let bytes := body.take (2 <<< 20)
        let pType :=
          if apiOp.ContentType = JSONPatchType then JSONPatchType else StrategicMergePatchType
        match apiOp.decodeParams ParamTarget.PatchOptions with
        | Except.error err => ⟨none, [], some err, h1⟩
        | Except.ok opts =>
          let rewritten : Except Err Bytes :=
            if pType = StrategicMergePatchType then
              match w.Unmarshal bytes with
              | Except.error err => Except.error err
              | Except.ok data => w.Marshal (moveFromUnderscore w.Reserved data)
            else Except.ok bytes
          match rewritten with
          | Except.error err => ⟨none, [], some err, h1⟩
          | Except.ok bytes =>
            let r := w.Patch h1 ns id pType bytes opts
            let h2 := h1 ++ [Call.Patch ns id pType bytes opts]
            match r.err with
            | some err => ⟨none, [], some err, h2⟩
            | none => ⟨r.resp, r.warnings, none, h2⟩
    else
      let resourceVersion := ObjString w.Sprint input ["metadata", "resourceVersion"]
      if resourceVersion = "" then
        ⟨none, [], some (Err.errorsNew errResourceVersionRequired), h1⟩
      else
        let input := (input.set "apiVersion" (Value.str schema.GVK.ToAPIVersionAndKind.1)).set
          "kind" (Value.str schema.GVK.ToAPIVersionAndKind.2)
        match apiOp.decodeParams ParamTarget.UpdateOptions with
        | Except.error err => ⟨none, [], some err, h1⟩
        | Except.ok _ =>
          let sent := moveFromUnderscore w.Reserved (some input)
          let r := w.Update h1 ns sent []
          let h2 := h1 ++ [Call.Update ns sent []]
          match r.err with
          | some err => ⟨none, [], some err, h2⟩
          | none => ⟨rowToObject r.resp, r.warnings, none, h2⟩

/-- The method `Store.Delete`. -/
def Delete (w : World) (apiOp : APIRequest) (schema : APISchema) (id : String) : Outcome :=
  match apiOp.decodeParams ParamTarget.DeleteOptions with
  | Except.error _ => ⟨none, [], none, []⟩
  | Except.ok opts =>
    let h1 := [Call.TableClient apiOp.Namespace]
    match w.TableClient [] apiOp.Namespace with
    | some err => ⟨none, [], some err, h1⟩
    | none =>
      let d := w.Delete h1 apiOp.Namespace id opts
      let h2 := h1 ++ [Call.Delete apiOp.Namespace id opts]
      match d.err with
      | some err => ⟨none, [], some err, h2⟩
      | none =>
        let g := byID w h2 apiOp schema apiOp.Namespace id
        match g.err with
        | some _ => ⟨none, [], some (Err.errorCode ⟨"", 204⟩), g.calls⟩
        | none => ⟨g.resp, d.warnings, none, g.calls⟩

/-- Lines 790 to 798 of `ListByPartitions` (and lines 583 to 590 of `watch`): the arguments
handed to `CacheFor`, the fields being those of the schema's columns followed by those of
`getFieldForGVK`. -/
def cacheForArgs (safeSplit : String → List String) (schema : APISchema) : CacheForArgs :=
  let gvk := schema.GVK
  let fields := getFieldsFromSchema safeSplit schema
  let fields := fields ++ getFieldForGVK gvk
  { fields := fields
    externalUpdateInfo := externalGVKDependencies gvk
    selfUpdateInfo := selfGVKDependencies gvk
    gvk := gvk
    namespaced := schema.Namespaced
    watchable := schema.IsListWatchable }

/-- The filter `ListByPartitions` appends for the user `user`. -/
def userFilter (user : String) : OrFilter :=
  { Filters := [{ Field := ["metadata", "labels", "cattle.io/user-id"], Matches := [user], Op := Op.Eq }] }

/-- Lines 819 to 840 of `ListByPartitions`: the list options after the access filter for the
extension kinds `Token` and `Kubeconfig`, or the error for a request without user. -/
def accessFilter (apiOp : APIRequest) (gvk : GroupVersionKind) (opts : ListOptions) :
    Except Err ListOptions :=
  if gvk.Group = "ext.cattle.io" ∧ (gvk.Kind = "Token" ∨ gvk.Kind = "Kubeconfig") then
    let grants : Bool :=
      match apiOp.AccessSet with
      | none => false
      | some accessSet => accessSet.Grants "list" ("", "*") "" ""
    if grants = false then
      match apiOp.User with
      | none =>
        Except.error (Err.apiError MissingRequired
          "failed to get user info from the request.Context object")
      | some user => Except.ok { opts with Filters := opts.Filters ++ [userFilter user] }
    else Except.ok opts
  else Except.ok opts

/-- The end of `ListByPartitions`: the call of `inf.ListByOptions` and what is made of its
result, after the calls `h`. -/
def listFromCache (w : World) (h : List Call) (apiOp : APIRequest) (gvk : GroupVersionKind)
    (opts : ListOptions) (partitions : List Partition) : ListOutcome :=
  let r := w.ListByOptions h opts partitions apiOp.Namespace
  let h1 := h ++ [Call.ListByOptions opts partitions apiOp.Namespace]
  match r.err with
  | some err =>
    if err.isInvalidColumn then
      ⟨none, 0, "", some (Err.apiError InvalidBodyContent err.Error), h1⟩
    else ⟨none, 0, "", some (Errorf ("listbyoptions " ++ gvkString gvk) err), h1⟩
  | none => ⟨r.list, r.total, r.continueToken, none, h1⟩

/-- The method `Store.ListByPartitions`. -/
def ListByPartitions (w : World) (apiOp : APIRequest) (apiSchema : APISchema)
    (partitions : List Partition) : ListOutcome :=
  let h1 := [Call.TableAdminClient ""]
  match w.TableAdminClient [] "" with
  | some err => ⟨none, 0, "", some err, h1⟩
  | none =>
    let gvk := apiSchema.GVK
    let args := cacheForArgs w.SafeSplit apiSchema
    let h2 := h1 ++ [Call.CacheFor args]
    match w.CacheFor h1 args with
    | some err => ⟨none, 0, "", some (Errorf ("cachefor " ++ gvkString gvk) err), h2⟩
    | none =>
      match w.ParseQuery h2 with
      | Except.error err =>
        match err.asAPIError with
        | some (code, _) =>
          if code.Status = 204 then
            ⟨some ⟨[], (w.GetLatestResourceVersion h2).headD ""⟩, 0, "", none, h2⟩
          else ⟨none, 0, "", some err, h2⟩
        | none => ⟨none, 0, "", some err, h2⟩
      | Except.ok opts =>
        match accessFilter apiOp gvk opts with
        | Except.error err => ⟨none, 0, "", some err, h2⟩
        | Except.ok opts => listFromCache w h2 apiOp gvk opts partitions

/-! ## Watches -/

/-- The type `watch.EventType`. -/
inductive EventType where
  | Added
  | Modified
  | Deleted
  | Bookmark
  | Error
  deriving DecidableEq, Repr

/-- The `runtime.Object` of a watch event: an `*unstructured.Unstructured`, a
`*metav1.Status` with its message, or any object that is not a `metav1.Object`. -/
inductive RuntimeObject where
  | unstructured (o : Obj)
  | status (message : String)
  | other

/-- The struct `watch.Event`; the field `Typ` is its field `Type`. -/
structure Event where
  Typ : EventType
  Object : RuntimeObject

/-- The calls `meta.Accessor(obj)` and, when it succeeds, `GetName()`: `none` when the object
has no accessor; an unstructured object answers with the string at `metadata.name`, and
with the empty string when there is none. -/
def accessorName : RuntimeObject → Option String
  | RuntimeObject.unstructured o =>
    match GetValue o ["metadata", "name"] with
    | some (Value.str s) => some s
    | _ => some ""
  | _ => none

/-- The event `returnErr` sends on the channel for the error `err`. -/
def returnErr (err : Err) : Event :=
  { Typ := EventType.Error, Object := RuntimeObject.status err.Error }

/-- What the informer's `Watch(ctx, opts, result)` does: the events it sends on `result`, in
order, and the error it returns. -/
structure InformerWatchResult where
  events : List Event
  err : Option Err

/-- The collaborators of the watch methods, each answering from the calls made so far and
the arguments of the call: `TableAdminClientForWatch` gives the error of the client getter,
if any; `ParseSelector` is `labels.Parse`, the selector being kept as a string; `RSplit` is
`kv.RSplit`; `InformerWatch` is `inf.ByOptionsLister.Watch`. -/
structure WatchWorld where
  TableAdminClientForWatch : List Call → String → Option Err
  ParseSelector : String → Except Err String
  RSplit : String → String → String × String
  InformerWatch : List Call → WatchOptions → InformerWatchResult

/-- What a watch method returns: the events sent on the channel it returns until the channel
is closed, in order (`none`: the channel is nil), the error, and the calls made. -/
structure WatchOutcome where
  events : Option (List Event)
  err : Option Err
  calls : List Call

/-- The method `Store.watch`, run after the calls `h`. -/
def watch (w : World) (ww : WatchWorld) (h : List Call) (apiOp : APIRequest)
    (schema : APISchema) (wr : WatchRequest) : WatchOutcome :=
  let args := cacheForArgs w.SafeSplit schema
  let h1 := h ++ [Call.CacheFor args]
  match w.CacheFor h args with
  | some err => ⟨none, some err, h1⟩
  | none =>
    let selector : Except Err (Option String) :=
      if wr.Selector ≠ "" then
        match ww.ParseSelector wr.Selector with
        | Except.error err => Except.error (Errorf "invalid selector" err)
        | Except.ok sel => Except.ok (some sel)
      else Except.ok none
    match selector with
    | Except.error err => ⟨none, some err, h1⟩
    | Except.ok selector =>
      let idNamespace := (ww.RSplit wr.ID "/").1
      let idNamespace := if idNamespace = "" then apiOp.Namespace else idNamespace
      let opts : WatchOptions :=
        { ResourceVersion := wr.Revision
          Filter := { ID := wr.ID, Namespace := idNamespace, Selector := selector } }
      let r := ww.InformerWatch h1 opts
      let events :=
        match r.err with
        | some err => r.events ++ [returnErr err]
        | none => r.events
      ⟨some events, none, h1 ++ [Call.InformerWatch opts]⟩

/-- The method `Store.Watch`, run after the calls `h`. -/
def Watch (w : World) (ww : WatchWorld) (h : List Call) (apiOp : APIRequest)
    (schema : APISchema) (wr : WatchRequest) : WatchOutcome :=
  let h1 := h ++ [Call.TableAdminClientForWatch ""]
  match ww.TableAdminClientForWatch h "" with
  | some err => ⟨none, some err, h1⟩
  | none => watch w ww h1 apiOp schema wr

/-- The loop of the goroutine of `WatchNames`: the events it sends on `result` while it
ranges over the events `c` of the underlying watch. -/
def watchNamesLoop (names : List String) : List Event → List Event
  | [] => []
  | item :: rest =>
    if item.Typ = EventType.Error then item :: watchNamesLoop names rest
    else
      match accessorName item.Object with
      | none => watchNamesLoop names rest
      | some name =>
        if name ∈ names then item :: watchNamesLoop names rest
        else watchNamesLoop names rest

/-- The method `Store.WatchNames`, run after the calls `h`; `names` lists the members of the
set of allowed names. -/
def WatchNames (w : World) (ww : WatchWorld) (h : List Call) (apiOp : APIRequest)
    (schema : APISchema) (wr : WatchRequest) (names : List String) : WatchOutcome :=
  let h1 := h ++ [Call.TableAdminClientForWatch ""]
  match ww.TableAdminClientForWatch h "" with
  | some err => ⟨none, some err, h1⟩
  | none =>
    let c := watch w ww h1 apiOp schema wr
    match c.err with
    | some err => ⟨none, some err, c.calls⟩
    | none => ⟨some (watchNamesLoop names (c.events.getD [])), none, c.calls⟩

/-- The method `Store.watchByPartition`, run after the calls `h`: the request as the method
leaves it (it assigns `apiOp.Namespace`) and what it returns. -/
def watchByPartition (w : World) (ww : WatchWorld) (h : List Call) (partition : Partition)
    (apiOp : APIRequest) (schema : APISchema) (wr : WatchRequest) :
    APIRequest × WatchOutcome :=
  if partition.Passthrough = true then (apiOp, Watch w ww h apiOp schema wr)
  else
    let apiOp := { apiOp with Namespace := partition.Namespace }
    if partition.All = true then (apiOp, Watch w ww h apiOp schema wr)
    else (apiOp, WatchNames w ww h apiOp schema wr partition.Names)

/-- Receives the next event of the worker `i`, if it has one to send. -/
def nextOf : Nat → List (List Event) → Option (Event × List (List Event))
  | _, [] => none
  | 0, [] :: _ => none
  | 0, (e :: es) :: rest => some (e, es :: rest)
  | i + 1, s :: rest =>
    match nextOf i rest with
    | some (e, rest') => some (e, s :: rest')
    | none => none

/-- The events received on the result channel of `WatchByPartitions` when every worker
forwards the events of `streams` in order: `schedule` names the worker whose send is received
next (a worker with nothing to send is passed over), and what is left when the schedule
ends is received worker after worker. -/
def fanIn : List Nat → List (List Event) → List Event
  | [], streams => streams.flatten
  | i :: schedule, streams =>
    match nextOf i streams with
    | some (e, streams') => e :: fanIn schedule streams'
    | none => fanIn schedule streams

/-- The goroutine that `WatchByPartitions` starts for one partition: the events it forwards
to the result channel. When `watchByPartition` fails the goroutine returns the error to the
`errgroup` and forwards nothing. -/
def partitionWorker (w : World) (ww : WatchWorld) (partition : Partition) (apiOp : APIRequest)
    (schema : APISchema) (wr : WatchRequest) : List Event :=
  let c := (watchByPartition w ww [] partition apiOp schema wr).2
  match c.err with
  | some _ => []
  | none => c.events.getD []

/-- The method `Store.WatchByPartitions`. The goroutines are embedded by what reaches the
result channel: each worker forwards the events of its own watch, `schedule` is the order in
which the sends of the workers are received, and the channel is closed once the context is
done and `eg.Wait()` has returned, its error being dropped. Each worker is run on the
request as cloned, where the Go code lets the workers share the clone. -/
def WatchByPartitions (w : World) (ww : WatchWorld) (apiOp : APIRequest) (schema : APISchema)
    (wr : WatchRequest) (partitions : List Partition) (schedule : List Nat) : WatchOutcome :=
  let streams := partitions.map (fun p => partitionWorker w ww p apiOp schema wr)
  let calls := (partitions.map
    (fun p => (watchByPartition w ww [] p apiOp schema wr).2.calls)).flatten
  ⟨some (fanIn schedule streams), none, calls⟩

/-- The events `WatchNames` lets through, in the words of its documentation: an error event,
or an event whose object has an accessor and a name in the allowed set. -/
def allowedByNames (names : List String) (ev : Event) : Bool :=
  ev.Typ == EventType.Error ||
    match accessorName ev.Object with
    | some name => decide (name ∈ names)
    | none => false

/-- A watch world in which every call succeeds, selectors parse to themselves, IDs have no
namespace part and the informer sends the given events and returns the given error. -/
def sampleWatchWorld (events : List Event) (err : Option Err) : WatchWorld :=
  { TableAdminClientForWatch := fun _ _ => none
    ParseSelector := fun s => Except.ok s
    RSplit := fun s _ => ("", s)
    InformerWatch := fun _ _ => ⟨events, err⟩ }

/-- An event of type `typ` on an object named `name`. -/
def sampleEvent (typ : EventType) (name : String) : Event :=
  { Typ := typ
    Object := RuntimeObject.unstructured [("metadata", Value.obj [("name", Value.str name)])] }

/-! ## Observations on the calls an operation made -/

/-- The namespace `Create` works in after line 658: the payload's own namespace, or the
request's namespace for a namespaced schema and a payload without namespace. -/
def createNamespace (w : World) (apiOp : APIRequest) (schema : APISchema) (input : Obj) :
    String :=
  if schema.Namespaced = true ∧ Namespace w.Sprint input = "" then apiOp.Namespace
  else Namespace w.Sprint input

/-- The value of `input` when `Create` reaches line 663, for the payload `input`. -/
def createInput (w : World) (apiOp : APIRequest) (schema : APISchema) (input : Obj) : Obj :=
  let input1 :=
    if Name w.Sprint input = "" ∧ ObjString w.Sprint input ["metadata", "generateName"] = "" then
      PutValue input (firstByteDash schema.ID) ["metadata", "generateName"]
    else input
  let input2 :=
    if schema.Namespaced = true ∧ Namespace w.Sprint input = "" then
      PutValue input1 (Value.str apiOp.Namespace) ["metadata", "namespace"]
    else input1
  (input2.set "apiVersion" (Value.str schema.GVK.ToAPIVersionAndKind.1)).set "kind"
    (Value.str schema.GVK.ToAPIVersionAndKind.2)

/-- Lines 663 to 677 of `Create`, for the namespace `ns` and the object `input` built before. -/
def createCall (w : World) (apiOp : APIRequest) (ns : String) (input : Obj) : Outcome :=
  match w.TableClient [] ns with
  | some err => ⟨none, [], some err, [Call.TableClient ns]⟩
  | none =>
    match apiOp.decodeParams ParamTarget.CreateOptions with
    | Except.error err => ⟨none, [], some err, [Call.TableClient ns]⟩
    | Except.ok opts =>
      let r := w.Create [Call.TableClient ns] ns input opts
      ⟨rowToObject r.resp, r.warnings, r.err, [Call.TableClient ns, Call.Create ns input opts]⟩


/-- The object of a `Create` call. -/
def Call.created : Call → Option Obj
  | Call.Create _ obj _ => some obj
  | _ => none

/-- The objects sent to upstream `Create`, in order. -/
def createdObjects (calls : List Call) : List Obj :=
  calls.filterMap Call.created

/-- The list options of a `ListByOptions` call. -/
def Call.listOptions : Call → Option ListOptions
  | Call.ListByOptions lo _ _ => some lo
  | _ => none

/-- The list options handed to the cache, in order. -/
def handedListOptions (calls : List Call) : List ListOptions :=
  calls.filterMap Call.listOptions

/-- The payload's `metadata` is absent or is a map. -/
def MetadataMapOrAbsent (o : Obj) : Prop :=
  o.get "metadata" = none ∨ ∃ m, o.get "metadata" = some (Value.obj m)

/-! ## Sample worlds and requests, for concrete evaluation -/

/-- A world in which every call succeeds: clients are handed out, calls on them return no
object, no error and no warning, the parsed query has no filter and the cache is empty. -/
def quietWorld : World :=
  { Reserved := ReservedFields
    Sprint := fun _ => "?"
    SafeSplit := fun field => [field]
    Unmarshal := fun _ => Except.ok (some [])
    Marshal := fun _ => Except.ok []
    TableClient := fun _ _ => none
    TableAdminClient := fun _ _ => none
    Create := fun _ _ _ _ => ⟨none, none, []⟩
    Update := fun _ _ _ _ => ⟨none, none, []⟩
    Patch := fun _ _ _ _ _ _ => ⟨none, none, []⟩
    Delete := fun _ _ _ _ => ⟨none, []⟩
    Get := fun _ _ _ _ => ⟨none, none, []⟩
    CacheFor := fun _ _ => none
    GetLatestResourceVersion := fun _ => []
    ParseQuery := fun _ => Except.ok ⟨[], ""⟩
    ListByOptions := fun _ _ _ _ => ⟨some ⟨[], ""⟩, 0, "", none⟩ }

/-- A warning. -/
def sampleWarning : Warning := ⟨299, "-", "deprecated"⟩

/-- A world as `quietWorld` in which every mutating call on a client fails with the error
`boom` after handing the warning `sampleWarning` to the warning handler, and every `Get` and
every `ListByOptions` fails with `boom`. -/
def failingWorld : World :=
  { quietWorld with
    Create := fun _ _ _ _ => ⟨none, some (Err.other "boom"), [sampleWarning]⟩
    Update := fun _ _ _ _ => ⟨none, some (Err.other "boom"), [sampleWarning]⟩
    Patch := fun _ _ _ _ _ _ => ⟨none, some (Err.other "boom"), [sampleWarning]⟩
    Delete := fun _ _ _ _ => ⟨some (Err.other "boom"), [sampleWarning]⟩
    Get := fun _ _ _ _ => ⟨none, some (Err.other "boom"), []⟩
    ListByOptions := fun _ _ _ _ => ⟨none, 0, "", some (Err.other "boom")⟩ }

/-- A request in the namespace `ns` with the method `method`, whose query parameters decode
to empty options, sent by the user `alice` without an access set. -/
def sampleRequest (method ns : String) : APIRequest :=
  { Namespace := ns
    Method := method
    ContentType := ""
    Body := Except.ok []
    decodeParams := fun _ => Except.ok []
    User := some "alice"
    AccessSet := none }

/-- The request `sampleRequest` with query parameters that cannot be decoded. -/
def badQueryRequest (method ns : String) : APIRequest :=
  { sampleRequest method ns with
    decodeParams := fun _ => Except.error (Err.other "unable to decode parameters") }

/-- The schema of pods. -/
def podSchema : APISchema :=
  { ID := "pods"
    Namespaced := true
    GVK := ⟨"", "v1", "Pod"⟩
    Columns := none
    IsCRD := false
    IsListWatchable := true }

/-- The schema of the extension tokens. -/
def tokenSchema : APISchema :=
  { ID := "ext.cattle.io.tokens"
    Namespaced := false
    GVK := ⟨"ext.cattle.io", "v1", "Token"⟩
    Columns := none
    IsCRD := false
    IsListWatchable := true }

end Sqlproxy

/-! # The router (`pkg/server/router`) and the handlers (`pkg/server/handler`)

`Routes` registers patterns on an `http.ServeMux` of the Go standard library and returns the
mux. The mux (`net/http`, files `server.go`, `pattern.go` and `routing_tree.go`) is embedded
by the part of its routing that these patterns use: patterns without method and host, made
of literal segments, single wildcards `{name}` and an optional trailing slash. Go strings
are sequences of bytes: a percent-decoded segment of a path need not be text. -/

namespace Router

/-- A Go string, as the sequence of its bytes. -/
abbrev GoString := List Nat

/-- The Go string of a text: its UTF-8 encoding. -/
def text (s : String) : GoString :=
  (s.data.map Sqlproxy.utf8Char).flatten

/-- Splits a Go string at every `/` (the byte 47). -/
def splitSlash : GoString → List GoString
  | [] => [[]]
  | c :: cs =>
    if c = 47 then [] :: splitSlash cs
    else
      match splitSlash cs with
      | [] => [[c]]
      | s :: ss => (c :: s) :: ss

/-- Splits a sequence of characters at every `/`. -/
def splitChars : List Char → List (List Char)
  | [] => [[]]
  | c :: cs =>
    if c = '/' then [] :: splitChars cs
    else
      match splitChars cs with
      | [] => [[c]]
      | s :: ss => (c :: s) :: ss

/-- A segment of a pattern. -/
inductive PatternSegment where
  | literal (s : String)
  | wildcard (name : String)
  deriving DecidableEq, Repr

/-- A pattern: its segments before the trailing slash, and whether it ends with a slash, which
matches every rest of a path (an anonymous multi wildcard). -/
structure Pattern where
  segments : List PatternSegment
  multi : Bool
  deriving DecidableEq, Repr

/-- One segment of a pattern string: `{name}` is a wildcard, anything else a literal. -/
def parseSegment (cs : List Char) : PatternSegment :=
  match cs with
  | '{' :: rest =>
    if rest.getLast? = some '}' then PatternSegment.wildcard (String.mk rest.dropLast)
    else PatternSegment.literal (String.mk cs)
  | _ => PatternSegment.literal (String.mk cs)

/-- The pattern written `s`, for example `/v1/{type}` or `/api/`. -/
def parsePattern (s : String) : Pattern :=
  match s.data with
  | '/' :: cs =>
    let parts := splitChars cs
    if parts.getLast? = some [] then ⟨parts.dropLast.map parseSegment, true⟩
    else ⟨parts.map parseSegment, false⟩
  | _ => ⟨[], false⟩

/-- The test `ishex` of `net/url`. -/
def ishex (c : Nat) : Bool :=
  (48 ≤ c && c ≤ 57) || (97 ≤ c && c ≤ 102) || (65 ≤ c && c ≤ 70)

/-- The function `unhex` of `net/url`. -/
def unhex (c : Nat) : Nat :=
  if 48 ≤ c ∧ c ≤ 57 then c - 48
  else if 97 ≤ c ∧ c ≤ 102 then c - 97 + 10
  else if 65 ≤ c ∧ c ≤ 70 then c - 65 + 10
  else 0

/-- The function `url.PathUnescape`: every `%XY` with two hexadecimal digits is replaced by
the byte it writes; `none` is the error returned when a `%` is not followed by two
hexadecimal digits. -/
def unescape : GoString → Option GoString
  | [] => some []
  | c :: rest =>
    if c = 37 then
      match rest with
      | a :: b :: rest2 =>
        if ishex a && ishex b then
          match unescape rest2 with
          | some t => some ((unhex a * 16 + unhex b) :: t)
          | none => none
        else none
      | _ => none
    else
      match unescape rest with
      | some t => some (c :: t)
      | none => none

/-- The function `pathUnescape` of `net/http`: the percent-decoded string, or the string
itself when it is not validly escaped. -/
def pathUnescape (s : GoString) : GoString :=
  (unescape s).getD s

/-- The segments that `routingNode.matchPath` takes off a path, one after the other, with
`firstSegment`, until the path is empty. `firstSegment` drops the first byte of the path
and percent-decodes what stands before the next slash; of the path `/` alone it makes the
segment `/`, which stands for a trailing slash. So, with the path after its first byte split
at its slashes: every part is a segment, percent-decoded, except that an empty last part
that follows a slash is the segment `/`. -/
def pathSegments (path : GoString) : List GoString :=
  if path = [] then []
  else if path = [47] then [[47]]
  else
    let parts := splitSlash (path.drop 1)
    if 2 ≤ parts.length ∧ parts.getLast? = some [] then
      parts.dropLast.map pathUnescape ++ [[47]]
    else parts.map pathUnescape

/-- A part of a path that `path.Clean` keeps: not empty, not `.` and not `..`. -/
def normalSegment (s : GoString) : Bool :=
  s != [] && s != [46] && s != [46, 46]

/-- Whether `cleanPath(path) == path` (`net/http`): the path starts with a slash, has no
empty, `.` or `..` part, and may end with one slash. -/
def isClean (path : GoString) : Bool :=
  match path with
  | c :: cs =>
    c == 47 && (splitSlash cs).dropLast.all normalSegment &&
      ((splitSlash cs).getLast?.getD [] == [] ||
        normalSegment ((splitSlash cs).getLast?.getD []))
  | [] => false

/-- What `Routes` registers a pattern for: the function registered at `/`, or one of the
fields of `Handlers`. -/
inductive Registered where
  | rootFunc
  | APIRoot
  | ExtensionAPIServer
  | K8sResource
  | K8sProxy
  deriving DecidableEq, Repr

/-- The struct `Handlers`: for every field, whether it is set (not nil). -/
structure Handlers where
  K8sResource : Bool
  APIRoot : Bool
  K8sProxy : Bool
  Next : Bool
  ExtensionAPIServer : Bool
  deriving DecidableEq, Repr

/-- The function `Routes`: the patterns it registers on the mux, with what they are
registered for; `none` is the panic of `m.Handle` on a nil handler. -/
def Routes (h : Handlers) : Option (List (String × Registered)) :=
  if h.APIRoot = false ∨ h.K8sResource = false ∨ h.K8sProxy = false then none
  else
    some ([("/", Registered.rootFunc),
        ("/v1", Registered.APIRoot)] ++
      (if h.ExtensionAPIServer = true then
        [("/ext", Registered.ExtensionAPIServer), ("/ext/", Registered.ExtensionAPIServer)]
      else []) ++
      [("/v1/{type}", Registered.K8sResource),
        ("/v1/{type}/{nameorns}", Registered.K8sResource),
        ("/v1/{type}/{namespace}/{name}", Registered.K8sResource),
        ("/v1/{type}/{namespace}/{name}/{link}", Registered.K8sResource),
        ("/api", Registered.K8sProxy),
        ("/api/", Registered.K8sProxy),
        ("/apis/", Registered.K8sProxy),
        ("/openapi/", Registered.K8sProxy),
        ("/version/", Registered.K8sProxy)])

/-- The name of a wildcard segment. -/
def wildcardName : PatternSegment → Option String
  | PatternSegment.wildcard name => some name
  | PatternSegment.literal _ => none

/-- A registered pattern during the match of a path: the segments of the pattern not matched
yet, whether it ends with a slash, the number of segments of the whole pattern (the trailing
slash counts for one), what it is registered for, the names of its wildcards in order, and
the matches recorded so far (the slice `matches` of `matchPath`). -/
structure Candidate where
  rest : List PatternSegment
  multi : Bool
  count : Nat
  target : Registered
  names : List String
  found : List GoString
  deriving DecidableEq, Repr

/-- The candidates at the root of the routing tree. -/
def candidates (routes : List (String × Registered)) : List Candidate :=
  routes.map (fun r =>
    let p := parsePattern r.1
    { rest := p.segments
      multi := p.multi
      count := p.segments.length + (if p.multi then 1 else 0)
      target := r.2
      names := p.segments.filterMap wildcardName
      found := [] })

/-- The key under which a routing node keeps the child for a segment of a pattern: the
literal itself, and the empty key for a single wildcard. -/
def childKey : PatternSegment → GoString
  | PatternSegment.literal s => text s
  | PatternSegment.wildcard _ => []

/-- The method `findChild(seg)` followed by the descent into that child: the patterns whose
next segment is kept under the key `seg`. For the empty segment this is the child of the
single wildcards (`findChild` returns `emptyChild` for the empty key), entered without a
match being recorded. -/
def stepLiteral (seg : GoString) (cs : List Candidate) : List Candidate :=
  cs.filterMap (fun c =>
    match c.rest with
    | p :: rest => if childKey p = seg then some { c with rest := rest } else none
    | [] => none)

/-- The descent into `emptyChild`, the child of the single wildcards, with the segment
appended to the matches. -/
def stepWildcard (seg : GoString) (cs : List Candidate) : List Candidate :=
  cs.filterMap (fun c =>
    match c.rest with
    | p :: rest =>
      if childKey p = [] then some { c with rest := rest, found := c.found ++ [seg] } else none
    | [] => none)

/-- The pattern of the node reached, one that ends here without a trailing slash. -/
def leaf (cs : List Candidate) : Option Candidate :=
  cs.find? (fun c => c.rest.isEmpty && !c.multi)

/-- The pattern of `multiChild`, one that has its trailing slash here. -/
def multiLeaf (cs : List Candidate) : Option Candidate :=
  cs.find? (fun c => c.rest.isEmpty && c.multi)

/-- The method `routingNode.matchPath`, on the segments of the path: at every segment the
child of that literal is tried first, then, unless the segment is `/`, the child of the
single wildcards, then the pattern with a trailing slash. -/
def matchPath : List Candidate → List GoString → Option Candidate
  | cs, [] => leaf cs
  | cs, seg :: rest =>
    match matchPath (stepLiteral seg cs) rest with
    | some c => some c
    | none =>
      match (if seg = [47] then none else matchPath (stepWildcard seg cs) rest) with
      | some c => some c
      | none => multiLeaf cs

/-- The function `exactMatch`: a match is exact unless a trailing slash of the pattern
matched a non-empty rest of the path; `strings.Count(path, "/")` is `path.count 47`. -/
def exactMatch (n : Option Candidate) (path : GoString) : Bool :=
  match n with
  | none => false
  | some c =>
    if c.multi = false then true
    else if path ≠ [] ∧ path.getLast? ≠ some 47 then false
    else c.count == path.count 47

/-- Whether `matchOrRedirect`, called with the URL of the request, returns a redirect: the
path is not matched exactly, does not end with a slash, and is matched exactly once a slash
is appended. -/
def redirects (cs : List Candidate) (path : GoString) : Bool :=
  !exactMatch (matchPath cs (pathSegments path)) path && !(path.getLast? == some 47) &&
    exactMatch (matchPath cs (pathSegments (path ++ [47]))) (path ++ [47])

/-- What the mux and the handlers of `Routes` read of an `http.Request`: its method, its
`RequestURI`, the fields `Path` and `RawPath` of its URL, and `EscapedPath`, the value of
`r.URL.EscapedPath()`, which `net/url` computes from `Path` and `RawPath`. -/
structure Request where
  Method : String
  RequestURI : GoString
  Path : GoString
  RawPath : GoString
  EscapedPath : GoString
  deriving DecidableEq, Repr

/-- What serving a request comes to: one of the handlers of `Handlers` is invoked
(`K8sResource` on a request that carries the names of the wildcards of the matched pattern
and the recorded matches; `ExtensionAPIServer` on a request with the given `Path` and
`RawPath`), or the mux answers itself with `400 bad request`, with a redirect or with
`404 not found`, or the function registered at `/` returns without invoking a handler. -/
inductive Served where
  | APIRoot
  | K8sResource (names : List String) (found : List GoString)
  | K8sProxy
  | Next
  | ExtensionAPIServer (path rawPath : GoString)
  | badRequest
  | redirect
  | notFound
  | nothing
  deriving DecidableEq, Repr

/-- The call `strings.TrimPrefix(s, "/ext")`. -/
def trimExt (s : GoString) : GoString :=
  if s.take 4 = text "/ext" then s.drop 4 else s

/-- The handler registered for the matched pattern, invoked on the request: the function at
`/` of `Routes`, `http.StripPrefix("/ext", ...)` around the extension server (it answers
`404 not found` unless `Path`, and `RawPath` when it is not empty, start with `/ext`), or a
field of `Handlers`. -/
def invoke (h : Handlers) (r : Request) (c : Candidate) : Served :=
  match c.target with
  | Registered.rootFunc =>
    if r.Path = text "/" then Served.APIRoot
    else if h.Next = true then Served.Next
    else Served.nothing
  | Registered.APIRoot => Served.APIRoot
  | Registered.ExtensionAPIServer =>
    if (trimExt r.Path).length < r.Path.length ∧
        (r.RawPath = [] ∨ (trimExt r.RawPath).length < r.RawPath.length) then
      Served.ExtensionAPIServer (trimExt r.Path) (trimExt r.RawPath)
    else Served.notFound
  | Registered.K8sResource => Served.K8sResource c.names c.found
  | Registered.K8sProxy => Served.K8sProxy

/-- The end of `ServeMux.findHandler` and the call of the handler found: `404 not found`
when no pattern matches (no pattern of `Routes` names a method, so the mux never answers
`405`). -/
def dispatch (h : Handlers) (r : Request) (n : Option Candidate) : Served :=
  match n with
  | none => Served.notFound
  | some c => invoke h r c

/-- The method `ServeMux.ServeHTTP` on the mux with the registered `routes`. The request URI
`*` is answered with `400`. The path of a `CONNECT` request is matched as it is. The path of
every other request is cleaned first: when cleaning changes it, the mux answers with a
redirect (to the cleaned path, or to the cleaned path with a slash appended). A path without
trailing slash that is not matched exactly is redirected when the path with a slash appended
is matched exactly. Otherwise the handler of the matched pattern is invoked. -/
def ServeHTTP (h : Handlers) (routes : List (String × Registered)) (r : Request) : Served :=
  if r.RequestURI = text "*" then Served.badRequest
  else if r.Method = "CONNECT" then
    if redirects (candidates routes) r.EscapedPath = true then Served.redirect
    else dispatch h r (matchPath (candidates routes) (pathSegments r.EscapedPath))
  else if isClean r.EscapedPath = false then Served.redirect
  else if redirects (candidates routes) r.EscapedPath = true then Served.redirect
  else dispatch h r (matchPath (candidates routes) (pathSegments r.EscapedPath))

/-- Serving a request on the handler that `Routes h` returns (`urlbuilder.RedirectRewrite`
around the mux passes the request on to the mux); `none` when `Routes` panics. -/
def serve (h : Handlers) (r : Request) : Option Served :=
  match Routes h with
  | none => none
  | some routes => some (ServeHTTP h routes r)

/-- Spec side: what the function registered at `/` does with a request that no other route
takes: `APIRoot` for the URL path `/`, else `Next` when it is set and no handler when it is
not. -/
def expectedRoot (h : Handlers) (r : Request) : Served :=
  if r.Path = text "/" then Served.APIRoot
  else if h.Next = true then Served.Next
  else Served.nothing

/-- Spec side: the routing table under `/v1`, read on the segments that follow `v1`:
`APIRoot` for none; `K8sResource` for one to four segments none of which is `/`, which are
the matches of the wildcards of the route; else what `expectedRoot` says. -/
def expectedV1 (h : Handlers) (r : Request) (rest : List GoString) : Served :=
  match rest with
  | [] => Served.APIRoot
  | [t] =>
    if t = [47] then expectedRoot h r else Served.K8sResource ["type"] [t]
  | [t, x] =>
    if t = [47] ∨ x = [47] then expectedRoot h r
    else Served.K8sResource ["type", "nameorns"] [t, x]
  | [t, ns, n] =>
    if t = [47] ∨ ns = [47] ∨ n = [47] then expectedRoot h r
    else Served.K8sResource ["type", "namespace", "name"] [t, ns, n]
  | [t, ns, n, l] =>
    if t = [47] ∨ ns = [47] ∨ n = [47] ∨ l = [47] then expectedRoot h r
    else Served.K8sResource ["type", "namespace", "name", "link"] [t, ns, n, l]
  | _ => expectedRoot h r

/-- Spec side: the routing table in words, for a request whose escaped path needs no
cleaning, read on the percent-decoded segments of that path (a segment `/` is a trailing
slash, or a segment written `%2F`; no wildcard takes it): `APIRoot` for `/v1`; `K8sResource`
for `/v1/` followed by one to four segments, which are the matches of the wildcards of the
route; `K8sProxy` for `/api` and for the paths under `/api/`, `/apis/`, `/openapi/` and
`/version/`; a redirect by the mux for `/apis`, `/openapi` and `/version`; the extension
server, when it is set, for `/ext` and the paths under `/ext/`, on the URL path without its
first four bytes `/ext`, or `404 not found` when the URL path, or a non-empty raw path, does
not start with `/ext`; and for every other request what `expectedRoot` says. -/
def expectedServed (h : Handlers) (r : Request) : Served :=
  match pathSegments r.EscapedPath with
  | [] => expectedRoot h r
  | s :: rest =>
    if s = text "v1" then expectedV1 h r rest
    else if s = text "api" then Served.K8sProxy
    else if s = text "apis" ∨ s = text "openapi" ∨ s = text "version" then
      if rest = [] then Served.redirect else Served.K8sProxy
    else if s = text "ext" ∧ h.ExtensionAPIServer = true then
      if r.Path.take 4 = text "/ext" ∧ (r.RawPath = [] ∨ r.RawPath.take 4 = text "/ext") then
        Served.ExtensionAPIServer (r.Path.drop 4) (r.RawPath.drop 4)
      else Served.notFound
    else expectedRoot h r

/-- The candidates at the root of the routing tree of `Routes`, `ext` telling whether the
extension server is set. -/
def rootCandidates (ext : Bool) : List Candidate :=
  [⟨[], true, 1, Registered.rootFunc, [], []⟩,
    ⟨[PatternSegment.literal "v1"], false, 1, Registered.APIRoot, [], []⟩] ++
  (if ext = true then
    [⟨[PatternSegment.literal "ext"], false, 1, Registered.ExtensionAPIServer, [], []⟩,
      ⟨[PatternSegment.literal "ext"], true, 2, Registered.ExtensionAPIServer, [], []⟩]
  else []) ++
  [⟨[PatternSegment.literal "v1", PatternSegment.wildcard "type"], false, 2,
      Registered.K8sResource, ["type"], []⟩,
    ⟨[PatternSegment.literal "v1", PatternSegment.wildcard "type",
      PatternSegment.wildcard "nameorns"], false, 3, Registered.K8sResource,
      ["type", "nameorns"], []⟩,
    ⟨[PatternSegment.literal "v1", PatternSegment.wildcard "type",
      PatternSegment.wildcard "namespace", PatternSegment.wildcard "name"], false, 4,
      Registered.K8sResource, ["type", "namespace", "name"], []⟩,
    ⟨[PatternSegment.literal "v1", PatternSegment.wildcard "type",
      PatternSegment.wildcard "namespace", PatternSegment.wildcard "name",
      PatternSegment.wildcard "link"], false, 5, Registered.K8sResource,
      ["type", "namespace", "name", "link"], []⟩,
    ⟨[PatternSegment.literal "api"], false, 1, Registered.K8sProxy, [], []⟩,
    ⟨[PatternSegment.literal "api"], true, 2, Registered.K8sProxy, [], []⟩,
    ⟨[PatternSegment.literal "apis"], true, 2, Registered.K8sProxy, [], []⟩,
    ⟨[PatternSegment.literal "openapi"], true, 2, Registered.K8sProxy, [], []⟩,
    ⟨[PatternSegment.literal "version"], true, 2, Registered.K8sProxy, [], []⟩]

/-- The handlers of the tests: the three handlers of the API, with or without `Next` and the
extension server. -/
def sampleHandlers (next ext : Bool) : Handlers :=
  { K8sResource := true, APIRoot := true, K8sProxy := true, Next := next,
    ExtensionAPIServer := ext }

/-- The request that the server makes of the request line `method path`, for a path written
with characters that need no escaping: the URL path is the path, the raw path is empty and
the escaped path is the path. -/
def plainRequest (method path : String) : Request :=
  { Method := method
    RequestURI := text path
    Path := text path
    RawPath := []
    EscapedPath := text path }

/-- The request that the server makes of the request line `method raw`, for a validly
escaped path `raw` that is not the default escaping of the path `path` it decodes to: the
raw path is kept, and the escaped path is the raw path. -/
def escapedRequest (method raw path : String) : Request :=
  { Method := method
    RequestURI := text raw
    Path := text path
    RawPath := text raw
    EscapedPath := text raw }

end Router

/-! # The handlers (`pkg/server/handler`) -/

namespace Handler

/-- What `k8sAPI` writes of a `types.APIRequest`; the field `Typ` is its field `Type`. -/
structure APIRequest where
  Typ : Router.GoString
  Name : Router.GoString
  Namespace : Router.GoString
  deriving DecidableEq, Repr

/-- The function `apiRoot`. -/
def apiRoot (apiOp : APIRequest) : APIRequest :=
  { apiOp with Typ := Router.text "apiRoot" }

end Handler

/-! # The client factory (`pkg/client`)

The file `pkg/client/factory.go` is not among the sources of this development; only its
tests are. The definitions of this section are modelled from the specification of the
client factory and from what `factory_test.go` calls and asserts. A `float32` rate is
embedded as a rational number: it is only stored and copied. -/

namespace Client

/-- Modelled from the spec: the struct `factoryOptions` of the missing `factory.go`, with the
configuration of the client factory: `qps`, the sustained requests per second; `burst`, the
depth of the token bucket; `sharedQPS`, whether one rate limiter is shared by every client
produced. -/
structure factoryOptions where
  qps : Rat
  burst : Int
  sharedQPS : Bool
  deriving DecidableEq

/-- Modelled from the spec: a `FactoryOption` of the missing `factory.go`, a function that
writes into the options of the factory. -/
abbrev FactoryOption := factoryOptions → factoryOptions

/-- Modelled from the spec: the option `WithQPSAndBurst(qps, burst, sharedQPS)` of the
missing `factory.go`, which sets the three fields of the options. -/
def WithQPSAndBurst (qps : Rat) (burst : Int) (sharedQPS : Bool) : FactoryOption :=
  fun fo => { fo with qps := qps, burst := burst, sharedQPS := sharedQPS }

/-- What the factory reads and writes of a `rest.Config`. -/
structure RestConfig where
  Host : String
  QPS : Rat
  Burst : Int
  deriving DecidableEq

/-- Modelled from the spec: the struct `Factory` of the missing `factory.go`, with its client
configuration and the options it was built with. -/
structure Factory where
  clientCfg : RestConfig
  impersonate : Bool
  options : factoryOptions
  deriving DecidableEq

/-- Modelled from the spec: the function `NewFactory(cfg, impersonate, opts...)` of the
missing `factory.go`: it applies the options, in order, to the default options `defaults`
(the value of `defaultFactoryOptions()`), copies the configuration with the `QPS` and
`Burst` of the options, and returns the factory, or the configuration error that building
the clients from that configuration gives (`build`). -/
def NewFactory (defaults : factoryOptions) (build : RestConfig → Option Sqlproxy.Err)
    (cfg : RestConfig) (impersonate : Bool) (opts : List FactoryOption) :
    Except Sqlproxy.Err Factory :=
  let fo := opts.foldl (fun fo o => o fo) defaults
  let clientCfg := { cfg with QPS := fo.qps, Burst := fo.burst }
  match build clientCfg with
  | some err => Except.error err
  | none => Except.ok { clientCfg := clientCfg, impersonate := impersonate, options := fo }

end Client

namespace Sqlproxy

/-! ## Lemmas on maps -/

theorem Obj.get_delete (o : Obj) (k j : String) :
    (o.delete k).get j = if j = k then none else o.get j := by
  induction o with
  | nil => simp [Obj.delete, Obj.get]
  | cons p rest ih =>
    obtain ⟨k', v⟩ := p
    by_cases h : k' = k
    · subst h
      by_cases hj : j = k'
      · subst hj; simp [Obj.delete, ih]
      · have hj' : ¬ k' = j := fun e => hj e.symm
        simp [Obj.delete, Obj.get, ih, hj, hj']
    · by_cases hj : j = k
      · subst hj; simp [Obj.delete, Obj.get, h, ih]
      · simp [Obj.delete, Obj.get, h, ih, hj]

theorem Obj.get_set (o : Obj) (k j : String) (v : Value) :
    (o.set k v).get j = if j = k then some v else o.get j := by
  by_cases hj : j = k
  · subst hj; simp [Obj.set, Obj.get]
  · have hj' : ¬ k = j := fun e => hj e.symm
    simp [Obj.set, Obj.get, Obj.get_delete, hj, hj']

theorem underscore_inj {a b : String} (h : "_" ++ a = "_" ++ b) : a = b := by
  have h1 : ("_" ++ a).data = ("_" ++ b).data := by rw [h]
  simp only [String.data_append, List.append_cancel_left_eq] at h1
  exact String.ext h1

theorem underscore_ne_self (a : String) : "_" ++ a ≠ a := by
  intro h
  have h1 : ("_" ++ a).length = a.length := by rw [h]
  have h2 : "_".length = 1 := by rfl
  rw [String.length_append, h2] at h1
  omega

theorem get_moveFromUnderscoreStep (o : Obj) (r j : String) :
    (moveFromUnderscoreStep o r).get j =
      if j = r then o.get ("_" ++ r) else if j = "_" ++ r then none else o.get j := by
  unfold moveFromUnderscoreStep
  by_cases hjr : j = r
  · subst hjr
    cases hv : o.get ("_" ++ j) with
    | none => simp [Obj.get_delete]
    | some x => simp [Obj.get_set]
  · by_cases hja : j = "_" ++ r
    · subst hja
      cases hv : o.get ("_" ++ r) with
      | none => simp [Obj.get_delete]
      | some x => simp [Obj.get_set, Obj.get_delete, hjr]
    · cases hv : o.get ("_" ++ r) with
      | none => simp [Obj.get_delete, hjr, hja]
      | some x => simp [Obj.get_set, Obj.get_delete, hjr, hja]

/-- What a key holds after the whole loop of `moveFromUnderscore`. -/
theorem get_foldl_moveFromUnderscoreStep (rs : List String) :
    rs.Nodup → AliasFree rs → ∀ (o : Obj) (j : String),
      (rs.foldl moveFromUnderscoreStep o).get j =
        if j ∈ rs then o.get ("_" ++ j)
        else if (∃ r ∈ rs, j = "_" ++ r) then none else o.get j := by
  induction rs with
  | nil => intro _ _ o j; simp
  | cons r rs ih =>
    intro hnd haf o j
    have hnd' : rs.Nodup := (List.nodup_cons.mp hnd).2
    have hr : r ∉ rs := (List.nodup_cons.mp hnd).1
    have haf' : AliasFree rs := by
      intro a ha hmem
      exact haf a (List.mem_cons_of_mem _ ha) (List.mem_cons_of_mem _ hmem)
    rw [List.foldl_cons, ih hnd' haf']
    by_cases hj : j ∈ rs
    · have h1 : "_" ++ j ≠ r := by
        intro e
        exact haf j (List.mem_cons_of_mem _ hj) (by rw [e]; exact List.mem_cons_self _ _)
      have h2 : "_" ++ j ≠ "_" ++ r := by
        intro e
        exact hr (underscore_inj e ▸ hj)
      simp [hj, get_moveFromUnderscoreStep, h1, h2]
    · by_cases hal : ∃ r' ∈ rs, j = "_" ++ r'
      · have hjr : j ≠ r := by
          intro e
          obtain ⟨r', hr', e'⟩ := hal
          exact haf r' (List.mem_cons_of_mem _ hr') (by rw [← e', e]; exact List.mem_cons_self _ _)
        have hex : ∃ r' ∈ r :: rs, j = "_" ++ r' := by
          obtain ⟨r', hr', e'⟩ := hal
          exact ⟨r', List.mem_cons_of_mem _ hr', e'⟩
        have hmem : j ∉ r :: rs := by
          intro h
          rcases List.mem_cons.mp h with h | h
          · exact hjr h
          · exact hj h
        rw [if_neg hj, if_pos hal, if_neg hmem, if_pos hex]
      · rw [if_neg hj, if_neg hal, get_moveFromUnderscoreStep]
        by_cases hjr : j = r
        · subst hjr
          simp
        · have hmem : j ∉ r :: rs := by
            intro h
            rcases List.mem_cons.mp h with h | h
            · exact hjr h
            · exact hj h
          rw [if_neg hjr, if_neg hmem]
          by_cases hja : j = "_" ++ r
          · have hex : ∃ r' ∈ r :: rs, j = "_" ++ r' := ⟨r, List.mem_cons_self _ _, hja⟩
            rw [if_pos hja, if_pos hex]
          · have hex : ¬ ∃ r' ∈ r :: rs, j = "_" ++ r' := by
              rintro ⟨r', hr', e'⟩
              rcases List.mem_cons.mp hr' with h | h
              · exact hja (h ▸ e')
              · exact hal ⟨r', h, e'⟩
            rw [if_neg hja, if_neg hex]

/-! ## Reserved-field normalization (`moveFromUnderscore`) -/

/-- C1, the claim as stated fails: with the reserved names `id`, `type`, `links`, `actions`,
the object `{"_id": "x"}` is normalized to `{"id": "x"}`, but the object `{"id": "x"}`, which
carries the same value under the canonical key, is normalized to the empty object: the two
results differ and the second does not hold the value under `id`. -/
theorem moveFromUnderscore_canonical_key_dropped :
    moveFromUnderscore ReservedFields (some [("_id", Value.str "x")])
        = some [("id", Value.str "x")] ∧
      moveFromUnderscore ReservedFields (some [("id", Value.str "x")]) = some [] ∧
      ¬ (∃ ra rc, moveFromUnderscore ReservedFields (some [("_id", Value.str "x")]) = some ra ∧
          moveFromUnderscore ReservedFields (some [("id", Value.str "x")]) = some rc ∧
          (∀ j, ra.get j = rc.get j) ∧ ra.get "id" = some (Value.str "x") ∧
          rc.get "id" = some (Value.str "x")) := by
  have h1 : moveFromUnderscore ReservedFields (some [("_id", Value.str "x")])
      = some [("id", Value.str "x")] := by rfl
  have h2 : moveFromUnderscore ReservedFields (some [("id", Value.str "x")]) = some [] := by
    rfl
  refine ⟨h1, h2, ?_⟩
  rintro ⟨ra, rc, ha, hc, -, -, hid⟩
  rw [h2] at hc
  cases hc
  simp [Obj.get] at hid

/-- C1 (amended): for reserved names that are pairwise distinct and of which none is the
underscore alias of another, a reserved name `k` and a value `v`: normalizing an object that
carries `v` under the alias key `_k` gives an object that holds `v` under `k`; normalizing an
object that carries `v` under the canonical key `k` and has no key `_k` gives an object
without the key `k` (the canonical entry is dropped); neither result has the key `_k`, and
when the two inputs agree on all other keys the two results agree on every key but `k`. -/
theorem moveFromUnderscore_alias_kept_canonical_dropped (rs : List String) (hnd : rs.Nodup)
    (haf : AliasFree rs) (k : String) (hk : k ∈ rs) (v : Value) (a c : Obj)
    (ha : a.get ("_" ++ k) = some v) (_hc : c.get k = some v) (hc' : c.get ("_" ++ k) = none)
    (hrest : ∀ j, j ≠ k → j ≠ "_" ++ k → a.get j = c.get j) :
    ∃ ra rc, moveFromUnderscore rs (some a) = some ra ∧
      moveFromUnderscore rs (some c) = some rc ∧
      ra.get k = some v ∧ rc.get k = none ∧
      ra.get ("_" ++ k) = none ∧ rc.get ("_" ++ k) = none ∧
      ∀ j, j ≠ k → ra.get j = rc.get j := by
  have hal : ¬ ("_" ++ k) ∈ rs := haf k hk
  have hex : ∃ r ∈ rs, "_" ++ k = "_" ++ r := ⟨k, hk, rfl⟩
  refine ⟨_, _, rfl, rfl, ?_, ?_, ?_, ?_, ?_⟩
  · rw [get_foldl_moveFromUnderscoreStep rs hnd haf, if_pos hk, ha]
  · rw [get_foldl_moveFromUnderscoreStep rs hnd haf, if_pos hk, hc']
  · rw [get_foldl_moveFromUnderscoreStep rs hnd haf, if_neg hal, if_pos hex]
  · rw [get_foldl_moveFromUnderscoreStep rs hnd haf, if_neg hal, if_pos hex]
  · intro j hj
    rw [get_foldl_moveFromUnderscoreStep rs hnd haf, get_foldl_moveFromUnderscoreStep rs hnd haf]
    by_cases hjr : j ∈ rs
    · rw [if_pos hjr, if_pos hjr]
      apply hrest
      · intro e
        exact haf j hjr (e ▸ hk)
      · intro e
        exact hj (underscore_inj e)
    · rw [if_neg hjr, if_neg hjr]
      by_cases hja : ∃ r ∈ rs, j = "_" ++ r
      · rw [if_pos hja, if_pos hja]
      · rw [if_neg hja, if_neg hja]
        apply hrest j hj
        intro e
        exact hja ⟨k, hk, e⟩

/-- C1 (amended), at the objects `{"_id": "x", "spec": 1}` and `{"id": "x", "spec": 1}`. -/
theorem moveFromUnderscore_alias_kept_canonical_dropped_witness :
    ∃ ra rc,
      moveFromUnderscore ReservedFields
          (some [("_id", Value.str "x"), ("spec", Value.num 1)]) = some ra ∧
      moveFromUnderscore ReservedFields
          (some [("id", Value.str "x"), ("spec", Value.num 1)]) = some rc ∧
      ra.get "id" = some (Value.str "x") ∧ rc.get "id" = none ∧
      ra.get ("_" ++ "id") = none ∧ rc.get ("_" ++ "id") = none ∧
      ∀ j, j ≠ "id" → ra.get j = rc.get j :=
  moveFromUnderscore_alias_kept_canonical_dropped ReservedFields (by decide) (by decide) "id"
    (by decide) (Value.str "x") [("_id", Value.str "x"), ("spec", Value.num 1)]
    [("id", Value.str "x"), ("spec", Value.num 1)] (by rfl) (by rfl) (by rfl)
    (by
      intro j h1 h2
      have h3 : ¬ "_id" = j := fun e => h2 (e ▸ rfl)
      have h4 : ¬ "id" = j := fun e => h1 e.symm
      simp [Obj.get, h3, h4])

/-! ## Lemmas on `GetValue` and `PutValue` -/

theorem GetValue_two (d : Obj) (a c : String) :
    GetValue d [a, c] =
      match d.get a with
      | some (Value.obj m) => Obj.get m c
      | _ => none := by
  cases h : d.get a with
  | none => simp [GetValue, h, Obj.get]
  | some x => cases x <;> simp [GetValue, h, Obj.get]

theorem PutValue_two (d : Obj) (v : Value) (a b : String) :
    PutValue d v [a, b] =
      match d.get a with
      | some (Value.obj m) => d.set a (Value.obj (Obj.set m b v))
      | some _ => d
      | none => d.set a (Value.obj (Obj.set [] b v)) := by
  cases h : d.get a with
  | none => simp [PutValue, h]
  | some x => cases x <;> simp [PutValue, h]

/-- `PutValue` at a two-key path leaves every other top-level key as it was. -/
theorem get_PutValue_other (d : Obj) (v : Value) (a b j : String) (hj : j ≠ a) :
    (PutValue d v [a, b]).get j = d.get j := by
  rw [PutValue_two]
  cases h : d.get a with
  | none => simp [Obj.get_set, hj]
  | some x => cases x <;> simp [Obj.get_set, hj]

/-- `PutValue` at `[a, b]` leaves every other key below `a` as it was. -/
theorem GetValue_PutValue_sibling (d : Obj) (v : Value) (a b c : String) (hc : c ≠ b) :
    GetValue (PutValue d v [a, b]) [a, c] = GetValue d [a, c] := by
  rw [PutValue_two, GetValue_two, GetValue_two]
  have hc' : ¬ b = c := fun e => hc e.symm
  cases h : d.get a with
  | none => simp [Obj.get_set, hc, hc', Obj.get, Obj.delete]
  | some x => cases x <;> simp [Obj.get_set, hc, h]

/-- `PutValue` at `[a, b]` writes the value when `a` is absent or holds a map. -/
theorem GetValue_PutValue_same (d : Obj) (v : Value) (a b : String)
    (h : d.get a = none ∨ ∃ m, d.get a = some (Value.obj m)) :
    GetValue (PutValue d v [a, b]) [a, b] = some v := by
  rw [PutValue_two, GetValue_two]
  rcases h with h | ⟨m, h⟩
  · simp [h, Obj.get_set]
  · simp [h, Obj.get_set]

/-- After `PutValue` at `[a, b]` the key `a` is absent or holds a map exactly when it was. -/
theorem PutValue_mapOrAbsent (d : Obj) (v : Value) (a b : String)
    (h : d.get a = none ∨ ∃ m, d.get a = some (Value.obj m)) :
    ∃ m, (PutValue d v [a, b]).get a = some (Value.obj m) := by
  rw [PutValue_two]
  rcases h with h | ⟨m, h⟩
  · simp [h, Obj.get_set]
  · simp [h, Obj.get_set]

/-! ## Table normalization (`rowToObject`) -/

/-- C2, the claim as stated fails: the table with the single row
`{"cells": ["a"], "object": {"metadata": "x"}}` is replaced by the row's object
`{"metadata": "x"}` unchanged, because `data.PutValue` does not write below a `metadata` that
is not a map; the result has no `metadata.fields`, so it does not equal the cells. -/
theorem rowToObject_metadata_not_a_map :
    rowToObject (some [("kind", Value.str "Table"), ("apiVersion", Value.str "meta.k8s.io/v1"),
        ("rows", Value.arr [Value.obj [("cells", Value.arr [Value.str "a"]),
          ("object", Value.obj [("metadata", Value.str "x")])]])])
      = some [("metadata", Value.str "x")] ∧
    GetValue [("metadata", Value.str "x")] ["metadata", "fields"] = none := by
  constructor <;> rfl

/-- C2 (amended): for every object that is a `Table` of `meta.k8s.io/v1` or
`meta.k8s.io/v1beta1` whose rows list holds exactly one row, that row carrying an object map
whose `metadata` is absent or a map, `rowToObject` replaces the object by the row's object
with the cells put in: the result's `metadata.fields` equals the row's cells, every other
top-level field of the row's object is kept, and so is every other field below `metadata`. -/
theorem rowToObject_single_row (o m object : Obj) (hkind : (o.index "kind").isStr "Table" = true)
    (hver : (o.index "apiVersion").isStr "meta.k8s.io/v1" = true ∨
      (o.index "apiVersion").isStr "meta.k8s.io/v1beta1" = true)
    (hrows : o.index "rows" = Value.arr [Value.obj m])
    (hobj : Obj.get m "object" = some (Value.obj object))
    (hmeta : MetadataMapOrAbsent object) :
    ∃ r, rowToObject (some o) = some r ∧
      r = PutValue object (Obj.index m "cells") ["metadata", "fields"] ∧
      GetValue r ["metadata", "fields"] = some (Obj.index m "cells") ∧
      (∀ j, j ≠ "metadata" → r.get j = object.get j) ∧
      (∀ c, c ≠ "fields" → GetValue r ["metadata", c] = GetValue object ["metadata", c]) := by
  have htab : isTable o = true := by
    unfold isTable
    rcases hver with h | h <;> simp [hkind, h]
  refine ⟨PutValue object (Obj.index m "cells") ["metadata", "fields"], ?_, rfl, ?_, ?_, ?_⟩
  · simp [rowToObject, htab, tableToObjects, hrows, rowObject, hobj]
  · exact GetValue_PutValue_same _ _ _ _ hmeta
  · intro j hj
    exact get_PutValue_other _ _ _ _ _ hj
  · intro c hc
    exact GetValue_PutValue_sibling _ _ _ _ _ hc

/-- C2 (amended), at the table with the single row
`{"cells": ["a"], "object": {"metadata": {"name": "p"}, "spec": 1}}`. -/
theorem rowToObject_single_row_witness :
    ∃ r, rowToObject (some [("kind", Value.str "Table"),
          ("apiVersion", Value.str "meta.k8s.io/v1"),
          ("rows", Value.arr [Value.obj [("cells", Value.arr [Value.str "a"]),
            ("object", Value.obj [("metadata", Value.obj [("name", Value.str "p")]),
              ("spec", Value.num 1)])]])]) = some r ∧
      r = PutValue [("metadata", Value.obj [("name", Value.str "p")]), ("spec", Value.num 1)]
        (Obj.index [("cells", Value.arr [Value.str "a"]),
            ("object", Value.obj [("metadata", Value.obj [("name", Value.str "p")]),
              ("spec", Value.num 1)])] "cells") ["metadata", "fields"] ∧
      GetValue r ["metadata", "fields"] = some (Obj.index [("cells", Value.arr [Value.str "a"]),
            ("object", Value.obj [("metadata", Value.obj [("name", Value.str "p")]),
              ("spec", Value.num 1)])] "cells") ∧
      (∀ j, j ≠ "metadata" → r.get j =
        Obj.get [("metadata", Value.obj [("name", Value.str "p")]), ("spec", Value.num 1)] j) ∧
      (∀ c, c ≠ "fields" → GetValue r ["metadata", c] =
        GetValue [("metadata", Value.obj [("name", Value.str "p")]), ("spec", Value.num 1)]
          ["metadata", c]) :=
  rowToObject_single_row _ [("cells", Value.arr [Value.str "a"]),
      ("object", Value.obj [("metadata", Value.obj [("name", Value.str "p")]),
        ("spec", Value.num 1)])]
    [("metadata", Value.obj [("name", Value.str "p")]), ("spec", Value.num 1)]
    (by rfl) (Or.inl (by rfl)) (by rfl) (by rfl) (Or.inr ⟨_, by rfl⟩)

/-! ## Lemmas on `Create` -/

theorem GetValue_set_other (d : Obj) (k : String) (v : Value) (a c : String) (h : a ≠ k) :
    GetValue (d.set k v) [a, c] = GetValue d [a, c] := by
  rw [GetValue_two, GetValue_two, Obj.get_set, if_neg h]

/-- The method `Create` in three parts: the panic, the namespace check, the calls. -/
theorem Create_eq (w : World) (apiOp : APIRequest) (schema : APISchema) (params : Option Obj) :
    Create w apiOp schema params =
      if Name w.Sprint (params.getD []) = "" ∧
          ObjString w.Sprint (params.getD []) ["metadata", "generateName"] = "" ∧
          schema.ID = "" then none
      else if schema.Namespaced = true ∧ Namespace w.Sprint (params.getD []) = "" ∧
          apiOp.Namespace = "" then
        some ⟨none, [], some (Err.apiError InvalidBodyContent errNamespaceRequired), []⟩
      else some (createCall w apiOp (createNamespace w apiOp schema (params.getD []))
        (createInput w apiOp schema (params.getD []))) := by
  unfold Create createCall createNamespace createInput
  simp only []
  split_ifs <;> first | rfl | (split <;> first | rfl | (split <;> rfl))

/-- The calls of `createCall` hold at most one `Create`, of the object it was given. -/
theorem createdObjects_createCall (w : World) (apiOp : APIRequest) (ns : String) (input : Obj) :
    createdObjects (createCall w apiOp ns input).calls = [] ∨
      createdObjects (createCall w apiOp ns input).calls = [input] := by
  unfold createCall
  split
  · left; rfl
  · split
    · left; rfl
    · right; rfl

/-- When the client is handed out and the parameters decode, `createCall` sends the object. -/
theorem createdObjects_createCall_ok (w : World) (apiOp : APIRequest) (ns : String) (input : Obj)
    (hclient : w.TableClient [] ns = none)
    (hdecode : ∃ opts, apiOp.decodeParams ParamTarget.CreateOptions = Except.ok opts) :
    createdObjects (createCall w apiOp ns input).calls = [input] := by
  obtain ⟨opts, hopts⟩ := hdecode
  simp [createCall, hclient, hopts, createdObjects, Call.created]

/-- Below `metadata`, the object `Create` builds differs from the payload with its inferred
`generateName` at most at `namespace`. -/
theorem GetValue_createInput (w : World) (apiOp : APIRequest) (schema : APISchema) (input : Obj)
    (c : String) (hc : c ≠ "namespace") :
    GetValue (createInput w apiOp schema input) ["metadata", c] =
      GetValue (if Name w.Sprint input = "" ∧
          ObjString w.Sprint input ["metadata", "generateName"] = "" then
        PutValue input (firstByteDash schema.ID) ["metadata", "generateName"]
      else input) ["metadata", c] := by
  unfold createInput
  simp only []
  rw [GetValue_set_other _ _ _ _ _ (by decide), GetValue_set_other _ _ _ _ _ (by decide)]
  split_ifs with h1 h2
  · exact GetValue_PutValue_sibling _ _ _ _ _ hc
  · exact GetValue_PutValue_sibling _ _ _ _ _ hc
  · rfl
  · rfl

/-! ## Create: inference of `generateName` -/

/-- C3, the claim as stated fails, at three inputs. For the schema `pods` and the payload
`{"metadata": "x"}`, which has neither a name nor a `generateName`, the object sent to
upstream `Create` is `{"kind": "Pod", "apiVersion": "v1", "metadata": "x"}`: `SetNested` does
not write below a `metadata` that is not a map, and the object sent has no
`metadata.generateName`. For the payload `{"metadata": {"name": " "}}`, which has a name, the
name reads as empty once its white space is trimmed, and the object sent carries the
`generateName` `p-`, which the payload did not give. For the schema ID `épods` and the
payload `{"metadata": {}}`, the `generateName` sent is the first byte `0xC3` of the ID
followed by `-`, not the first character `é` followed by `-`. -/
theorem Create_generateName_not_set :
    Name quietWorld.Sprint [("metadata", Value.str "x")] = "" ∧
    ObjString quietWorld.Sprint [("metadata", Value.str "x")] ["metadata", "generateName"] = "" ∧
    (Create quietWorld (sampleRequest "POST" "default") podSchema
        (some [("metadata", Value.str "x")])).map (fun out => createdObjects out.calls)
      = some [[("kind", Value.str "Pod"), ("apiVersion", Value.str "v1"),
          ("metadata", Value.str "x")]] ∧
    GetValue [("kind", Value.str "Pod"), ("apiVersion", Value.str "v1"),
        ("metadata", Value.str "x")] ["metadata", "generateName"] = none ∧
    GetValue [("metadata", Value.obj [("name", Value.str " ")])] ["metadata", "name"]
      = some (Value.str " ") ∧
    (Create quietWorld (sampleRequest "POST" "default") podSchema
        (some [("metadata", Value.obj [("name", Value.str " ")])])).map
        (fun out => createdObjects out.calls)
      = some [[("kind", Value.str "Pod"), ("apiVersion", Value.str "v1"),
          ("metadata", Value.obj [("namespace", Value.str "default"),
            ("generateName", Value.str "p-"), ("name", Value.str " ")])]] ∧
    (Create quietWorld (sampleRequest "POST" "default") { podSchema with ID := "épods" }
        (some [("metadata", Value.obj [])])).map (fun out => createdObjects out.calls)
      = some [[("kind", Value.str "Pod"), ("apiVersion", Value.str "v1"),
          ("metadata", Value.obj [("namespace", Value.str "default"),
            ("generateName", Value.raw [0xC3, 0x2D])])]] ∧
    firstChar "épods" ++ "-" = "é-" := by
  refine ⟨?_, ?_, ?_, ?_, ?_, ?_, ?_, ?_⟩ <;> rfl

/-- C3 (amended): for every schema with a non-empty ID and every payload, `Create` returns, and
every object it sends to upstream `Create` satisfies: if the payload's name and
`generateName` both read as empty (`convert.ToString` gives the empty string: the value is
absent, nil or blank once white space is trimmed) and its `metadata` is absent or a map, the
object's `metadata.generateName` is the first byte of the schema ID followed by `-`, which is
the first character followed by `-` when the ID starts with an ASCII character; if the
payload's name or `generateName` reads as non-empty, the object's `metadata.name` and
`metadata.generateName` are the payload's. The object is sent whenever the namespace check
passes, the client getter hands out a client and the query parameters decode. -/
theorem Create_generateName (w : World) (apiOp : APIRequest) (schema : APISchema)
    (params : Option Obj) (hid : schema.ID ≠ "") :
    ∃ out, Create w apiOp schema params = some out ∧
      (∀ obj ∈ createdObjects out.calls,
        (Name w.Sprint (params.getD []) = "" ∧
            ObjString w.Sprint (params.getD []) ["metadata", "generateName"] = "" →
          MetadataMapOrAbsent (params.getD []) →
          GetValue obj ["metadata", "generateName"] = some (firstByteDash schema.ID)) ∧
        (¬ (Name w.Sprint (params.getD []) = "" ∧
            ObjString w.Sprint (params.getD []) ["metadata", "generateName"] = "") →
          GetValue obj ["metadata", "name"] = GetValue (params.getD []) ["metadata", "name"] ∧
          GetValue obj ["metadata", "generateName"]
            = GetValue (params.getD []) ["metadata", "generateName"])) ∧
      (¬ (schema.Namespaced = true ∧ Namespace w.Sprint (params.getD []) = "" ∧
          apiOp.Namespace = "") →
        w.TableClient [] (createNamespace w apiOp schema (params.getD [])) = none →
        (∃ opts, apiOp.decodeParams ParamTarget.CreateOptions = Except.ok opts) →
        ∃ obj, createdObjects out.calls = [obj]) ∧
      (∀ c rest, schema.ID.data = c :: rest → c.toNat < 0x80 →
        firstByteDash schema.ID = Value.str (firstChar schema.ID ++ "-")) ∧
      (∀ c rest, schema.ID.data = c :: rest → ¬ c.toNat < 0x80 →
        firstByteDash schema.ID = Value.raw ((utf8Char c).take 1 ++ [0x2D])) := by
  have hascii : ∀ c rest, schema.ID.data = c :: rest → c.toNat < 0x80 →
      firstByteDash schema.ID = Value.str (firstChar schema.ID ++ "-") := by
    intro c rest hdata hc
    simp [firstByteDash, firstChar, hdata, hc]
  have hraw : ∀ c rest, schema.ID.data = c :: rest → ¬ c.toNat < 0x80 →
      firstByteDash schema.ID = Value.raw ((utf8Char c).take 1 ++ [0x2D]) := by
    intro c rest hdata hc
    simp [firstByteDash, hdata, hc]
  rw [Create_eq]
  have hpanic : ¬ (Name w.Sprint (params.getD []) = "" ∧
      ObjString w.Sprint (params.getD []) ["metadata", "generateName"] = "" ∧
      schema.ID = "") := fun h => hid h.2.2
  rw [if_neg hpanic]
  by_cases hns : schema.Namespaced = true ∧ Namespace w.Sprint (params.getD []) = "" ∧
      apiOp.Namespace = ""
  · rw [if_pos hns]
    refine ⟨_, rfl, ?_, ?_, hascii, hraw⟩
    · intro obj hobj
      simp [createdObjects] at hobj
    · intro h
      exact absurd hns h
  · rw [if_neg hns]
    refine ⟨_, rfl, ?_, ?_, hascii, hraw⟩
    · intro obj hobj
      have hobj' : obj = createInput w apiOp schema (params.getD []) := by
        rcases createdObjects_createCall w apiOp
          (createNamespace w apiOp schema (params.getD []))
          (createInput w apiOp schema (params.getD [])) with h | h
        · rw [h] at hobj
          simp at hobj
        · rw [h] at hobj
          simpa using hobj
      subst hobj'
      constructor
      · intro hnone hmeta
        rw [GetValue_createInput _ _ _ _ _ (by decide), if_pos hnone]
        exact GetValue_PutValue_same _ _ _ _ hmeta
      · intro hnamed
        rw [GetValue_createInput _ _ _ _ _ (by decide),
          GetValue_createInput _ _ _ _ _ (by decide), if_neg hnamed]
        exact ⟨rfl, rfl⟩
    · intro _ hclient hdecode
      exact ⟨_, createdObjects_createCall_ok w apiOp _ _ hclient hdecode⟩

/-- C3 (amended), at the schema `pods` and the payload `{"metadata": {}}`: the object sent
upstream has `metadata.generateName` equal to `p-`. -/
theorem Create_generateName_witness :
    podSchema.ID ≠ "" ∧
    (Create quietWorld (sampleRequest "POST" "default") podSchema
        (some [("metadata", Value.obj [])])).map (fun out => createdObjects out.calls)
      = some [[("kind", Value.str "Pod"), ("apiVersion", Value.str "v1"),
          ("metadata", Value.obj [("namespace", Value.str "default"),
            ("generateName", Value.str "p-")])]] ∧
    firstByteDash podSchema.ID = Value.str "p-" ∧
    (∃ out, Create quietWorld (sampleRequest "POST" "default") podSchema
        (some [("metadata", Value.obj [])]) = some out ∧
      (∀ obj ∈ createdObjects out.calls,
        (Name quietWorld.Sprint [("metadata", Value.obj [])] = "" ∧
            ObjString quietWorld.Sprint [("metadata", Value.obj [])]
              ["metadata", "generateName"] = "" →
          MetadataMapOrAbsent [("metadata", Value.obj [])] →
          GetValue obj ["metadata", "generateName"] = some (firstByteDash podSchema.ID)) ∧
        (¬ (Name quietWorld.Sprint [("metadata", Value.obj [])] = "" ∧
            ObjString quietWorld.Sprint [("metadata", Value.obj [])]
              ["metadata", "generateName"] = "") →
          GetValue obj ["metadata", "name"]
            = GetValue [("metadata", Value.obj [])] ["metadata", "name"] ∧
          GetValue obj ["metadata", "generateName"]
            = GetValue [("metadata", Value.obj [])] ["metadata", "generateName"])) ∧
      (¬ (podSchema.Namespaced = true ∧
          Namespace quietWorld.Sprint [("metadata", Value.obj [])] = "" ∧
          (sampleRequest "POST" "default").Namespace = "") →
        quietWorld.TableClient [] (createNamespace quietWorld (sampleRequest "POST" "default")
          podSchema [("metadata", Value.obj [])]) = none →
        (∃ opts, (sampleRequest "POST" "default").decodeParams ParamTarget.CreateOptions
          = Except.ok opts) →
        ∃ obj, createdObjects out.calls = [obj]) ∧
      (∀ c rest, podSchema.ID.data = c :: rest → c.toNat < 0x80 →
        firstByteDash podSchema.ID = Value.str (firstChar podSchema.ID ++ "-")) ∧
      (∀ c rest, podSchema.ID.data = c :: rest → ¬ c.toNat < 0x80 →
        firstByteDash podSchema.ID = Value.raw ((utf8Char c).take 1 ++ [0x2D]))) :=
  ⟨by decide, by rfl, by rfl,
    Create_generateName quietWorld (sampleRequest "POST" "default") podSchema
    (some [("metadata", Value.obj [])]) (by decide)⟩

/-! ## Update: the required `resourceVersion` -/

/-- C4, what the code does: for every non-PATCH `Update` whose payload's
`metadata.resourceVersion` reads as empty (absent, nil, or blank once white space is
trimmed), no call is made on the Kubernetes client (the only call is the one that asks the
client getter for a client) and no object is returned. When the client getter handed out a
client, `Update` fails with the plain error
`errors.New("metadata.resourceVersion is required for update")`: the message is the claimed
one, but the error is not an API error, so it is not an `InvalidBodyContent` error, where
the sibling check of `Create` builds its error with
`apierror.NewAPIError(validation.InvalidBodyContent, ...)`. When the client getter failed,
`Update` fails with the client getter's error. -/
theorem Update_resourceVersion_required (w : World) (apiOp : APIRequest) (schema : APISchema)
    (params : Option Obj) (id : String) (hmethod : apiOp.Method ≠ "PATCH")
    (hrv : ObjString w.Sprint (params.getD []) ["metadata", "resourceVersion"] = "") :
    (Update w apiOp schema params id).calls
        = [Call.TableClient (Namespace w.Sprint (params.getD []))] ∧
      (Update w apiOp schema params id).resp = none ∧
      (w.TableClient [] (Namespace w.Sprint (params.getD [])) = none →
        (Update w apiOp schema params id).err
            = some (Err.errorsNew "metadata.resourceVersion is required for update") ∧
          (Err.errorsNew "metadata.resourceVersion is required for update").hasCode
            InvalidBodyContent = false ∧
          ∀ msg, (Update w apiOp schema params id).err
            ≠ some (Err.apiError InvalidBodyContent msg)) ∧
      (∀ e, w.TableClient [] (Namespace w.Sprint (params.getD [])) = some e →
        (Update w apiOp schema params id).err = some e) := by
  unfold Update
  simp only []
  cases hc : w.TableClient [] (Namespace w.Sprint (params.getD [])) with
  | some e => simp
  | none =>
    simp only [if_neg hmethod, if_pos hrv]
    simp [errResourceVersionRequired, Err.hasCode]

/-- C4, at a `PUT` of the payload `{"metadata": {"name": "p"}}`, which has no
`resourceVersion`, and of the payload `{"metadata": {"resourceVersion": " "}}`, whose
`resourceVersion` is blank: both fail with the plain error, after the client was asked for;
the namespace check of `Create` fails with an `InvalidBodyContent` API error. -/
theorem Update_resourceVersion_required_witness :
    (sampleRequest "PUT" "default").Method ≠ "PATCH" ∧
    ObjString quietWorld.Sprint [("metadata", Value.obj [("name", Value.str "p")])]
      ["metadata", "resourceVersion"] = "" ∧
    ObjString quietWorld.Sprint [("metadata", Value.obj [("resourceVersion", Value.str " ")])]
      ["metadata", "resourceVersion"] = "" ∧
    (Update quietWorld (sampleRequest "PUT" "default") podSchema
        (some [("metadata", Value.obj [("name", Value.str "p")])]) "default/p").calls
      = [Call.TableClient ""] ∧
    (Update quietWorld (sampleRequest "PUT" "default") podSchema
        (some [("metadata", Value.obj [("name", Value.str "p")])]) "default/p").err
      = some (Err.errorsNew "metadata.resourceVersion is required for update") ∧
    (Update quietWorld (sampleRequest "PUT" "default") podSchema
        (some [("metadata", Value.obj [("resourceVersion", Value.str " ")])]) "default/p").err
      = some (Err.errorsNew "metadata.resourceVersion is required for update") ∧
    (Create quietWorld (sampleRequest "POST" "") podSchema
        (some [("metadata", Value.obj [("name", Value.str "p")])])).map (fun out => out.err)
      = some (some (Err.apiError InvalidBodyContent
          "metadata.namespace or apiOp.namespace are required")) :=
  ⟨by decide, by rfl, by rfl,
    (Update_resourceVersion_required quietWorld (sampleRequest "PUT" "default") podSchema
      (some [("metadata", Value.obj [("name", Value.str "p")])]) "default/p" (by decide)
      (by rfl)).1,
    ((Update_resourceVersion_required quietWorld (sampleRequest "PUT" "default") podSchema
      (some [("metadata", Value.obj [("name", Value.str "p")])]) "default/p" (by decide)
      (by rfl)).2.2.1 (by rfl)).1,
    ((Update_resourceVersion_required quietWorld (sampleRequest "PUT" "default") podSchema
      (some [("metadata", Value.obj [("resourceVersion", Value.str " ")])]) "default/p"
      (by decide) (by rfl)).2.2.1 (by rfl)).1,
    by rfl⟩

/-! ## Create: the required namespace -/

/-- C5, the claim as stated fails, at three inputs. For a namespaced schema with an empty ID,
an empty payload and a request without namespace, `Create` does not return the error: it
panics at `schema.ID[0:1]` before the namespace check. For the schema `pods`, the payload
`{"metadata": "x"}` and a request in the namespace `default`, the object sent upstream is
`{"kind": "Pod", "apiVersion": "v1", "metadata": "x"}`, without `metadata.namespace`. For
the payload `{"metadata": {"name": "p", "namespace": " "}}`, whose namespace is not empty
but blank, and a request without namespace, `Create` fails with the error. -/
theorem Create_namespace_not_enforced :
    Create quietWorld (sampleRequest "POST" "") { podSchema with ID := "" } none = none ∧
    Namespace quietWorld.Sprint [("metadata", Value.str "x")] = "" ∧
    (Create quietWorld (sampleRequest "POST" "default") podSchema
        (some [("metadata", Value.str "x")])).map (fun out => createdObjects out.calls)
      = some [[("kind", Value.str "Pod"), ("apiVersion", Value.str "v1"),
          ("metadata", Value.str "x")]] ∧
    GetValue [("kind", Value.str "Pod"), ("apiVersion", Value.str "v1"),
        ("metadata", Value.str "x")] ["metadata", "namespace"] = none ∧
    GetValue [("metadata", Value.obj [("name", Value.str "p"), ("namespace", Value.str " ")])]
      ["metadata", "namespace"] = some (Value.str " ") ∧
    (Create quietWorld (sampleRequest "POST" "") podSchema
        (some [("metadata", Value.obj [("name", Value.str "p"),
          ("namespace", Value.str " ")])])).map (fun out => (out.err, out.calls))
      = some (some (Err.apiError InvalidBodyContent
          "metadata.namespace or apiOp.namespace are required"), []) := by
  refine ⟨?_, ?_, ?_, ?_, ?_, ?_⟩ <;> rfl

/-- C5 (amended): for every schema with a non-empty ID, `Create` returns, and it fails with
the `InvalidBodyContent` error `metadata.namespace or apiOp.namespace are required` without
making any call exactly when the schema is namespaced, the payload's `metadata.namespace`
reads as empty (`convert.ToString` gives the empty string: the value is absent, nil or blank
once white space is trimmed) and the request's namespace is empty; when the schema is
namespaced, the payload's namespace reads as empty, the request's namespace is not empty,
and the payload's `metadata` is absent or a map, every object sent upstream carries the
request's namespace in `metadata.namespace`, and the object is sent whenever the client
getter hands out a client and the query parameters decode. -/
theorem Create_namespace_required (w : World) (apiOp : APIRequest) (schema : APISchema)
    (params : Option Obj) (hid : schema.ID ≠ "") :
    ∃ out, Create w apiOp schema params = some out ∧
      ((out.err = some (Err.apiError InvalidBodyContent
            "metadata.namespace or apiOp.namespace are required") ∧ out.calls = []) ↔
        (schema.Namespaced = true ∧ Namespace w.Sprint (params.getD []) = "" ∧
          apiOp.Namespace = "")) ∧
      (schema.Namespaced = true → Namespace w.Sprint (params.getD []) = "" →
        apiOp.Namespace ≠ "" → MetadataMapOrAbsent (params.getD []) →
        (∀ obj ∈ createdObjects out.calls,
          GetValue obj ["metadata", "namespace"] = some (Value.str apiOp.Namespace)) ∧
        (w.TableClient [] apiOp.Namespace = none →
          (∃ opts, apiOp.decodeParams ParamTarget.CreateOptions = Except.ok opts) →
          ∃ obj, createdObjects out.calls = [obj])) := by
  rw [Create_eq]
  have hpanic : ¬ (Name w.Sprint (params.getD []) = "" ∧
      ObjString w.Sprint (params.getD []) ["metadata", "generateName"] = "" ∧
      schema.ID = "") := fun h => hid h.2.2
  rw [if_neg hpanic]
  by_cases hns : schema.Namespaced = true ∧ Namespace w.Sprint (params.getD []) = "" ∧
      apiOp.Namespace = ""
  · rw [if_pos hns]
    refine ⟨_, rfl, ?_, ?_⟩
    · simp [hns, errNamespaceRequired]
    · intro _ _ h
      exact absurd hns.2.2 h
  · rw [if_neg hns]
    refine ⟨_, rfl, ?_, ?_⟩
    · constructor
      · rintro ⟨-, hcalls⟩
        exfalso
        revert hcalls
        unfold createCall
        split
        · simp
        · split <;> simp
      · intro h
        exact absurd h hns
    · intro hnsd hempty _ hmeta
      have hcn : createNamespace w apiOp schema (params.getD []) = apiOp.Namespace := by
        simp [createNamespace, hnsd, hempty]
      rw [hcn]
      constructor
      · intro obj hobj
        have hobj' : obj = createInput w apiOp schema (params.getD []) := by
          rcases createdObjects_createCall w apiOp apiOp.Namespace
            (createInput w apiOp schema (params.getD [])) with h | h
          · rw [h] at hobj
            simp at hobj
          · rw [h] at hobj
            simpa using hobj
        subst hobj'
        unfold createInput
        simp only []
        rw [GetValue_set_other _ _ _ _ _ (by decide), GetValue_set_other _ _ _ _ _ (by decide),
          if_pos ⟨hnsd, hempty⟩]
        apply GetValue_PutValue_same
        split_ifs
        · exact Or.inr (PutValue_mapOrAbsent _ _ _ _ hmeta)
        · exact hmeta
      · intro hclient hdecode
        exact ⟨_, createdObjects_createCall_ok w apiOp _ _ hclient hdecode⟩

/-- C5 (amended), at the schema `pods`, the payload `{"metadata": {"name": "p"}}` and a
request in the namespace `default`: the object sent upstream carries `default`. -/
theorem Create_namespace_required_witness :
    podSchema.ID ≠ "" ∧
    (Create quietWorld (sampleRequest "POST" "default") podSchema
        (some [("metadata", Value.obj [("name", Value.str "p")])])).map
        (fun out => createdObjects out.calls)
      = some [[("kind", Value.str "Pod"), ("apiVersion", Value.str "v1"),
          ("metadata", Value.obj [("namespace", Value.str "default"),
            ("name", Value.str "p")])]] ∧
    (Create quietWorld (sampleRequest "POST" "") podSchema
        (some [("metadata", Value.obj [("name", Value.str "p")])])).map
        (fun out => (out.err, createdObjects out.calls))
      = some (some (Err.apiError InvalidBodyContent
          "metadata.namespace or apiOp.namespace are required"), []) ∧
    ∃ out, Create quietWorld (sampleRequest "POST" "default") podSchema
        (some [("metadata", Value.obj [("name", Value.str "p")])]) = some out ∧
      ((out.err = some (Err.apiError InvalidBodyContent
            "metadata.namespace or apiOp.namespace are required") ∧ out.calls = []) ↔
        (podSchema.Namespaced = true ∧
          Namespace quietWorld.Sprint [("metadata", Value.obj [("name", Value.str "p")])] = "" ∧
          (sampleRequest "POST" "default").Namespace = "")) ∧
      (podSchema.Namespaced = true →
        Namespace quietWorld.Sprint [("metadata", Value.obj [("name", Value.str "p")])] = "" →
        (sampleRequest "POST" "default").Namespace ≠ "" →
        MetadataMapOrAbsent [("metadata", Value.obj [("name", Value.str "p")])] →
        (∀ obj ∈ createdObjects out.calls,
          GetValue obj ["metadata", "namespace"]
            = some (Value.str (sampleRequest "POST" "default").Namespace)) ∧
        (quietWorld.TableClient [] (sampleRequest "POST" "default").Namespace = none →
          (∃ opts, (sampleRequest "POST" "default").decodeParams ParamTarget.CreateOptions
            = Except.ok opts) →
          ∃ obj, createdObjects out.calls = [obj])) :=
  ⟨by decide, by rfl, by rfl,
    Create_namespace_required quietWorld (sampleRequest "POST" "default") podSchema
      (some [("metadata", Value.obj [("name", Value.str "p")])]) (by decide)⟩

/-! ## Delete: the lookup after the deletion -/

/-- C7: for every list request by an identified user `u` that reaches the cache (the client
getter hands out a client, `CacheFor` succeeds and the query parses to `opts`), and for every
list of partitions: when the schema's group is `ext.cattle.io`, its kind is `Token` or
`Kubeconfig` and the caller's access set is absent or does not grant `list` on all
resources, the options handed to the cache are `opts` with its filters followed by exactly
one OR-group holding the single leaf (field `metadata.labels["cattle.io/user-id"]`, op `Eq`,
matches `[u]`); in every other case they are `opts` unchanged. -/
theorem ListByPartitions_access_filter (w : World) (apiOp : APIRequest) (apiSchema : APISchema)
    (u : String) (opts : ListOptions) (huser : apiOp.User = some u)
    (hclient : w.TableAdminClient [] "" = none)
    (hcache : w.CacheFor [Call.TableAdminClient ""] (cacheForArgs w.SafeSplit apiSchema) = none)
    (hparse : w.ParseQuery [Call.TableAdminClient "",
      Call.CacheFor (cacheForArgs w.SafeSplit apiSchema)] = Except.ok opts) :
    ∀ partitions : List Partition,
      ((apiSchema.GVK.Group = "ext.cattle.io" ∧
          (apiSchema.GVK.Kind = "Token" ∨ apiSchema.GVK.Kind = "Kubeconfig") ∧
          (apiOp.AccessSet = none ∨
            ∃ a, apiOp.AccessSet = some a ∧ a.Grants "list" ("", "*") "" "" = false)) ↔
        handedListOptions (ListByPartitions w apiOp apiSchema partitions).calls =
          [{ Filters := opts.Filters ++
              [{ Filters := [{ Field := ["metadata", "labels", "cattle.io/user-id"],
                               Matches := [u], Op := Op.Eq }] }],
             Rest := opts.Rest }]) ∧
      (¬ (apiSchema.GVK.Group = "ext.cattle.io" ∧
          (apiSchema.GVK.Kind = "Token" ∨ apiSchema.GVK.Kind = "Kubeconfig") ∧
          (apiOp.AccessSet = none ∨
            ∃ a, apiOp.AccessSet = some a ∧ a.Grants "list" ("", "*") "" "" = false)) →
        handedListOptions (ListByPartitions w apiOp apiSchema partitions).calls = [opts]) := by
  intro partitions
  have hhand : ∀ (lo : ListOptions), handedListOptions
      (listFromCache w [Call.TableAdminClient "", Call.CacheFor (cacheForArgs w.SafeSplit apiSchema)]
        apiOp apiSchema.GVK lo partitions).calls = [lo] := by
    intro lo
    unfold listFromCache
    simp only []
    split
    · split <;> simp [handedListOptions, Call.listOptions]
    · simp [handedListOptions, Call.listOptions]
  have hyes : (apiSchema.GVK.Group = "ext.cattle.io" ∧
      (apiSchema.GVK.Kind = "Token" ∨ apiSchema.GVK.Kind = "Kubeconfig") ∧
      (apiOp.AccessSet = none ∨
        ∃ a, apiOp.AccessSet = some a ∧ a.Grants "list" ("", "*") "" "" = false)) →
      handedListOptions (ListByPartitions w apiOp apiSchema partitions).calls =
        [{ Filters := opts.Filters ++
            [{ Filters := [{ Field := ["metadata", "labels", "cattle.io/user-id"],
                             Matches := [u], Op := Op.Eq }] }],
           Rest := opts.Rest }] := by
    rintro ⟨hg, hk, ha⟩
    have hacc : accessFilter apiOp apiSchema.GVK opts =
        Except.ok { opts with Filters := opts.Filters ++ [userFilter u] } := by
      unfold accessFilter
      rcases ha with ha | ⟨a, ha, hgr⟩
      · simp [hg, hk, ha, huser]
      · simp [hg, hk, ha, huser, hgr]
    unfold ListByPartitions
    simp only [hclient, hcache, hparse, List.singleton_append, hacc, hhand]
    rfl
  have hno : ¬ (apiSchema.GVK.Group = "ext.cattle.io" ∧
      (apiSchema.GVK.Kind = "Token" ∨ apiSchema.GVK.Kind = "Kubeconfig") ∧
      (apiOp.AccessSet = none ∨
        ∃ a, apiOp.AccessSet = some a ∧ a.Grants "list" ("", "*") "" "" = false)) →
      handedListOptions (ListByPartitions w apiOp apiSchema partitions).calls = [opts] := by
    intro hn
    unfold ListByPartitions
    simp only [hclient, hcache, hparse, List.singleton_append]
    refine ?_
    revert hn
    intro hn
    have hacc : accessFilter apiOp apiSchema.GVK opts = Except.ok opts := by
      unfold accessFilter
      by_cases hgk : apiSchema.GVK.Group = "ext.cattle.io" ∧
          (apiSchema.GVK.Kind = "Token" ∨ apiSchema.GVK.Kind = "Kubeconfig")
      · rw [if_pos hgk]
        cases has : apiOp.AccessSet with
        | none => exact absurd ⟨hgk.1, hgk.2, Or.inl has⟩ hn
        | some a =>
          cases hgr : a.Grants "list" ("", "*") "" "" with
          | false => exact absurd ⟨hgk.1, hgk.2, Or.inr ⟨a, has, hgr⟩⟩ hn
          | true => simp [hgr]
      · rw [if_neg hgk]
    simp only [hacc, hhand]
  refine ⟨⟨hyes, ?_⟩, hno⟩
  intro hh
  by_contra hn
  rw [hno hn] at hh
  have hlen := congrArg (fun l => (l.map (fun lo => lo.Filters.length))) hh
  simp at hlen

/-- C7, at a list of tokens by the user `alice` without access set: the filter
`metadata.labels["cattle.io/user-id"] = alice` is handed to the cache. -/
theorem ListByPartitions_access_filter_witness :
    handedListOptions (ListByPartitions quietWorld (sampleRequest "GET" "") tokenSchema
        [⟨"", true, false, []⟩]).calls =
      [{ Filters := [{ Filters := [{ Field := ["metadata", "labels", "cattle.io/user-id"],
                                     Matches := ["alice"], Op := Op.Eq }] }],
         Rest := "" }] :=
  ((ListByPartitions_access_filter quietWorld (sampleRequest "GET" "") tokenSchema "alice"
    ⟨[], ""⟩ (by rfl) (by rfl) (by rfl) (by rfl)) [⟨"", true, false, []⟩]).1.mp
    ⟨by decide, Or.inl (by decide), Or.inl (by rfl)⟩

/-- C8: whenever `ListByPartitions` reaches the cache and `ListByOptions` fails with an error
`e`: if `e` is or wraps the invalid-column error, the error returned is the API error of
kind `InvalidBodyContent` whose message is `e.Error()`; otherwise the error returned is
`fmt.Errorf("listbyoptions %v: %w", gvk, e)`, which is not itself an API error of kind
`InvalidBodyContent` and unwraps to `e`. In both cases no list is returned. -/
theorem ListByPartitions_cache_error (w : World) (apiOp : APIRequest) (apiSchema : APISchema)
    (partitions : List Partition) (opts lo : ListOptions) (e : Err)
    (hclient : w.TableAdminClient [] "" = none)
    (hcache : w.CacheFor [Call.TableAdminClient ""] (cacheForArgs w.SafeSplit apiSchema) = none)
    (hparse : w.ParseQuery [Call.TableAdminClient "",
      Call.CacheFor (cacheForArgs w.SafeSplit apiSchema)] = Except.ok opts)
    (haccess : accessFilter apiOp apiSchema.GVK opts = Except.ok lo)
    (hfail : (w.ListByOptions [Call.TableAdminClient "",
      Call.CacheFor (cacheForArgs w.SafeSplit apiSchema)] lo partitions apiOp.Namespace).err
        = some e) :
    (ListByPartitions w apiOp apiSchema partitions).list = none ∧
    (e.isInvalidColumn = true →
      (ListByPartitions w apiOp apiSchema partitions).err
        = some (Err.apiError InvalidBodyContent e.Error)) ∧
    (e.isInvalidColumn = false →
      (ListByPartitions w apiOp apiSchema partitions).err
          = some (Errorf ("listbyoptions " ++ gvkString apiSchema.GVK) e) ∧
        (Errorf ("listbyoptions " ++ gvkString apiSchema.GVK) e).hasCode InvalidBodyContent
          = false ∧
        (Errorf ("listbyoptions " ++ gvkString apiSchema.GVK) e).Unwrap = some e) := by
  unfold ListByPartitions
  simp only [hclient, hcache, hparse, haccess, List.singleton_append]
  unfold listFromCache
  simp only [hfail]
  refine ⟨?_, ?_, ?_⟩
  · split <;> rfl
  · intro h
    simp [h]
  · intro h
    simp [h, Errorf, Err.hasCode, Err.Unwrap]

/-- C8, in a world whose cache fails with an error that wraps the invalid-column error. -/
theorem ListByPartitions_cache_error_witness :
    (ListByPartitions { quietWorld with ListByOptions := fun _ _ _ _ =>
          ⟨none, 0, "", some (Err.wrap "column is invalid [spec.madeUp]: supplied column is invalid"
            Err.invalidColumn)⟩ }
        (sampleRequest "GET" "default") podSchema [⟨"default", true, false, []⟩]).err
      = some (Err.apiError InvalidBodyContent
          "column is invalid [spec.madeUp]: supplied column is invalid") :=
  (ListByPartitions_cache_error { quietWorld with ListByOptions := fun _ _ _ _ =>
          ⟨none, 0, "", some (Err.wrap "column is invalid [spec.madeUp]: supplied column is invalid"
            Err.invalidColumn)⟩ }
    (sampleRequest "GET" "default") podSchema [⟨"default", true, false, []⟩] ⟨[], ""⟩ ⟨[], ""⟩
    (Err.wrap "column is invalid [spec.madeUp]: supplied column is invalid" Err.invalidColumn)
    (by rfl) (by rfl) (by rfl) (by rfl) (by rfl)).2.1 (by rfl)

/-! ## Lemmas on the shape of `Update` and `Delete` -/

/-- The calls of `Update` and its result: it stops before any call on the client, or makes
one `Patch` call, or makes one `Update` call, and returns the error of that call, if any,
without object and without warnings. -/
theorem Update_shape (w : World) (apiOp : APIRequest) (schema : APISchema)
    (params : Option Obj) (id : String) :
    (Update w apiOp schema params id).calls
        = [Call.TableClient (Namespace w.Sprint (params.getD []))] ∨
    (∃ pType bytes opts, (Update w apiOp schema params id).calls
        = [Call.TableClient (Namespace w.Sprint (params.getD [])),
            Call.Patch (Namespace w.Sprint (params.getD [])) id pType bytes opts] ∧
      ∀ e, (w.Patch [Call.TableClient (Namespace w.Sprint (params.getD []))]
          (Namespace w.Sprint (params.getD [])) id pType bytes opts).err = some e →
        (Update w apiOp schema params id).err = some e ∧
        (Update w apiOp schema params id).warnings = [] ∧
        (Update w apiOp schema params id).resp = none) ∨
    (∃ obj opts, (Update w apiOp schema params id).calls
        = [Call.TableClient (Namespace w.Sprint (params.getD [])),
            Call.Update (Namespace w.Sprint (params.getD [])) obj opts] ∧
      ∀ e, (w.Update [Call.TableClient (Namespace w.Sprint (params.getD []))]
          (Namespace w.Sprint (params.getD [])) obj opts).err = some e →
        (Update w apiOp schema params id).err = some e ∧
        (Update w apiOp schema params id).warnings = [] ∧
        (Update w apiOp schema params id).resp = none) := by
  unfold Update
  simp only []
  cases hc : w.TableClient [] (Namespace w.Sprint (params.getD [])) with
  | some e0 => left; rfl
  | none =>
    simp only []
    by_cases hm : apiOp.Method = "PATCH"
    · simp only [if_pos hm]
      cases hb : apiOp.Body with
      | error e0 => left; rfl
      | ok body =>
        simp only []
        cases hd : apiOp.decodeParams ParamTarget.PatchOptions with
        | error e0 => left; rfl
        | ok opts =>
          simp only []
          split
          · left; rfl
          · rename_i bytes' _
            right; left
            refine ⟨if apiOp.ContentType = JSONPatchType then JSONPatchType
              else StrategicMergePatchType, bytes', opts, ?_, ?_⟩
            · split <;> rfl
            · intro e he
              simp only [List.singleton_append] at he ⊢
              rw [he]
              exact ⟨rfl, rfl, rfl⟩
    · simp only [if_neg hm]
      by_cases hrv : ObjString w.Sprint (params.getD []) ["metadata", "resourceVersion"] = ""
      · simp only [if_pos hrv]
        left; trivial
      · simp only [if_neg hrv]
        cases hd : apiOp.decodeParams ParamTarget.UpdateOptions with
        | error e0 => left; rfl
        | ok opts =>
          simp only []
          right; right
          refine ⟨moveFromUnderscore w.Reserved
            (some (((params.getD []).set "apiVersion"
              (Value.str schema.GVK.ToAPIVersionAndKind.1)).set "kind"
              (Value.str schema.GVK.ToAPIVersionAndKind.2))), [], ?_, ?_⟩
          · split <;> rfl
          · intro e he
            simp only [List.singleton_append] at he ⊢
            rw [he]
            exact ⟨rfl, rfl, rfl⟩

/-- The calls of `byID`: the calls made before, the request for a client, and at most one `Get`. -/
theorem byID_calls (w : World) (h : List Call) (apiOp : APIRequest) (schema : APISchema)
    (ns id : String) :
    (byID w h apiOp schema ns id).calls = h ++ [Call.TableClient ns] ∨
      ∃ g, (byID w h apiOp schema ns id).calls = h ++ [Call.TableClient ns, Call.Get ns id g] := by
  unfold byID
  simp only []
  split
  · left; rfl
  · split
    · left; rfl
    · rename_i opts _
      right; exact ⟨opts, by simp⟩

/-- The calls of `Delete` and its result: it stops before any call, or after the request for
a client, or makes one `Delete` call, followed by the calls of the lookup when the deletion
succeeds; it returns the error of the `Delete` call, if any, without object or warnings. -/
theorem Delete_shape (w : World) (apiOp : APIRequest) (schema : APISchema) (id : String) :
    (Delete w apiOp schema id).calls = [] ∨
    (Delete w apiOp schema id).calls = [Call.TableClient apiOp.Namespace] ∨
    ∃ opts,
      ((Delete w apiOp schema id).calls
          = [Call.TableClient apiOp.Namespace, Call.Delete apiOp.Namespace id opts] ∨
        (Delete w apiOp schema id).calls
          = [Call.TableClient apiOp.Namespace, Call.Delete apiOp.Namespace id opts,
              Call.TableClient apiOp.Namespace] ∨
        ∃ g, (Delete w apiOp schema id).calls
          = [Call.TableClient apiOp.Namespace, Call.Delete apiOp.Namespace id opts,
              Call.TableClient apiOp.Namespace, Call.Get apiOp.Namespace id g]) ∧
      ∀ e, (w.Delete [Call.TableClient apiOp.Namespace] apiOp.Namespace id opts).err = some e →
        (Delete w apiOp schema id).err = some e ∧
        (Delete w apiOp schema id).warnings = [] ∧
        (Delete w apiOp schema id).resp = none := by
  unfold Delete
  cases hd : apiOp.decodeParams ParamTarget.DeleteOptions with
  | error e0 => left; rfl
  | ok opts =>
    simp only []
    cases hc : w.TableClient [] apiOp.Namespace with
    | some e0 => right; left; rfl
    | none =>
      simp only []
      right; right
      refine ⟨opts, ?_, ?_⟩
      · cases hdel : (w.Delete [Call.TableClient apiOp.Namespace] apiOp.Namespace id opts).err with
        | some e0 => left; rfl
        | none =>
          simp only [List.singleton_append]
          right
          rcases byID_calls w [Call.TableClient apiOp.Namespace,
            Call.Delete apiOp.Namespace id opts] apiOp schema apiOp.Namespace id with h | ⟨g, h⟩
          · left
            split <;> simpa using h
          · right
            refine ⟨g, ?_⟩
            split <;> simpa using h
      · intro e he
        rw [he]
        exact ⟨rfl, rfl, rfl⟩

/-! ## Upstream errors on the mutating paths -/

/-- C9, the claim as stated fails: in a world whose upstream `Update` fails with the error
`boom` after handing the warning `sampleWarning` to the request's warning buffer, a `PUT`
returns `boom` as its error but returns no warnings: the buffer is dropped on the error path
of `Update`. -/
theorem Update_error_drops_warnings :
    (failingWorld.Update [Call.TableClient ""] ""
        (moveFromUnderscore failingWorld.Reserved
          (some [("kind", Value.str "Pod"), ("apiVersion", Value.str "v1"),
            ("metadata", Value.obj [("resourceVersion", Value.str "1")])])) []).warnings
      = [sampleWarning] ∧
    (Update failingWorld (sampleRequest "PUT" "") podSchema
        (some [("metadata", Value.obj [("resourceVersion", Value.str "1")])]) "p").calls
      = [Call.TableClient "",
          Call.Update "" (moveFromUnderscore failingWorld.Reserved
            (some [("kind", Value.str "Pod"), ("apiVersion", Value.str "v1"),
              ("metadata", Value.obj [("resourceVersion", Value.str "1")])])) []] ∧
    (Update failingWorld (sampleRequest "PUT" "") podSchema
        (some [("metadata", Value.obj [("resourceVersion", Value.str "1")])]) "p").err
      = some (Err.other "boom") ∧
    (Update failingWorld (sampleRequest "PUT" "") podSchema
        (some [("metadata", Value.obj [("resourceVersion", Value.str "1")])]) "p").warnings
      = [] := by
  refine ⟨?_, ?_, ?_, ?_⟩ <;> rfl

/-- C9 (amended): for each mutating operation, when its call on the Kubernetes client fails
with the error `e`, the operation returns exactly `e` as its error. `Create` returns with it
the warnings the call handed to the request's warning buffer; `Update` (PATCH or not) and
`Delete` return with it no object and no warnings. -/
theorem mutation_error_verbatim (w : World) (apiOp : APIRequest) (schema : APISchema)
    (params : Option Obj) (id : String) (e : Err) :
    (∀ out ns obj opts, Create w apiOp schema params = some out →
      Call.Create ns obj opts ∈ out.calls →
      (w.Create [Call.TableClient ns] ns obj opts).err = some e →
      out.err = some e ∧
        out.warnings = (w.Create [Call.TableClient ns] ns obj opts).warnings) ∧
    (∀ ns obj opts, Call.Update ns obj opts ∈ (Update w apiOp schema params id).calls →
      (w.Update [Call.TableClient ns] ns obj opts).err = some e →
      (Update w apiOp schema params id).err = some e ∧
        (Update w apiOp schema params id).warnings = [] ∧
        (Update w apiOp schema params id).resp = none) ∧
    (∀ ns pType bytes opts,
      Call.Patch ns id pType bytes opts ∈ (Update w apiOp schema params id).calls →
      (w.Patch [Call.TableClient ns] ns id pType bytes opts).err = some e →
      (Update w apiOp schema params id).err = some e ∧
        (Update w apiOp schema params id).warnings = [] ∧
        (Update w apiOp schema params id).resp = none) ∧
    (∀ ns opts, Call.Delete ns id opts ∈ (Delete w apiOp schema id).calls →
      (w.Delete [Call.TableClient ns] ns id opts).err = some e →
      (Delete w apiOp schema id).err = some e ∧
        (Delete w apiOp schema id).warnings = [] ∧
        (Delete w apiOp schema id).resp = none) := by
  refine ⟨?_, ?_, ?_, ?_⟩
  · intro out ns obj opts hout hmem herr
    rw [Create_eq] at hout
    split_ifs at hout
    · cases hout
      simp at hmem
    · cases hout
      revert hmem
      unfold createCall
      split
      · simp
      · split
        · simp
        · rename_i o hok
          intro hmem
          simp only [List.mem_cons, List.mem_singleton, reduceCtorEq, false_or,
            Call.Create.injEq, List.not_mem_nil, or_false] at hmem
          obtain ⟨h1, h2, h3⟩ := hmem
          subst h1 h2 h3
          exact ⟨herr, rfl⟩
  · intro ns obj opts hmem herr
    rcases Update_shape w apiOp schema params id with h | ⟨pType, bytes, o, h, -⟩ |
      ⟨obj', o, h, hres⟩
    · rw [h] at hmem
      simp at hmem
    · rw [h] at hmem
      simp at hmem
    · rw [h] at hmem
      simp only [List.mem_cons, List.mem_singleton, reduceCtorEq, false_or,
        Call.Update.injEq, List.not_mem_nil, or_false] at hmem
      obtain ⟨h1, h2, h3⟩ := hmem
      subst h1 h2 h3
      exact hres e herr
  · intro ns pType bytes opts hmem herr
    rcases Update_shape w apiOp schema params id with h | ⟨pType', bytes', o, h, hres⟩ |
      ⟨obj', o, h, -⟩
    · rw [h] at hmem
      simp at hmem
    · rw [h] at hmem
      simp only [List.mem_cons, List.mem_singleton, reduceCtorEq, false_or,
        Call.Patch.injEq, List.not_mem_nil, or_false, true_and] at hmem
      obtain ⟨h1, h2, h3, h4⟩ := hmem
      subst h1 h2 h3 h4
      exact hres e herr
    · rw [h] at hmem
      simp at hmem
  · intro ns opts hmem herr
    rcases Delete_shape w apiOp schema id with h | h | ⟨o, h, hres⟩
    · rw [h] at hmem
      simp at hmem
    · rw [h] at hmem
      simp at hmem
    · have hmem' : ns = apiOp.Namespace ∧ opts = o := by
        rcases h with h | h | ⟨g, h⟩ <;>
        · rw [h] at hmem
          simpa using hmem
      obtain ⟨h1, h2⟩ := hmem'
      subst h1 h2
      exact hres e herr

/-- C9 (amended), in a world whose upstream `Update` fails with `boom` after a warning: a
`PUT` returns `boom`, no object and no warnings. -/
theorem mutation_error_verbatim_witness :
    (Update failingWorld (sampleRequest "PUT" "") podSchema
        (some [("metadata", Value.obj [("resourceVersion", Value.str "1")])]) "p").err
      = some (Err.other "boom") ∧
    (Update failingWorld (sampleRequest "PUT" "") podSchema
        (some [("metadata", Value.obj [("resourceVersion", Value.str "1")])]) "p").warnings = [] ∧
    (Update failingWorld (sampleRequest "PUT" "") podSchema
        (some [("metadata", Value.obj [("resourceVersion", Value.str "1")])]) "p").resp = none :=
  (mutation_error_verbatim failingWorld (sampleRequest "PUT" "") podSchema
    (some [("metadata", Value.obj [("resourceVersion", Value.str "1")])]) "p"
    (Err.other "boom")).2.1 ""
    (moveFromUnderscore failingWorld.Reserved
      (some [("kind", Value.str "Pod"), ("apiVersion", Value.str "v1"),
        ("metadata", Value.obj [("resourceVersion", Value.str "1")])])) []
    (List.Mem.tail _ (List.Mem.head _)) (by rfl)

/-! ## Delete: query parameters that do not decode -/

/-- C10, what the code does: when the query parameters of a `Delete` request cannot be
decoded as delete options, `Delete` makes no call (so no upstream `Delete`), and returns no
object, no warnings and a nil error: the decoding error is swallowed. -/
theorem Delete_decode_error_swallowed (w : World) (apiOp : APIRequest) (schema : APISchema)
    (id : String) (e : Err)
    (hdecode : apiOp.decodeParams ParamTarget.DeleteOptions = Except.error e) :
    (Delete w apiOp schema id).err = none ∧
      (Delete w apiOp schema id).resp = none ∧
      (Delete w apiOp schema id).warnings = [] ∧
      (Delete w apiOp schema id).calls = [] := by
  unfold Delete
  simp [hdecode]

/-- C10, at a `DELETE` request whose query parameters cannot be decoded. -/
theorem Delete_decode_error_swallowed_witness :
    (badQueryRequest "DELETE" "default").decodeParams ParamTarget.DeleteOptions
      = Except.error (Err.other "unable to decode parameters") ∧
    (Delete quietWorld (badQueryRequest "DELETE" "default") podSchema "p").err = none ∧
    (Delete quietWorld (badQueryRequest "DELETE" "default") podSchema "p").calls = [] :=
  ⟨rfl,
    (Delete_decode_error_swallowed quietWorld (badQueryRequest "DELETE" "default") podSchema "p"
      (Err.other "unable to decode parameters") rfl).1,
    (Delete_decode_error_swallowed quietWorld (badQueryRequest "DELETE" "default") podSchema "p"
      (Err.other "unable to decode parameters") rfl).2.2.2⟩

/-! ## The indexed-field registry and the dependency tables -/

/-- C14, the claim as stated fails: the registry entry of `batch/v1` `CronJob` holds the
`publicEndpoints` annotation and the path
`spec.jobTemplate.spec.template.spec.containers.image`; it does not contain the path
`spec.template.spec.containers.image`. -/
theorem typeSpecificIndexedFields_CronJob :
    lookupKey typeSpecificIndexedFields (gvkKey "batch" "v1" "CronJob")
      = some [["metadata", "annotations", "field.cattle.io/publicEndpoints"],
          ["spec", "jobTemplate", "spec", "template", "spec", "containers", "image"]] ∧
    ¬ (∃ entry, lookupKey typeSpecificIndexedFields (gvkKey "batch" "v1" "CronJob") = some entry ∧
        ["spec", "template", "spec", "containers", "image"] ∈ entry) := by
  have h : lookupKey typeSpecificIndexedFields (gvkKey "batch" "v1" "CronJob")
      = some [["metadata", "annotations", "field.cattle.io/publicEndpoints"],
          ["spec", "jobTemplate", "spec", "template", "spec", "containers", "image"]] := by rfl
  refine ⟨h, ?_⟩
  rintro ⟨entry, he, hmem⟩
  rw [h] at he
  cases he
  revert hmem
  decide

/-- C14 (amended): for each of the kinds `Deployment`, `DaemonSet`, `StatefulSet`, `ReplicaSet`
(`apps/v1`) and `Job` (`batch/v1`), the registry entry contains the path
`spec.template.spec.containers.image`; the entry of `CronJob` (`batch/v1`) contains the path
`spec.jobTemplate.spec.template.spec.containers.image` instead. -/
theorem typeSpecificIndexedFields_workload_image :
    (∀ key ∈ [gvkKey "apps" "v1" "Deployment", gvkKey "apps" "v1" "DaemonSet",
        gvkKey "apps" "v1" "StatefulSet", gvkKey "apps" "v1" "ReplicaSet",
        gvkKey "batch" "v1" "Job"],
      ∃ entry, lookupKey typeSpecificIndexedFields key = some entry ∧
        ["spec", "template", "spec", "containers", "image"] ∈ entry) ∧
    (∃ entry, lookupKey typeSpecificIndexedFields (gvkKey "batch" "v1" "CronJob") = some entry ∧
      ["spec", "jobTemplate", "spec", "template", "spec", "containers", "image"] ∈ entry) := by
  constructor
  · intro key hkey
    simp only [List.mem_cons, List.mem_singleton, List.not_mem_nil, or_false] at hkey
    rcases hkey with h | h | h | h | h <;> subst h
    · exact ⟨_, by rfl, by decide⟩
    · exact ⟨_, by rfl, by decide⟩
    · exact ⟨_, by rfl, by decide⟩
    · exact ⟨_, by rfl, by decide⟩
    · exact ⟨_, by rfl, by decide⟩
  · exact ⟨_, by rfl, by decide⟩

/-- C16: the external-dependency table at `management.cattle.io/v3` `Project` and the
self-dependency table at `v1` `Namespace` hold the same update record: affected GVK `v1`
`Namespace`, with exactly one label dependency, whose source label is
`field.cattle.io/projectId`, target key field `metadata.name` and target final field
`spec.displayName`; at every other GVK both tables hold no record. -/
theorem gvk_dependencies :
    externalGVKDependencies ⟨"management.cattle.io", "v3", "Project"⟩
      = selfGVKDependencies ⟨"", "v1", "Namespace"⟩ ∧
    selfGVKDependencies ⟨"", "v1", "Namespace"⟩ =
      some { AffectedGVK := ⟨"", "v1", "Namespace"⟩
             ExternalLabelDependencies :=
               [{ SourceGVK := "_v1_Namespace"
                  SourceLabelName := "field.cattle.io/projectId"
                  TargetGVK := "management.cattle.io_v3_Project"
                  TargetKeyFieldName := "metadata.name"
                  TargetFinalFieldName := "spec.displayName" }] } ∧
    (∀ gvk : GroupVersionKind, gvk ≠ ⟨"management.cattle.io", "v3", "Project"⟩ →
      externalGVKDependencies gvk = none) ∧
    (∀ gvk : GroupVersionKind, gvk ≠ ⟨"", "v1", "Namespace"⟩ →
      selfGVKDependencies gvk = none) := by
  refine ⟨by decide, by decide, ?_, ?_⟩
  · intro gvk h
    simp [externalGVKDependencies, mcioProjectGvk, h]
  · intro gvk h
    simp [selfGVKDependencies, namespaceGVK, h]

/-- C16, at the GVK `apps/v1` `Deployment`: neither table holds a record. -/
theorem gvk_dependencies_witness :
    externalGVKDependencies ⟨"apps", "v1", "Deployment"⟩ = none ∧
    selfGVKDependencies ⟨"apps", "v1", "Deployment"⟩ = none :=
  ⟨gvk_dependencies.2.2.1 ⟨"apps", "v1", "Deployment"⟩ (by decide),
    gvk_dependencies.2.2.2 ⟨"apps", "v1", "Deployment"⟩ (by decide)⟩

/-! ## Update: the patch type -/

/-- The `Patch` call of a PATCH `Update`: what is sent, from the request. -/
theorem Update_patch_call (w : World) (apiOp : APIRequest) (schema : APISchema)
    (params : Option Obj) (id : String) (hmethod : apiOp.Method = "PATCH")
    (ns id' pType : String) (bytes : Bytes) (opts : Options)
    (hmem : Call.Patch ns id' pType bytes opts ∈ (Update w apiOp schema params id).calls) :
    ∃ body, apiOp.Body = Except.ok body ∧
      ((apiOp.ContentType = JSONPatchType ∧ pType = JSONPatchType ∧
          bytes = body.take (2 <<< 20)) ∨
        (apiOp.ContentType ≠ JSONPatchType ∧ pType = StrategicMergePatchType ∧
          ∃ data, w.Unmarshal (body.take (2 <<< 20)) = Except.ok data ∧
            w.Marshal (moveFromUnderscore w.Reserved data) = Except.ok bytes)) := by
  have hne : JSONPatchType ≠ StrategicMergePatchType := by decide
  revert hmem
  unfold Update
  simp only []
  cases hc : w.TableClient [] (Namespace w.Sprint (params.getD [])) with
  | some e0 => simp
  | none =>
    simp only [if_pos hmethod]
    cases hb : apiOp.Body with
    | error e0 => simp
    | ok body =>
      simp only []
      cases hd : apiOp.decodeParams ParamTarget.PatchOptions with
      | error e0 => simp
      | ok o =>
        simp only []
        by_cases hct : apiOp.ContentType = JSONPatchType
        · simp only [if_pos hct, if_neg hne]
          intro hmem
          have hmem' : Call.Patch ns id' pType bytes opts ∈
              [Call.TableClient (Namespace w.Sprint (params.getD [])),
                Call.Patch (Namespace w.Sprint (params.getD [])) id JSONPatchType
                  (body.take (2 <<< 20)) o] := by
            revert hmem
            split <;> exact fun hx => hx
          simp only [List.mem_cons, List.mem_singleton, reduceCtorEq, false_or,
            Call.Patch.injEq, List.not_mem_nil, or_false] at hmem'
          obtain ⟨-, -, h3, h4, -⟩ := hmem'
          exact ⟨body, rfl, Or.inl ⟨hct, h3, h4⟩⟩
        · simp only [if_neg hct, if_true]
          cases hu : w.Unmarshal (List.take (2 <<< 20) body) with
          | error e0 => simp
          | ok data =>
            simp only []
            cases hm : w.Marshal (moveFromUnderscore w.Reserved data) with
            | error e0 => simp
            | ok bytes' =>
              simp only []
              intro hmem
              have hmem' : Call.Patch ns id' pType bytes opts ∈
                  [Call.TableClient (Namespace w.Sprint (params.getD [])),
                    Call.Patch (Namespace w.Sprint (params.getD [])) id StrategicMergePatchType
                      bytes' o] := by
                revert hmem
                split <;> exact fun hx => hx
              simp only [List.mem_cons, List.mem_singleton, reduceCtorEq, false_or,
                Call.Patch.injEq, List.not_mem_nil, or_false] at hmem'
              obtain ⟨-, -, h3, h4, -⟩ := hmem'
              subst h4
              exact ⟨body, rfl, Or.inr ⟨hct, h3, data, hu, hm⟩⟩

/-- C19: for every PATCH `Update`, every `Patch` call it makes on the client has the patch
type JSON-patch if and only if the request's `Content-Type` header is exactly
`application/json-patch+json`, and strategic-merge otherwise; with JSON-patch the bytes sent
are the bytes read from the body (at most 2 MiB), unchanged; with strategic-merge they are
the body decoded, rewritten by `moveFromUnderscore` and encoded again. The call is made
whenever the client is handed out, the body is read, the parameters decode and, for
strategic-merge, the body decodes and encodes. -/
theorem Update_patch_type (w : World) (apiOp : APIRequest) (schema : APISchema)
    (params : Option Obj) (id : String) (hmethod : apiOp.Method = "PATCH") :
    (∀ ns id' pType bytes opts,
      Call.Patch ns id' pType bytes opts ∈ (Update w apiOp schema params id).calls →
      (pType = JSONPatchType ↔ apiOp.ContentType = JSONPatchType) ∧
      (pType ≠ JSONPatchType → pType = StrategicMergePatchType) ∧
      ∃ body, apiOp.Body = Except.ok body ∧
        (pType = JSONPatchType → bytes = body.take (2 <<< 20)) ∧
        (pType ≠ JSONPatchType →
          ∃ data, w.Unmarshal (body.take (2 <<< 20)) = Except.ok data ∧
            w.Marshal (moveFromUnderscore w.Reserved data) = Except.ok bytes)) ∧
    (∀ body opts, w.TableClient [] (Namespace w.Sprint (params.getD [])) = none →
      apiOp.Body = Except.ok body →
      apiOp.decodeParams ParamTarget.PatchOptions = Except.ok opts →
      (apiOp.ContentType = JSONPatchType →
        Call.Patch (Namespace w.Sprint (params.getD [])) id JSONPatchType
          (body.take (2 <<< 20)) opts ∈ (Update w apiOp schema params id).calls) ∧
      (∀ data bytes, apiOp.ContentType ≠ JSONPatchType →
        w.Unmarshal (body.take (2 <<< 20)) = Except.ok data →
        w.Marshal (moveFromUnderscore w.Reserved data) = Except.ok bytes →
        Call.Patch (Namespace w.Sprint (params.getD [])) id StrategicMergePatchType
          bytes opts ∈ (Update w apiOp schema params id).calls)) := by
  have hne : JSONPatchType ≠ StrategicMergePatchType := by decide
  constructor
  · intro ns id' pType bytes opts hmem
    obtain ⟨body, hb, h | h⟩ :=
      Update_patch_call w apiOp schema params id hmethod ns id' pType bytes opts hmem
    · obtain ⟨hct, hp, hbytes⟩ := h
      refine ⟨⟨fun _ => hct, fun _ => hp⟩, fun hn => absurd hp hn, body, hb, fun _ => hbytes, ?_⟩
      intro hn
      exact absurd hp hn
    · obtain ⟨hct, hp, data, hu, hm⟩ := h
      have hpn : pType ≠ JSONPatchType := by
        rw [hp]
        exact fun e => hne e.symm
      refine ⟨⟨fun e => absurd e hpn, fun e => absurd e hct⟩, fun _ => hp, body, hb, ?_, ?_⟩
      · intro e
        exact absurd e hpn
      · intro _
        exact ⟨data, hu, hm⟩
  · intro body opts hc hb hd
    constructor
    · intro hct
      unfold Update
      simp only [hc, if_pos hmethod, hb, hd, if_pos hct, if_neg hne]
      split <;> simp
    · intro data bytes hct hu hm
      unfold Update
      simp only [hc, if_pos hmethod, hb, hd, if_neg hct, if_true, hu, hm]
      split <;> simp

/-- C19, at a PATCH request with the header `application/json-patch+json` and the body
bytes `[91, 93]`: the bytes are sent unchanged with the JSON-patch type. -/
theorem Update_patch_type_witness :
    Call.Patch "" "p" "application/json-patch+json" [91, 93] [] ∈
      (Update quietWorld
        { sampleRequest "PATCH" "default" with
          ContentType := "application/json-patch+json", Body := Except.ok [91, 93] }
        podSchema none "p").calls :=
  ((Update_patch_type quietWorld
    { sampleRequest "PATCH" "default" with
      ContentType := "application/json-patch+json", Body := Except.ok [91, 93] }
    podSchema none "p" (by rfl)).2 [91, 93] [] (by rfl) (by rfl) (by rfl)).1 (by rfl)

/-! ## Watches: dispatch by partition, filtering by names, fan-out -/

/-- C11: for every partition `p` and watch request, `watchByPartition` dispatches as follows:
if `p` is passthrough it returns what `Watch` returns on the request, whose namespace it
leaves unchanged; otherwise it sets the request's namespace to `p`'s namespace and returns
what `Watch` returns on that request when `p` is an all-partition, and what `WatchNames`
returns on that request with `p`'s names when it is not. -/
theorem watchByPartition_dispatch (w : World) (ww : WatchWorld) (h : List Call) (p : Partition)
    (apiOp : APIRequest) (schema : APISchema) (wr : WatchRequest) :
    (p.Passthrough = true →
      watchByPartition w ww h p apiOp schema wr = (apiOp, Watch w ww h apiOp schema wr)) ∧
    (p.Passthrough = false → p.All = true →
      (watchByPartition w ww h p apiOp schema wr).1.Namespace = p.Namespace ∧
      watchByPartition w ww h p apiOp schema wr =
        ({ apiOp with Namespace := p.Namespace },
          Watch w ww h { apiOp with Namespace := p.Namespace } schema wr)) ∧
    (p.Passthrough = false → p.All = false →
      (watchByPartition w ww h p apiOp schema wr).1.Namespace = p.Namespace ∧
      watchByPartition w ww h p apiOp schema wr =
        ({ apiOp with Namespace := p.Namespace },
          WatchNames w ww h { apiOp with Namespace := p.Namespace } schema wr p.Names)) := by
  refine ⟨?_, ?_, ?_⟩
  · intro hp
    simp [watchByPartition, hp]
  · intro hp hall
    simp [watchByPartition, hp, hall]
  · intro hp hall
    simp [watchByPartition, hp, hall]

/-- C11, at the all-partition of the namespace `ns1` and a request in the namespace
`default`: the informer is asked for the namespace `ns1`. -/
theorem watchByPartition_dispatch_witness :
    (watchByPartition quietWorld (sampleWatchWorld [] none) [] ⟨"ns1", true, false, []⟩
        (sampleRequest "GET" "default") podSchema ⟨"", "", ""⟩).1.Namespace = "ns1" ∧
    (watchByPartition quietWorld (sampleWatchWorld [] none) [] ⟨"ns1", true, false, []⟩
        (sampleRequest "GET" "default") podSchema ⟨"", "", ""⟩).2.calls =
      [Call.TableAdminClientForWatch "", Call.CacheFor (cacheForArgs quietWorld.SafeSplit podSchema),
        Call.InformerWatch ⟨"", ⟨"", "ns1", none⟩⟩] :=
  ⟨((watchByPartition_dispatch quietWorld (sampleWatchWorld [] none) [] ⟨"ns1", true, false, []⟩
      (sampleRequest "GET" "default") podSchema ⟨"", "", ""⟩).2.1 (by rfl) (by rfl)).1,
    by rfl⟩

/-- The loop of `WatchNames` keeps exactly the allowed events, in order. -/
theorem watchNamesLoop_eq_filter (names : List String) (c : List Event) :
    watchNamesLoop names c = c.filter (allowedByNames names) := by
  induction c with
  | nil => rfl
  | cons item rest ih =>
    unfold watchNamesLoop
    by_cases herr : item.Typ = EventType.Error
    · simp [herr, allowedByNames, ih]
    · cases hacc : accessorName item.Object with
      | none => simp [herr, hacc, allowedByNames, ih]
      | some name =>
        by_cases hn : name ∈ names
        · simp [herr, hacc, hn, allowedByNames, ih]
        · simp [herr, hacc, hn, allowedByNames, ih]

/-- An event is allowed when it is an error event or its object has a name in the set. -/
theorem allowedByNames_iff (names : List String) (ev : Event) :
    allowedByNames names ev = true ↔
      (ev.Typ = EventType.Error ∨ ∃ n, accessorName ev.Object = some n ∧ n ∈ names) := by
  unfold allowedByNames
  cases hacc : accessorName ev.Object with
  | none => simp
  | some name => simp

/-- C12: for every sequence `c` of events sent by the underlying watch and every set of
allowed names, the sequence `WatchNames` emits is `c` filtered: it is a subsequence of `c`
in the same order, and an event of `c` is emitted exactly when it is an `ERROR` event or a
non-error event whose object has readable metadata and a name in the set; events whose name
is outside the set or whose object has no accessor are dropped. -/
theorem WatchNames_filters (w : World) (ww : WatchWorld) (h : List Call) (apiOp : APIRequest)
    (schema : APISchema) (wr : WatchRequest) (names : List String) (c : List Event)
    (hclient : ww.TableAdminClientForWatch h "" = none)
    (herr : (watch w ww (h ++ [Call.TableAdminClientForWatch ""]) apiOp schema wr).err = none)
    (hwatch : (watch w ww (h ++ [Call.TableAdminClientForWatch ""]) apiOp schema wr).events
      = some c) :
    (WatchNames w ww h apiOp schema wr names).events
        = some (c.filter (allowedByNames names)) ∧
      (WatchNames w ww h apiOp schema wr names).err = none ∧
      (c.filter (allowedByNames names)).Sublist c ∧
      ∀ ev, ev ∈ c.filter (allowedByNames names) ↔
        ev ∈ c ∧ (ev.Typ = EventType.Error ∨
          ∃ n, accessorName ev.Object = some n ∧ n ∈ names) := by
  refine ⟨?_, ?_, List.filter_sublist c, ?_⟩
  · simp [WatchNames, hclient, herr, hwatch, watchNamesLoop_eq_filter]
  · simp [WatchNames, hclient, herr]
  · intro ev
    rw [List.mem_filter, allowedByNames_iff]

/-- C12, at the events added `a`, error, added `b`, added `a` and the allowed names `{a}`:
the event on `b` is dropped, the others are emitted in order. -/
theorem WatchNames_filters_witness :
    (WatchNames quietWorld
        (sampleWatchWorld [sampleEvent EventType.Added "a", returnErr (Err.other "gone"),
          sampleEvent EventType.Added "b", sampleEvent EventType.Modified "a"] none)
        [] (sampleRequest "GET" "default") podSchema ⟨"", "", ""⟩ ["a"]).events =
      some [sampleEvent EventType.Added "a", returnErr (Err.other "gone"),
        sampleEvent EventType.Modified "a"] :=
  (WatchNames_filters quietWorld
    (sampleWatchWorld [sampleEvent EventType.Added "a", returnErr (Err.other "gone"),
      sampleEvent EventType.Added "b", sampleEvent EventType.Modified "a"] none)
    [] (sampleRequest "GET" "default") podSchema ⟨"", "", ""⟩ ["a"]
    [sampleEvent EventType.Added "a", returnErr (Err.other "gone"),
      sampleEvent EventType.Added "b", sampleEvent EventType.Modified "a"]
    (by rfl) (by rfl) (by rfl)).1.trans (by rfl)

/-- Nothing is received from workers that have nothing to send. -/
theorem fanIn_nil_stream (schedule : List Nat) : fanIn schedule [[]] = [] := by
  induction schedule with
  | nil => rfl
  | cons i rest ih =>
    cases i with
    | zero => simpa [fanIn, nextOf] using ih
    | succ j => simpa [fanIn, nextOf] using ih

/-- C13, what the code does: `WatchByPartitions` returns a nil error for every list of
partitions; but when the worker of the only partition fails with an error `e` (its watch
cannot be started), the goroutine returns `e` to the `errgroup`, whose `Wait()` result is
dropped: the result channel is closed without any event, so no `ERROR` event carrying the
message of `e` is delivered. -/
theorem WatchByPartitions_worker_error_dropped (w : World) (ww : WatchWorld)
    (apiOp : APIRequest) (schema : APISchema) (wr : WatchRequest) (p : Partition)
    (schedule : List Nat) (e : Err)
    (hfail : (watchByPartition w ww [] p apiOp schema wr).2.err = some e) :
    (∀ partitions, (WatchByPartitions w ww apiOp schema wr partitions schedule).err = none) ∧
    (WatchByPartitions w ww apiOp schema wr [p] schedule).events = some [] ∧
    returnErr e ∉ ((WatchByPartitions w ww apiOp schema wr [p] schedule).events.getD []) := by
  have hev : (WatchByPartitions w ww apiOp schema wr [p] schedule).events = some [] := by
    simp [WatchByPartitions, partitionWorker, hfail, fanIn_nil_stream]
  refine ⟨fun _ => rfl, hev, ?_⟩
  rw [hev]
  simp

/-- C13, at a watch of pods on the all-partition of the namespace `default` in a world where
`CacheFor` fails with `boom`: the worker fails with `cachefor`'s error, and the result
channel carries no event. -/
theorem WatchByPartitions_worker_error_dropped_witness :
    (watchByPartition { quietWorld with CacheFor := fun _ _ => some (Err.other "boom") }
        (sampleWatchWorld [] none) [] ⟨"default", true, false, []⟩
        (sampleRequest "GET" "") podSchema ⟨"", "", ""⟩).2.err = some (Err.other "boom") ∧
    (WatchByPartitions { quietWorld with CacheFor := fun _ _ => some (Err.other "boom") }
        (sampleWatchWorld [] none) (sampleRequest "GET" "") podSchema ⟨"", "", ""⟩
        [⟨"default", true, false, []⟩] [0]).events = some [] ∧
    (WatchByPartitions { quietWorld with CacheFor := fun _ _ => some (Err.other "boom") }
        (sampleWatchWorld [] none) (sampleRequest "GET" "") podSchema ⟨"", "", ""⟩
        [⟨"default", true, false, []⟩] [0]).err = none :=
  ⟨by rfl,
    (WatchByPartitions_worker_error_dropped
      { quietWorld with CacheFor := fun _ _ => some (Err.other "boom") }
      (sampleWatchWorld [] none) (sampleRequest "GET" "") podSchema ⟨"", "", ""⟩
      ⟨"default", true, false, []⟩ [0] (Err.other "boom") (by rfl)).2.1,
    (WatchByPartitions_worker_error_dropped
      { quietWorld with CacheFor := fun _ _ => some (Err.other "boom") }
      (sampleWatchWorld [] none) (sampleRequest "GET" "") podSchema ⟨"", "", ""⟩
      ⟨"default", true, false, []⟩ [0] (Err.other "boom") (by rfl)).1 _⟩

/-! ## The fields handed to the cache -/

/-- C15: for every group/version/kind, `getFieldForGVK` returns the two common paths `id` and
`metadata.state.name`, in that order, followed by the registry's paths for that kind in
registry order, and exactly the two common paths for a kind without registry entry. Every
`CacheFor` call of `ListByPartitions`, and the `CacheFor` call of `watch`, is handed the
paths of the schema's columns followed by that list: one path for every column definition
of the schema, in order (none when the schema has no column definitions), which is the
column's field, without the `$.` it may start with, split by `queryhelper.SafeSplit`. -/
theorem fields_for_cache (w : World) (ww : WatchWorld) (apiOp : APIRequest)
    (schema : APISchema) :
    (∀ gvk : GroupVersionKind, getFieldForGVK gvk =
      [["id"], ["metadata", "state", "name"]] ++
        (lookupKey typeSpecificIndexedFields (gvkKey gvk.Group gvk.Version gvk.Kind)).getD []) ∧
    (∀ gvk : GroupVersionKind,
      lookupKey typeSpecificIndexedFields (gvkKey gvk.Group gvk.Version gvk.Kind) = none →
      getFieldForGVK gvk = [["id"], ["metadata", "state", "name"]]) ∧
    (∀ partitions args, Call.CacheFor args ∈ (ListByPartitions w apiOp schema partitions).calls →
      args.fields = (schema.Columns.getD []).map (fun field => w.SafeSplit (trimDollarDot field))
        ++ getFieldForGVK schema.GVK) ∧
    (∀ partitions, w.TableAdminClient [] "" = none →
      ∃ args, Call.CacheFor args ∈ (ListByPartitions w apiOp schema partitions).calls) ∧
    (∀ h wr, ∃ args rest, (watch w ww h apiOp schema wr).calls = h ++ Call.CacheFor args :: rest ∧
      (rest = [] ∨ ∃ opts, rest = [Call.InformerWatch opts]) ∧
      args.fields = (schema.Columns.getD []).map (fun field => w.SafeSplit (trimDollarDot field))
        ++ getFieldForGVK schema.GVK) ∧
    (∀ rest : String, trimDollarDot ("$." ++ rest) = rest) ∧
    (∀ field : String, field.data.take 2 ≠ ['$', '.'] → trimDollarDot field = field) := by
  have hfields : (cacheForArgs w.SafeSplit schema).fields =
      (schema.Columns.getD []).map (fun field => w.SafeSplit (trimDollarDot field))
        ++ getFieldForGVK schema.GVK := by
    unfold cacheForArgs getFieldsFromSchema
    cases schema.Columns <;> rfl
  have hcalls : ∀ partitions,
      (ListByPartitions w apiOp schema partitions).calls = [Call.TableAdminClient ""] ∨
      (ListByPartitions w apiOp schema partitions).calls
        = [Call.TableAdminClient "", Call.CacheFor (cacheForArgs w.SafeSplit schema)] ∨
      ∃ lo ns, (ListByPartitions w apiOp schema partitions).calls
        = [Call.TableAdminClient "", Call.CacheFor (cacheForArgs w.SafeSplit schema),
            Call.ListByOptions lo partitions ns] := by
    intro partitions
    unfold ListByPartitions
    simp only []
    cases hc : w.TableAdminClient [] "" with
    | some e0 => left; rfl
    | none =>
      simp only []
      right
      cases hcf : w.CacheFor [Call.TableAdminClient ""] (cacheForArgs w.SafeSplit schema) with
      | some e0 => left; rfl
      | none =>
        simp only []
        cases hp : w.ParseQuery ([Call.TableAdminClient ""] ++
            [Call.CacheFor (cacheForArgs w.SafeSplit schema)]) with
        | error e0 =>
          simp only []
          left
          split
          · split <;> rfl
          · rfl
        | ok opts =>
          simp only []
          cases ha : accessFilter apiOp schema.GVK opts with
          | error e0 => left; rfl
          | ok lo =>
            simp only []
            right
            refine ⟨lo, apiOp.Namespace, ?_⟩
            unfold listFromCache
            simp only []
            split
            · split <;> rfl
            · rfl
  refine ⟨?_, ?_, ?_, ?_, ?_, ?_, ?_⟩
  · intro gvk
    unfold getFieldForGVK commonIndexFields
    cases lookupKey typeSpecificIndexedFields (gvkKey gvk.Group gvk.Version gvk.Kind) <;> simp
  · intro gvk hnone
    unfold getFieldForGVK commonIndexFields
    simp [hnone]
  · intro partitions args hmem
    have hargs : args = cacheForArgs w.SafeSplit schema := by
      rcases hcalls partitions with h | h | ⟨lo, ns, h⟩ <;>
      · rw [h] at hmem
        simp at hmem
        try exact hmem
    rw [hargs]
    exact hfields
  · intro partitions hc
    refine ⟨cacheForArgs w.SafeSplit schema, ?_⟩
    rcases hcalls partitions with h | h | ⟨lo, ns, h⟩
    · exfalso
      revert h
      unfold ListByPartitions
      simp only [hc]
      split
      · simp
      · split
        · split
          · split <;> simp
          · simp
        · split
          · simp
          · unfold listFromCache
            simp only []
            split
            · split <;> simp
            · simp
    · rw [h]; simp
    · rw [h]; simp
  · intro h wr
    refine ⟨cacheForArgs w.SafeSplit schema, ?_⟩
    unfold watch
    simp only []
    cases hcf : w.CacheFor h (cacheForArgs w.SafeSplit schema) with
    | some e0 => exact ⟨[], by simp, Or.inl rfl, hfields⟩
    | none =>
      simp only []
      split
      · exact ⟨[], by simp, Or.inl rfl, hfields⟩
      · rename_i selector _
        exact ⟨[Call.InformerWatch
          { ResourceVersion := wr.Revision
            Filter :=
              { ID := wr.ID
                Namespace := if (ww.RSplit wr.ID "/").1 = "" then apiOp.Namespace
                  else (ww.RSplit wr.ID "/").1
                Selector := selector } }], by simp, Or.inr ⟨_, rfl⟩, hfields⟩
  · intro rest
    unfold trimDollarDot
    have h : ("$." ++ rest).data = '$' :: '.' :: rest.data := by
      rw [String.data_append]; rfl
    rw [h]
    simp
  · intro field hfield
    unfold trimDollarDot
    rw [if_neg hfield]

/-- C15, at the kind `v1` `Pod`, which has two registry paths, at the kind `example.io/v1`
`Widget`, which has no registry entry, and at a schema of pods with the two column fields
`$.metadata.name` and `spec.nodeName`, in a world whose `SafeSplit` does not split: the cache
is handed the two column paths, the first without its `$.`, then the two common paths, then
the two registry paths of `Pod`. -/
theorem fields_for_cache_witness :
    getFieldForGVK ⟨"", "v1", "Pod"⟩ =
      [["id"], ["metadata", "state", "name"], ["spec", "containers", "image"],
        ["spec", "nodeName"]] ∧
    getFieldForGVK ⟨"example.io", "v1", "Widget"⟩ = [["id"], ["metadata", "state", "name"]] ∧
    (cacheForArgs quietWorld.SafeSplit
        { podSchema with Columns := some ["$.metadata.name", "spec.nodeName"] }).fields =
      [["metadata.name"], ["spec.nodeName"], ["id"], ["metadata", "state", "name"],
        ["spec", "containers", "image"], ["spec", "nodeName"]] :=
  ⟨((fields_for_cache quietWorld (sampleWatchWorld [] none) (sampleRequest "GET" "")
      podSchema).1 ⟨"", "v1", "Pod"⟩).trans (by rfl),
    (fields_for_cache quietWorld (sampleWatchWorld [] none) (sampleRequest "GET" "")
      podSchema).2.1 ⟨"example.io", "v1", "Widget"⟩ (by rfl),
    ((fields_for_cache quietWorld (sampleWatchWorld [] none) (sampleRequest "GET" "")
      { podSchema with Columns := some ["$.metadata.name", "spec.nodeName"] }).2.2.1 []
      (cacheForArgs quietWorld.SafeSplit
        { podSchema with Columns := some ["$.metadata.name", "spec.nodeName"] })
      (List.Mem.tail _ (List.Mem.head _))).trans (by rfl)⟩

/-! ## Frame of `moveFromUnderscore` -/

/-- A key that is neither visited by the loop nor the alias of a visited name is untouched. -/
theorem get_foldl_moveFromUnderscoreStep_other (rs : List String) (j : String) :
    j ∉ rs → (∀ k ∈ rs, j ≠ "_" ++ k) → ∀ o : Obj,
      (rs.foldl moveFromUnderscoreStep o).get j = o.get j := by
  induction rs with
  | nil => intro _ _ o; rfl
  | cons r rs ih =>
    intro hj hja o
    have hjr : j ≠ r := fun e => hj (e ▸ List.mem_cons_self _ _)
    have hjr' : j ≠ "_" ++ r := hja r (List.mem_cons_self _ _)
    rw [List.foldl_cons, ih (fun h => hj (List.mem_cons_of_mem _ h))
      (fun k hk => hja k (List.mem_cons_of_mem _ hk)), get_moveFromUnderscoreStep,
      if_neg hjr, if_neg hjr']

theorem AliasFree_perm {rs rs' : List String} (hp : rs'.Perm rs) (haf : AliasFree rs) :
    AliasFree rs' := by
  intro a ha hmem
  exact haf a (hp.mem_iff.mp ha) (hp.mem_iff.mp hmem)

/-- C21, the claim as stated fails for a set of reserved names one of which is the underscore
alias of another: with the reserved names `id` and `_id` and the object `{"__id": "x"}`,
visiting `id` before `_id` leaves the key `_id`, which is the alias of the reserved name
`id`, and visiting `_id` before `id` gives the different object `{"id": "x"}`. -/
theorem moveFromUnderscore_reserved_alias :
    moveFromUnderscore ["id", "_id"] (some [("__id", Value.str "x")])
        = some [("_id", Value.str "x")] ∧
      moveFromUnderscore ["_id", "id"] (some [("__id", Value.str "x")])
        = some [("id", Value.str "x")] ∧
      ¬ (∀ (rs : List String) (o : Obj), rs.Nodup →
          ∃ r, moveFromUnderscore rs (some o) = some r ∧
            (∀ k ∈ rs, r.get ("_" ++ k) = none) ∧
            ∀ rs2 : List String, rs2.Perm rs →
              ∃ r2, moveFromUnderscore rs2 (some o) = some r2 ∧ ∀ j, r2.get j = r.get j) := by
  have h1 : moveFromUnderscore ["id", "_id"] (some [("__id", Value.str "x")])
      = some [("_id", Value.str "x")] := by rfl
  refine ⟨h1, by rfl, ?_⟩
  intro h
  obtain ⟨r, hr, hno, -⟩ := h ["id", "_id"] [("__id", Value.str "x")] (by decide)
  rw [h1] at hr
  cases hr
  have := hno "id" (by simp)
  simp [Obj.get] at this

/-- C21 (amended): for every object `o` and all reserved names that are pairwise distinct and
of which none is the underscore alias of another, visited in the order `rs`: the result of
`moveFromUnderscore` has no key `_k` with `k` reserved; every key that is neither a reserved
name nor the alias of one holds what it held in `o` (it keeps its value, and it is absent
when it was absent); every reserved name holds what its alias held; visiting the reserved
names in any other order gives a map with the same keys and values; and the nil object is
returned as nil. -/
theorem moveFromUnderscore_frame (rs : List String) (hnd : rs.Nodup) (haf : AliasFree rs)
    (o : Obj) :
    ∃ r, moveFromUnderscore rs (some o) = some r ∧
      (∀ k ∈ rs, r.get ("_" ++ k) = none) ∧
      (∀ j, j ∉ rs → (∀ k ∈ rs, j ≠ "_" ++ k) → r.get j = o.get j) ∧
      (∀ k ∈ rs, r.get k = o.get ("_" ++ k)) ∧
      (∀ rs2 : List String, rs2.Perm rs →
        ∃ r2, moveFromUnderscore rs2 (some o) = some r2 ∧ ∀ j, r2.get j = r.get j) ∧
      moveFromUnderscore rs none = none := by
  refine ⟨_, rfl, ?_, ?_, ?_, ?_, rfl⟩
  · intro k hk
    rw [get_foldl_moveFromUnderscoreStep rs hnd haf, if_neg (haf k hk), if_pos ⟨k, hk, rfl⟩]
  · intro j hj hja
    exact get_foldl_moveFromUnderscoreStep_other rs j hj hja o
  · intro k hk
    rw [get_foldl_moveFromUnderscoreStep rs hnd haf, if_pos hk]
  · intro rs2 hp
    refine ⟨_, rfl, ?_⟩
    intro j
    rw [get_foldl_moveFromUnderscoreStep rs hnd haf,
      get_foldl_moveFromUnderscoreStep rs2 (hp.nodup_iff.mpr hnd) (AliasFree_perm hp haf)]
    have hmem : j ∈ rs2 ↔ j ∈ rs := hp.mem_iff
    have hex : (∃ r ∈ rs2, j = "_" ++ r) ↔ (∃ r ∈ rs, j = "_" ++ r) :=
      ⟨fun ⟨r, hr, e⟩ => ⟨r, hp.mem_iff.mp hr, e⟩, fun ⟨r, hr, e⟩ => ⟨r, hp.mem_iff.mpr hr, e⟩⟩
    simp only [hmem, hex]

/-- C21 (amended), at the reserved names `id`, `type`, `links`, `actions` and the object
`{"_id": "x", "type": "t", "spec": 1}`: the result is `{"id": "x", "spec": 1}`. -/
theorem moveFromUnderscore_frame_witness :
    (∃ r, moveFromUnderscore ReservedFields
          (some [("_id", Value.str "x"), ("type", Value.str "t"), ("spec", Value.num 1)])
          = some r ∧
      (∀ k ∈ ReservedFields, r.get ("_" ++ k) = none) ∧
      (∀ j, j ∉ ReservedFields → (∀ k ∈ ReservedFields, j ≠ "_" ++ k) → r.get j =
        Obj.get [("_id", Value.str "x"), ("type", Value.str "t"), ("spec", Value.num 1)] j) ∧
      (∀ k ∈ ReservedFields, r.get k =
        Obj.get [("_id", Value.str "x"), ("type", Value.str "t"), ("spec", Value.num 1)]
          ("_" ++ k)) ∧
      (∀ rs2 : List String, rs2.Perm ReservedFields →
        ∃ r2, moveFromUnderscore rs2
            (some [("_id", Value.str "x"), ("type", Value.str "t"), ("spec", Value.num 1)])
            = some r2 ∧ ∀ j, r2.get j = r.get j) ∧
      moveFromUnderscore ReservedFields none = none) ∧
    moveFromUnderscore ReservedFields
        (some [("_id", Value.str "x"), ("type", Value.str "t"), ("spec", Value.num 1)])
      = some [("id", Value.str "x"), ("spec", Value.num 1)] :=
  ⟨moveFromUnderscore_frame ReservedFields (by decide) (by decide)
    [("_id", Value.str "x"), ("type", Value.str "t"), ("spec", Value.num 1)], by rfl⟩


/-! ## Frame of `rowToObject` -/

theorem tableToObjects_eq (o : Obj) :
    tableToObjects o = (tableRows o).filterMap rowObject := by
  unfold tableToObjects tableRows
  cases h : o.index "rows" <;> rfl

theorem rowObject_eq_some {row : Value} {item : Obj} (h : rowObject row = some item) :
    ∃ m object, row = Value.obj m ∧ Obj.get m "object" = some (Value.obj object) ∧
      item = PutValue object (Obj.index m "cells") ["metadata", "fields"] := by
  unfold rowObject at h
  split at h
  · rename_i m
    split at h
    · rename_i object hobj
      exact ⟨m, object, rfl, hobj, (Option.some.inj h).symm⟩
    · cases h
  · cases h

theorem rowObject_isSome (row : Value) : (rowObject row).isSome = isObjectRow row := by
  cases row with
  | obj m =>
    simp only [rowObject, isObjectRow]
    cases h : Obj.get m "object" with
    | none => rfl
    | some v => cases v <;> rfl
  | _ => rfl

theorem length_filterMap_rowObject (rows : List Value) :
    (rows.filterMap rowObject).length = rows.countP isObjectRow := by
  induction rows with
  | nil => rfl
  | cons row rows ih =>
    have hs := rowObject_isSome row
    cases h : rowObject row with
    | none =>
      rw [h] at hs
      have hf : isObjectRow row = false := hs.symm
      simp [List.filterMap_cons, h, hf, ih]
    | some item =>
      rw [h] at hs
      have ht : isObjectRow row = true := hs.symm
      simp [List.filterMap_cons, h, ht, ih]

theorem rowAfter_of_not_isObjectRow {row : Value} (h : isObjectRow row = false) :
    rowAfter row = row := by
  unfold isObjectRow at h
  unfold rowAfter
  split
  · rename_i m
    split
    · rename_i object hobj
      simp [hobj] at h
    · rfl
  · rfl

theorem isObjectRow_rowAfter (row : Value) : isObjectRow (rowAfter row) = isObjectRow row := by
  cases hr : isObjectRow row with
  | false => rw [rowAfter_of_not_isObjectRow hr, hr]
  | true =>
    unfold isObjectRow at hr
    split at hr
    · rename_i m
      split at hr
      · rename_i object hobj
        simp [rowAfter, hobj, isObjectRow, Obj.get_set]
      · cases hr
    · cases hr

theorem get_rows_of_tableRows {o : Obj} {rows : List Value}
    (h : o.index "rows" = Value.arr rows) : o.get "rows" = some (Value.arr rows) := by
  unfold Obj.index at h
  cases hg : o.get "rows" with
  | none => rw [hg] at h; cases h
  | some v => rw [hg] at h; exact congrArg some h

theorem get_tableAfter_other (o : Obj) (j : String) (hj : j ≠ "rows") :
    (tableAfter o).get j = o.get j := by
  unfold tableAfter
  split
  · rw [Obj.get_set, if_neg hj]
  · rfl

theorem tableRows_tableAfter (o : Obj) :
    tableRows (tableAfter o) = (tableRows o).map rowAfter := by
  unfold tableAfter tableRows
  cases h : o.index "rows" with
  | arr rows => simp [Obj.index, Obj.get_set]
  | _ => simp [h]

theorem isTable_tableAfter (o : Obj) : isTable (tableAfter o) = isTable o := by
  unfold isTable Obj.index
  rw [get_tableAfter_other o "kind" (by decide),
    get_tableAfter_other o "apiVersion" (by decide)]

/-- C22: `rowToObject` leaves an object unchanged whose kind is not `Table` or whose
apiVersion is neither `meta.k8s.io/v1` nor `meta.k8s.io/v1beta1`. For a recognised Table:
when exactly one row is a map carrying an object map (the other rows are skipped), the
object is replaced by that row's object, with the row's cells put under `metadata.fields`;
when the number of such rows is not one, the object is not replaced: it is still the table
map, recognised as a Table, with every key other than `rows` as it was and with the same
rows in the same order, where a row without an object map is as it was and a row carrying
one has had its cells written into its own object; when no row carries an object map the
table is as it was at every key. -/
theorem rowToObject_frame (o : Obj) :
    (((o.index "kind").isStr "Table" = false ∨
        ((o.index "apiVersion").isStr "meta.k8s.io/v1" = false ∧
          (o.index "apiVersion").isStr "meta.k8s.io/v1beta1" = false)) →
      rowToObject (some o) = some o) ∧
    (isTable o = true → (tableRows o).countP isObjectRow = 1 →
      ∃ m object, Value.obj m ∈ tableRows o ∧ Obj.get m "object" = some (Value.obj object) ∧
        rowToObject (some o)
          = some (PutValue object (Obj.index m "cells") ["metadata", "fields"])) ∧
    (isTable o = true → (tableRows o).countP isObjectRow ≠ 1 →
      rowToObject (some o) = some (tableAfter o) ∧
      isTable (tableAfter o) = true ∧
      (∀ j, j ≠ "rows" → (tableAfter o).get j = o.get j) ∧
      tableRows (tableAfter o) = (tableRows o).map rowAfter ∧
      (∀ row ∈ tableRows o, isObjectRow row = false → rowAfter row = row) ∧
      (tableRows (tableAfter o)).countP isObjectRow = (tableRows o).countP isObjectRow ∧
      ((tableRows o).countP isObjectRow = 0 → ∀ j, (tableAfter o).get j = o.get j)) := by
  refine ⟨?_, ?_, ?_⟩
  · intro h
    have hnt : isTable o = false := by
      unfold isTable
      rcases h with h | ⟨h1, h2⟩
      · simp [h]
      · simp [h1, h2]
    simp [rowToObject, hnt]
  · intro ht hc
    rw [← length_filterMap_rowObject, ← tableToObjects_eq] at hc
    obtain ⟨item, hitem⟩ := List.length_eq_one.mp hc
    have hmem : item ∈ (tableRows o).filterMap rowObject := by
      rw [← tableToObjects_eq, hitem]; exact List.mem_singleton_self _
    obtain ⟨row, hrow, hro⟩ := List.mem_filterMap.mp hmem
    obtain ⟨m, object, rfl, hobj, rfl⟩ := rowObject_eq_some hro
    refine ⟨m, object, hrow, hobj, ?_⟩
    simp [rowToObject, ht, hitem]
  · intro ht hc
    refine ⟨?_, ?_, get_tableAfter_other o, tableRows_tableAfter o, ?_, ?_, ?_⟩
    · rw [← length_filterMap_rowObject, ← tableToObjects_eq] at hc
      simp only [rowToObject, ht, if_true]
      split
      · rename_i item hitem
        rw [hitem] at hc
        exact absurd rfl hc
      · rfl
    · rw [isTable_tableAfter, ht]
    · intro row _ hrow
      exact rowAfter_of_not_isObjectRow hrow
    · rw [tableRows_tableAfter, List.countP_map]
      congr 1
      funext row
      exact isObjectRow_rowAfter row
    · intro h0 j
      by_cases hj : j = "rows"
      · subst hj
        have hall : ∀ row ∈ tableRows o, rowAfter row = row := by
          intro row hrow
          apply rowAfter_of_not_isObjectRow
          have := List.countP_eq_zero.mp h0 row hrow
          simpa using this
        have hmap : (tableRows o).map rowAfter = tableRows o := by
          conv_rhs => rw [← List.map_id (tableRows o)]
          exact List.map_congr_left hall
        unfold tableAfter
        unfold tableRows at hmap
        split
        · rename_i rows hrows
          rw [hrows] at hmap
          simp only [] at hmap
          rw [Obj.get_set, if_pos rfl, hmap, get_rows_of_tableRows hrows]
        · rfl
      · exact get_tableAfter_other o j hj

/-- C22, at the object `{"kind": "Pod"}`, at a `v1` Table with one malformed row and one row
carrying the object `{"spec": 1}`, and at a `v1beta1` Table with two rows carrying objects,
which stays the Table with the cells of each row written into the row's object. -/
theorem rowToObject_frame_witness :
    rowToObject (some [("kind", Value.str "Pod")]) = some [("kind", Value.str "Pod")] ∧
    (∃ m object,
      Value.obj m ∈ tableRows [("kind", Value.str "Table"),
        ("apiVersion", Value.str "meta.k8s.io/v1"),
        ("rows", Value.arr [Value.str "bad",
          Value.obj [("cells", Value.arr [Value.str "a"]),
            ("object", Value.obj [("spec", Value.num 1)])]])] ∧
      Obj.get m "object" = some (Value.obj object) ∧
      rowToObject (some [("kind", Value.str "Table"),
        ("apiVersion", Value.str "meta.k8s.io/v1"),
        ("rows", Value.arr [Value.str "bad",
          Value.obj [("cells", Value.arr [Value.str "a"]),
            ("object", Value.obj [("spec", Value.num 1)])]])])
        = some (PutValue object (Obj.index m "cells") ["metadata", "fields"])) ∧
    rowToObject (some [("kind", Value.str "Table"),
        ("apiVersion", Value.str "meta.k8s.io/v1beta1"),
        ("rows", Value.arr [
          Value.obj [("cells", Value.arr [Value.str "x"]),
            ("object", Value.obj [("a", Value.num 1)])],
          Value.obj [("cells", Value.arr [Value.str "y"]),
            ("object", Value.obj [("b", Value.num 2)])]])])
      = some [("rows", Value.arr [
          Value.obj [("object", Value.obj [("metadata",
              Value.obj [("fields", Value.arr [Value.str "x"])]), ("a", Value.num 1)]),
            ("cells", Value.arr [Value.str "x"])],
          Value.obj [("object", Value.obj [("metadata",
              Value.obj [("fields", Value.arr [Value.str "y"])]), ("b", Value.num 2)]),
            ("cells", Value.arr [Value.str "y"])]]),
        ("kind", Value.str "Table"), ("apiVersion", Value.str "meta.k8s.io/v1beta1")] :=
  ⟨(rowToObject_frame [("kind", Value.str "Pod")]).1 (Or.inl (by rfl)),
    (rowToObject_frame [("kind", Value.str "Table"),
        ("apiVersion", Value.str "meta.k8s.io/v1"),
        ("rows", Value.arr [Value.str "bad",
          Value.obj [("cells", Value.arr [Value.str "a"]),
            ("object", Value.obj [("spec", Value.num 1)])]])]).2.1 (by rfl) (by rfl),
    (((rowToObject_frame [("kind", Value.str "Table"),
        ("apiVersion", Value.str "meta.k8s.io/v1beta1"),
        ("rows", Value.arr [
          Value.obj [("cells", Value.arr [Value.str "x"]),
            ("object", Value.obj [("a", Value.num 1)])],
          Value.obj [("cells", Value.arr [Value.str "y"]),
            ("object", Value.obj [("b", Value.num 2)])]])]).2.2 (by rfl)
      (by decide)).1).trans (by rfl)⟩

end Sqlproxy

/-! # Routing (`Routes`) -/

namespace Router

theorem text_v1 : text "v1" = [118, 49] := by rfl
theorem text_api : text "api" = [97, 112, 105] := by rfl
theorem text_apis : text "apis" = [97, 112, 105, 115] := by rfl
theorem text_openapi : text "openapi" = [111, 112, 101, 110, 97, 112, 105] := by rfl
theorem text_version : text "version" = [118, 101, 114, 115, 105, 111, 110] := by rfl
theorem text_ext : text "ext" = [101, 120, 116] := by rfl

theorem matchPath_nil (segs : List GoString) : matchPath [] segs = none := by
  induction segs with
  | nil => rfl
  | cons s rest ih =>
    simp [matchPath, stepLiteral, stepWildcard, ih, multiLeaf]

theorem candidates_Routes (ext : Bool) :
    candidates ([("/", Registered.rootFunc), ("/v1", Registered.APIRoot)] ++
      (if ext = true then
        [("/ext", Registered.ExtensionAPIServer), ("/ext/", Registered.ExtensionAPIServer)]
      else []) ++
      [("/v1/{type}", Registered.K8sResource),
        ("/v1/{type}/{nameorns}", Registered.K8sResource),
        ("/v1/{type}/{namespace}/{name}", Registered.K8sResource),
        ("/v1/{type}/{namespace}/{name}/{link}", Registered.K8sResource),
        ("/api", Registered.K8sProxy),
        ("/api/", Registered.K8sProxy),
        ("/apis/", Registered.K8sProxy),
        ("/openapi/", Registered.K8sProxy),
        ("/version/", Registered.K8sProxy)]) = rootCandidates ext := by
  cases ext <;> rfl

/-- The match of a path whose first segment is none of the literals of the routes. -/
theorem matchPath_other (ext : Bool) (s : GoString) (rest : List GoString)
    (h1 : s ≠ text "v1") (h2 : s ≠ text "api") (h3 : s ≠ text "apis")
    (h4 : s ≠ text "openapi") (h5 : s ≠ text "version") (h6 : s ≠ text "ext" ∨ ext = false) :
    matchPath (rootCandidates ext) (s :: rest)
      = some ⟨[], true, 1, Registered.rootFunc, [], []⟩ := by
  rw [text_v1] at h1
  rw [text_api] at h2
  rw [text_apis] at h3
  rw [text_openapi] at h4
  rw [text_version] at h5
  rw [text_ext] at h6
  have h1' : ¬ [118, 49] = s := fun e => h1 e.symm
  have h2' : ¬ [97, 112, 105] = s := fun e => h2 e.symm
  have h3' : ¬ [97, 112, 105, 115] = s := fun e => h3 e.symm
  have h4' : ¬ [111, 112, 101, 110, 97, 112, 105] = s := fun e => h4 e.symm
  have h5' : ¬ [118, 101, 114, 115, 105, 111, 110] = s := fun e => h5 e.symm
  cases ext with
  | false =>
    simp [matchPath, rootCandidates, stepLiteral, stepWildcard, multiLeaf, matchPath_nil,
      childKey, text_v1, text_api, text_apis, text_openapi, text_version, text_ext,
      h1', h2', h3', h4', h5']
  | true =>
    have h6' : ¬ [101, 120, 116] = s := by
      rcases h6 with h | h
      · exact fun e => h e.symm
      · cases h
    simp [matchPath, rootCandidates, stepLiteral, stepWildcard, multiLeaf, matchPath_nil,
      childKey, text_v1, text_api, text_apis, text_openapi, text_version, text_ext,
      h1', h2', h3', h4', h5', h6']

/-- The match of `/api` and of the paths under `/api/`. -/
theorem matchPath_api (ext : Bool) (rest : List GoString) :
    matchPath (rootCandidates ext) (text "api" :: rest) =
      some (if rest = [] then ⟨[], false, 1, Registered.K8sProxy, [], []⟩
        else ⟨[], true, 2, Registered.K8sProxy, [], []⟩) := by
  cases ext <;> cases rest <;>
    simp [matchPath, rootCandidates, stepLiteral, stepWildcard, multiLeaf, leaf, matchPath_nil,
      childKey, text_v1, text_api, text_apis, text_openapi, text_version, text_ext]

/-- The match of the paths at and under `/apis`, `/openapi` and `/version`. -/
theorem matchPath_subtree (ext : Bool) (s : GoString) (rest : List GoString)
    (hs : s = text "apis" ∨ s = text "openapi" ∨ s = text "version") :
    matchPath (rootCandidates ext) (s :: rest) =
      some (if rest = [] then ⟨[], true, 1, Registered.rootFunc, [], []⟩
        else ⟨[], true, 2, Registered.K8sProxy, [], []⟩) := by
  rcases hs with h | h | h <;> subst h <;> cases ext <;> cases rest <;>
    simp [matchPath, rootCandidates, stepLiteral, stepWildcard, multiLeaf, leaf, matchPath_nil,
      childKey, text_v1, text_api, text_apis, text_openapi, text_version, text_ext]

/-- The match of `/ext` and of the paths under `/ext/` when the extension server is set. -/
theorem matchPath_ext (rest : List GoString) :
    matchPath (rootCandidates true) (text "ext" :: rest) =
      some (if rest = [] then ⟨[], false, 1, Registered.ExtensionAPIServer, [], []⟩
        else ⟨[], true, 2, Registered.ExtensionAPIServer, [], []⟩) := by
  cases rest <;>
    simp [matchPath, rootCandidates, stepLiteral, stepWildcard, multiLeaf, leaf, matchPath_nil,
      childKey, text_v1, text_api, text_apis, text_openapi, text_version, text_ext]

/-- The match at the root, for a first segment `v1`, in terms of the match below `/v1`. -/
theorem matchPath_v1_step (ext : Bool) (rest : List GoString) :
    matchPath (rootCandidates ext) (text "v1" :: rest) =
      match matchPath
        [⟨[], false, 1, Registered.APIRoot, [], []⟩,
          ⟨[PatternSegment.wildcard "type"], false, 2, Registered.K8sResource, ["type"], []⟩,
          ⟨[PatternSegment.wildcard "type", PatternSegment.wildcard "nameorns"], false, 3,
            Registered.K8sResource, ["type", "nameorns"], []⟩,
          ⟨[PatternSegment.wildcard "type", PatternSegment.wildcard "namespace",
            PatternSegment.wildcard "name"], false, 4, Registered.K8sResource,
            ["type", "namespace", "name"], []⟩,
          ⟨[PatternSegment.wildcard "type", PatternSegment.wildcard "namespace",
            PatternSegment.wildcard "name", PatternSegment.wildcard "link"], false, 5,
            Registered.K8sResource, ["type", "namespace", "name", "link"], []⟩] rest with
      | some c => some c
      | none => some ⟨[], true, 1, Registered.rootFunc, [], []⟩ := by
  cases ext <;>
    simp [matchPath, rootCandidates, stepLiteral, stepWildcard, multiLeaf,
      matchPath_nil, childKey, text_v1, text_api, text_apis, text_openapi, text_version,
      text_ext]

set_option maxHeartbeats 1600000 in
/-- The match of the paths at and under `/v1`, none of whose segments is empty. -/
theorem matchPath_v1 (ext : Bool) (rest : List GoString) (hne : ∀ s ∈ rest, s ≠ []) :
    matchPath (rootCandidates ext) (text "v1" :: rest) =
      some (match rest with
        | [] => ⟨[], false, 1, Registered.APIRoot, [], []⟩
        | [t] =>
          if t = [47] then ⟨[], true, 1, Registered.rootFunc, [], []⟩
          else ⟨[], false, 2, Registered.K8sResource, ["type"], [t]⟩
        | [t, x] =>
          if t = [47] ∨ x = [47] then ⟨[], true, 1, Registered.rootFunc, [], []⟩
          else ⟨[], false, 3, Registered.K8sResource, ["type", "nameorns"], [t, x]⟩
        | [t, ns, n] =>
          if t = [47] ∨ ns = [47] ∨ n = [47] then ⟨[], true, 1, Registered.rootFunc, [], []⟩
          else ⟨[], false, 4, Registered.K8sResource, ["type", "namespace", "name"],
            [t, ns, n]⟩
        | [t, ns, n, l] =>
          if t = [47] ∨ ns = [47] ∨ n = [47] ∨ l = [47] then
            ⟨[], true, 1, Registered.rootFunc, [], []⟩
          else ⟨[], false, 5, Registered.K8sResource, ["type", "namespace", "name", "link"],
            [t, ns, n, l]⟩
        | _ => ⟨[], true, 1, Registered.rootFunc, [], []⟩) := by
  rw [matchPath_v1_step]
  rcases rest with _ | ⟨t, _ | ⟨x, _ | ⟨y, _ | ⟨z, _ | ⟨u, rest⟩⟩⟩⟩⟩
  · simp [matchPath, leaf]
  · have ht : ¬ [] = t := fun e => hne t (by simp) e.symm
    by_cases h1 : t = [47] <;>
      simp [matchPath, stepLiteral, stepWildcard, multiLeaf, leaf, matchPath_nil, childKey,
        ht, h1]
  · have ht : ¬ [] = t := fun e => hne t (by simp) e.symm
    have hx : ¬ [] = x := fun e => hne x (by simp) e.symm
    by_cases h1 : t = [47] <;> by_cases h2 : x = [47] <;>
      simp [matchPath, stepLiteral, stepWildcard, multiLeaf, leaf, matchPath_nil, childKey,
        ht, hx, h1, h2]
  · have ht : ¬ [] = t := fun e => hne t (by simp) e.symm
    have hx : ¬ [] = x := fun e => hne x (by simp) e.symm
    have hy : ¬ [] = y := fun e => hne y (by simp) e.symm
    by_cases h1 : t = [47] <;> by_cases h2 : x = [47] <;> by_cases h3 : y = [47] <;>
      simp [matchPath, stepLiteral, stepWildcard, multiLeaf, leaf, matchPath_nil, childKey,
        ht, hx, hy, h1, h2, h3]
  · have ht : ¬ [] = t := fun e => hne t (by simp) e.symm
    have hx : ¬ [] = x := fun e => hne x (by simp) e.symm
    have hy : ¬ [] = y := fun e => hne y (by simp) e.symm
    have hz : ¬ [] = z := fun e => hne z (by simp) e.symm
    by_cases h1 : t = [47] <;> by_cases h2 : x = [47] <;> by_cases h3 : y = [47] <;>
      by_cases h4 : z = [47] <;>
      simp [matchPath, stepLiteral, stepWildcard, multiLeaf, leaf, matchPath_nil, childKey,
        ht, hx, hy, hz, h1, h2, h3, h4]
  · have ht : ¬ [] = t := fun e => hne t (by simp) e.symm
    have hx : ¬ [] = x := fun e => hne x (by simp) e.symm
    have hy : ¬ [] = y := fun e => hne y (by simp) e.symm
    have hz : ¬ [] = z := fun e => hne z (by simp) e.symm
    have hu : ¬ [] = u := fun e => hne u (by simp) e.symm
    by_cases h1 : t = [47] <;> by_cases h2 : x = [47] <;> by_cases h3 : y = [47] <;>
      by_cases h4 : z = [47] <;>
      simp [matchPath, stepLiteral, stepWildcard, multiLeaf, leaf, matchPath_nil, childKey,
        ht, hx, hy, hz, hu, h1, h2, h3, h4]

theorem splitSlash_ne_nil (cs : GoString) : splitSlash cs ≠ [] := by
  cases cs with
  | nil => simp [splitSlash]
  | cons c cs =>
    unfold splitSlash
    split_ifs
    · simp
    · split <;> simp

theorem splitSlash_eq_empty (cs : GoString) (h : splitSlash cs = [[]]) : cs = [] := by
  cases cs with
  | nil => rfl
  | cons c cs =>
    exfalso
    revert h
    unfold splitSlash
    split_ifs
    · simp [splitSlash_ne_nil]
    · split <;> simp

theorem splitSlash_append_slash (d : GoString) :
    splitSlash (d ++ [47]) = splitSlash d ++ [[]] := by
  induction d with
  | nil => rfl
  | cons c d ih =>
    have hcons : (c :: d) ++ [47] = c :: (d ++ [47]) := rfl
    rw [hcons]
    unfold splitSlash
    split_ifs with hc
    · rw [ih]; rfl
    · rw [ih]
      cases hsp : splitSlash d with
      | nil => exact absurd hsp (splitSlash_ne_nil d)
      | cons s ss => rfl

theorem length_splitSlash (d : GoString) : (splitSlash d).length = d.count 47 + 1 := by
  induction d with
  | nil => rfl
  | cons c d ih =>
    simp only [splitSlash]
    split_ifs with hc
    · subst hc
      simp [ih]
    · have hc' : ¬ (c == 47) = true := by simpa using hc
      cases hsp : splitSlash d with
      | nil => exact absurd hsp (splitSlash_ne_nil d)
      | cons s ss =>
        rw [hsp] at ih
        simp only [List.length_cons] at ih ⊢
        rw [List.count_cons, if_neg hc']
        omega

theorem getLast_splitSlash (d : GoString) :
    (splitSlash d).getLast? = some [] ↔ d = [] ∨ d.getLast? = some 47 := by
  induction d with
  | nil => simp [splitSlash]
  | cons c d ih =>
    simp only [splitSlash]
    split_ifs with hc
    · subst hc
      cases hsp : splitSlash d with
      | nil => exact absurd hsp (splitSlash_ne_nil d)
      | cons s ss =>
        rw [hsp] at ih
        rw [List.getLast?_cons_cons, ih]
        cases d with
        | nil => simp
        | cons c2 d2 => simp [List.getLast?_cons_cons]
    · cases hsp : splitSlash d with
      | nil => exact absurd hsp (splitSlash_ne_nil d)
      | cons s ss =>
        rw [hsp] at ih
        cases ss with
        | nil =>
          have hne : ¬ (d = [] ∨ d.getLast? = some 47) ∨ s = [] := by
            by_cases hs : s = []
            · right; exact hs
            · left
              intro h
              have := ih.mpr h
              simp at this
              exact hs this
          cases d with
          | nil => simp [hc]
          | cons c2 d2 =>
            simp only [List.getLast?_singleton, List.getLast?_cons_cons]
            constructor
            · intro h; simp at h
            · rintro (h | h)
              · simp at h
              · rcases hne with hne | hs
                · exact absurd (Or.inr h) hne
                · subst hs
                  have := splitSlash_eq_empty _ hsp
                  simp at this
        | cons s2 ss2 =>
          rw [List.getLast?_cons_cons] at ih ⊢
          rw [ih]
          cases d with
          | nil => simp [splitSlash] at hsp
          | cons c2 d2 => simp [List.getLast?_cons_cons]

theorem unescape_ne_nil (s t : GoString) (hs : s ≠ []) (h : unescape s = some t) : t ≠ [] := by
  cases s with
  | nil => exact absurd rfl hs
  | cons c rest =>
    unfold unescape at h
    split_ifs at h with hc
    · split at h
      · split_ifs at h
        split at h
        · simp only [Option.some.injEq] at h
          rw [← h]; simp
        · cases h
      · cases h
    · split at h
      · simp only [Option.some.injEq] at h
        rw [← h]; simp
      · cases h

theorem pathUnescape_ne_nil (s : GoString) (hs : s ≠ []) : pathUnescape s ≠ [] := by
  unfold pathUnescape
  cases h : unescape s with
  | none => simpa using hs
  | some t => simpa using unescape_ne_nil s t hs h

theorem normalSegment_ne_nil {s : GoString} (h : normalSegment s = true) : s ≠ [] := by
  intro e
  subst e
  simp [normalSegment] at h

/-- The two shapes of a path that needs no cleaning: it ends with a slash, and its segments
are those before the slash followed by the segment `/`; or it does not, and appending a
slash appends the segment `/`. No segment is empty. -/
theorem clean_cases (e : GoString) (h : isClean e = true) :
    (e.getLast? = some 47 ∧ ∃ init : List GoString, (∀ s ∈ init, s ≠ []) ∧
        pathSegments e = init ++ [[47]]) ∨
    (e.getLast? ≠ some 47 ∧ ∃ s rest, (∀ x ∈ s :: rest, x ≠ []) ∧
        pathSegments e = s :: rest ∧ pathSegments (e ++ [47]) = s :: rest ++ [[47]] ∧
        (e ++ [47]).count 47 = rest.length + 2) := by
  cases e with
  | nil => simp [isClean] at h
  | cons c d =>
    unfold isClean at h
    simp only [Bool.and_eq_true, beq_iff_eq] at h
    obtain ⟨⟨hc, hall⟩, hlast⟩ := h
    subst hc
    rcases (splitSlash d).eq_nil_or_concat with hnil | ⟨L, b, hparts⟩
    · exact absurd hnil (splitSlash_ne_nil d)
    · rw [List.concat_eq_append] at hparts
      rw [hparts] at hall hlast
      simp only [List.dropLast_concat] at hall
      have hgl : (L ++ [b]).getLast? = some b := by simp
      rw [hgl] at hlast
      simp only [Option.getD_some] at hlast
      have hL : ∀ x ∈ L, x ≠ [] := fun x hx =>
        normalSegment_ne_nil (List.all_eq_true.mp hall x hx)
      by_cases hb : b = []
      · subst hb
        have hgl' : (splitSlash d).getLast? = some [] := by rw [hparts]; simp
        have hd := (getLast_splitSlash d).mp hgl'
        left
        constructor
        · rcases hd with hd | hd
          · subst hd; rfl
          · cases d with
            | nil => simp at hd
            | cons c2 d2 => rw [List.getLast?_cons_cons]; exact hd
        · refine ⟨L.map pathUnescape, ?_, ?_⟩
          · intro s hs
            obtain ⟨x, hx, rfl⟩ := List.mem_map.mp hs
            exact pathUnescape_ne_nil x (hL x hx)
          · unfold pathSegments
            by_cases hdn : d = []
            · subst hdn
              have : L = [] := by
                have h1 : (L ++ [([] : GoString)]).length = 1 := by rw [← hparts]; rfl
                simp at h1
                exact h1
              subst this
              simp
            · have hLne : L ≠ [] := by
                intro hLe
                subst hLe
                exact hdn (splitSlash_eq_empty d hparts)
              have hlen : 2 ≤ (splitSlash d).length := by
                rw [hparts]
                cases L with
                | nil => exact absurd rfl hLne
                | cons x xs => simp
              simp only [List.cons_ne_nil, if_false, List.drop_one, List.tail_cons]
              have hne47 : ¬ (47 :: d = [47]) := by simpa using hdn
              rw [if_neg hne47, if_pos ⟨hlen, hgl'⟩, hparts]
              simp
      · have hbn : normalSegment b = true := by
          rcases Bool.or_eq_true _ _ ▸ hlast with h1 | h1
          · exact absurd (by simpa using h1) hb
          · exact h1
        have hgl' : ¬ (splitSlash d).getLast? = some [] := by
          rw [hparts]
          simp
          exact fun e => hb e
        have hd := fun hh => hgl' ((getLast_splitSlash d).mpr hh)
        have hdn : d ≠ [] := fun e => hd (Or.inl e)
        right
        constructor
        · cases d with
          | nil => exact absurd rfl hdn
          | cons c2 d2 =>
            rw [List.getLast?_cons_cons]
            exact fun e => hd (Or.inr e)
        · have hall' : ∀ x ∈ (L ++ [b]).map pathUnescape, x ≠ [] := by
            intro s hs
            obtain ⟨x, hx, rfl⟩ := List.mem_map.mp hs
            apply pathUnescape_ne_nil
            rcases List.mem_append.mp hx with hx | hx
            · exact hL x hx
            · simp only [List.mem_singleton] at hx
              rw [hx]; exact hb
          have hseg : pathSegments (47 :: d) = (L ++ [b]).map pathUnescape := by
            unfold pathSegments
            have hne47 : ¬ (47 :: d = [47]) := by simpa using hdn
            simp only [List.cons_ne_nil, if_false, List.drop_one, List.tail_cons]
            rw [if_neg hne47, if_neg (fun hh => hgl' hh.2), hparts]
          have hseg2 : pathSegments (47 :: d ++ [47])
              = (L ++ [b]).map pathUnescape ++ [[47]] := by
            unfold pathSegments
            have hne47 : ¬ (47 :: d ++ [47] = [47]) := by simp
            have hcons : 47 :: d ++ [47] = 47 :: (d ++ [47]) := rfl
            rw [hcons]
            simp only [List.cons_ne_nil, if_false, List.drop_one, List.tail_cons]
            rw [if_neg (by simp), splitSlash_append_slash, hparts]
            simp
          have hcount : (47 :: d ++ [47]).count 47 = (L ++ [b]).length + 1 := by
            have := length_splitSlash d
            rw [hparts] at this
            have h1 : (47 :: d ++ [47]).count 47 = d.count 47 + 2 := by
              simp [List.count_append]
            rw [h1]
            simp only [List.length_append, List.length_singleton] at this ⊢
            omega
          cases hm : (L ++ [b]).map pathUnescape with
          | nil => simp at hm
          | cons s rest =>
            rw [hm] at hall' hseg hseg2
            refine ⟨s, rest, hall', hseg, hseg2, ?_⟩
            rw [hcount]
            have hl : ((L ++ [b]).map pathUnescape).length = (s :: rest).length := by rw [hm]
            simp only [List.length_map, List.length_cons] at hl
            omega

theorem trimExt_length (p : GoString) :
    ((trimExt p).length < p.length) ↔ p.take 4 = text "/ext" := by
  unfold trimExt
  by_cases h : p.take 4 = text "/ext"
  · rw [if_pos h]
    have hl : (p.take 4).length = 4 := by rw [h]; rfl
    simp only [List.length_take] at hl
    simp only [List.length_drop, h, iff_true]
    omega
  · rw [if_neg h]
    simp [h]

theorem trimExt_of_take (p : GoString) (h : p.take 4 = text "/ext") : trimExt p = p.drop 4 := by
  unfold trimExt
  rw [if_pos h]

/-- What `StripPrefix("/ext", ...)` does with a request, in the words of the routing table. -/
theorem invoke_ext (h : Handlers) (r : Request) (multi : Bool) (count : Nat) :
    invoke h r ⟨[], multi, count, Registered.ExtensionAPIServer, [], []⟩ =
      if r.Path.take 4 = text "/ext" ∧ (r.RawPath = [] ∨ r.RawPath.take 4 = text "/ext") then
        Served.ExtensionAPIServer (r.Path.drop 4) (r.RawPath.drop 4)
      else Served.notFound := by
  unfold invoke
  simp only [trimExt_length]
  by_cases hp : r.Path.take 4 = text "/ext"
  · by_cases hr : r.RawPath = []
    · simp [hp, hr, trimExt_of_take _ hp, trimExt]
    · by_cases hr2 : r.RawPath.take 4 = text "/ext"
      · simp [hp, hr2, trimExt_of_take _ hp, trimExt_of_take _ hr2]
      · simp [hp, hr, hr2]
  · simp [hp]

theorem invoke_root (h : Handlers) (r : Request) :
    invoke h r ⟨[], true, 1, Registered.rootFunc, [], []⟩ = expectedRoot h r := by
  rfl

theorem slash_ne_texts :
    ([47] : GoString) ≠ text "v1" ∧ ([47] : GoString) ≠ text "api" ∧
    ([47] : GoString) ≠ text "apis" ∧ ([47] : GoString) ≠ text "openapi" ∧
    ([47] : GoString) ≠ text "version" ∧ ([47] : GoString) ≠ text "ext" := by
  refine ⟨?_, ?_, ?_, ?_, ?_, ?_⟩ <;> decide

/-- The handler invoked for the match of the segments `segs`, none of which is empty, when
the mux does not redirect: the routing table without its redirects. -/
theorem dispatch_matchPath (h : Handlers) (r : Request) (s : GoString) (rest : List GoString)
    (hne : ∀ x ∈ rest, x ≠ []) :
    dispatch h r (matchPath (rootCandidates h.ExtensionAPIServer) (s :: rest)) =
      if s = text "v1" then expectedV1 h r rest
      else if s = text "api" then Served.K8sProxy
      else if s = text "apis" ∨ s = text "openapi" ∨ s = text "version" then
        if rest = [] then expectedRoot h r else Served.K8sProxy
      else if s = text "ext" ∧ h.ExtensionAPIServer = true then
        if r.Path.take 4 = text "/ext" ∧ (r.RawPath = [] ∨ r.RawPath.take 4 = text "/ext") then
          Served.ExtensionAPIServer (r.Path.drop 4) (r.RawPath.drop 4)
        else Served.notFound
      else expectedRoot h r := by
  by_cases hv1 : s = text "v1"
  · subst hv1
    rw [if_pos rfl, matchPath_v1 _ _ hne]
    rcases rest with _ | ⟨t, _ | ⟨x, _ | ⟨y, _ | ⟨z, _ | ⟨u, rest⟩⟩⟩⟩⟩
    · rfl
    · by_cases h1 : t = [47] <;> simp [dispatch, invoke, expectedRoot, expectedV1, h1]
    · by_cases h1 : t = [47] <;> by_cases h2 : x = [47] <;>
        simp [dispatch, invoke, expectedRoot, expectedV1, h1, h2]
    · by_cases h1 : t = [47] <;> by_cases h2 : x = [47] <;> by_cases h3 : y = [47] <;>
        simp [dispatch, invoke, expectedRoot, expectedV1, h1, h2, h3]
    · by_cases h1 : t = [47] <;> by_cases h2 : x = [47] <;> by_cases h3 : y = [47] <;>
        by_cases h4 : z = [47] <;>
        simp [dispatch, invoke, expectedRoot, expectedV1, h1, h2, h3, h4]
    · simp [dispatch, invoke, expectedRoot, expectedV1]
  · rw [if_neg hv1]
    by_cases hapi : s = text "api"
    · subst hapi
      rw [if_pos rfl, matchPath_api]
      cases rest <;> simp [dispatch, invoke]
    · rw [if_neg hapi]
      by_cases hsub : s = text "apis" ∨ s = text "openapi" ∨ s = text "version"
      · rw [if_pos hsub, matchPath_subtree _ _ _ hsub]
        cases rest with
        | nil => simp [dispatch, invoke_root]
        | cons a b =>
          simp only [dispatch, List.cons_ne_nil, if_false]
          rfl
      · rw [if_neg hsub]
        have h3' : s ≠ text "apis" := fun e => hsub (Or.inl e)
        have h4' : s ≠ text "openapi" := fun e => hsub (Or.inr (Or.inl e))
        have h5' : s ≠ text "version" := fun e => hsub (Or.inr (Or.inr e))
        by_cases hext : s = text "ext" ∧ h.ExtensionAPIServer = true
        · obtain ⟨hs, he⟩ := hext
          subst hs
          rw [he, matchPath_ext]
          simp only [true_and, and_true, if_true]
          cases rest <;> simp [dispatch, invoke_ext]
        · rw [if_neg hext]
          have h6 : s ≠ text "ext" ∨ h.ExtensionAPIServer = false := by
            by_cases hs : s = text "ext"
            · right
              cases hx : h.ExtensionAPIServer with
              | false => rfl
              | true => exact absurd ⟨hs, hx⟩ hext
            · left; exact hs
          rw [matchPath_other _ _ _ hv1 hapi h3' h4' h5' h6]
          simp [dispatch, invoke_root]

theorem pathSegments_nil : pathSegments [] = [] := by rfl

/-- Under `/v1`, a path that ends in a slash falls to the catch-all. -/
theorem matchPath_v1_slash (ext : Bool) (rest : List GoString) (hne : ∀ s ∈ rest, s ≠ []) :
    matchPath (rootCandidates ext) (text "v1" :: (rest ++ [[47]])) =
      some ⟨[], true, 1, Registered.rootFunc, [], []⟩ := by
  have hne2 : ∀ x ∈ rest ++ [[47]], x ≠ [] := by
    intro x hx
    rcases List.mem_append.mp hx with hx | hx
    · exact hne x hx
    · simp only [List.mem_singleton] at hx
      rw [hx]; simp
  rw [matchPath_v1 _ _ hne2]
  rcases rest with _ | ⟨t, _ | ⟨x, _ | ⟨y, _ | ⟨z, _ | ⟨u, rest⟩⟩⟩⟩⟩ <;> simp

/-- When the mux redirects a path without trailing slash that needs no cleaning: when its
only segment is `apis`, `openapi` or `version`. -/
theorem redirects_noslash (ext : Bool) (e s : GoString) (rest : List GoString)
    (hlast : e.getLast? ≠ some 47) (hne : ∀ x ∈ s :: rest, x ≠ [])
    (hsegs : pathSegments e = s :: rest)
    (hsegs2 : pathSegments (e ++ [47]) = s :: rest ++ [[47]])
    (hcount : (e ++ [47]).count 47 = rest.length + 2) :
    redirects (rootCandidates ext) e =
      decide ((s = text "apis" ∨ s = text "openapi" ∨ s = text "version") ∧ rest = []) := by
  have he : e ≠ [] := by
    intro h
    rw [h, pathSegments_nil] at hsegs
    cases hsegs
  have hlast2 : (e ++ [47]).getLast? = some 47 := by simp
  have he2 : e ++ [47] ≠ [] := by simp
  have hrest : ∀ x ∈ rest, x ≠ [] := fun x hx => hne x (List.mem_cons_of_mem _ hx)
  have hrest2 : ∀ x ∈ rest ++ [[47]], x ≠ [] := by
    intro x hx
    rcases List.mem_append.mp hx with hx | hx
    · exact hrest x hx
    · simp only [List.mem_singleton] at hx
      rw [hx]; simp
  have hlb : (e.getLast? == some 47) = false := by
    cases hb : (e.getLast? == some 47) with
    | false => rfl
    | true => exact absurd (by simpa using hb) hlast
  unfold redirects
  rw [hsegs, hsegs2, hlb]
  have happ : s :: rest ++ [[47]] = s :: (rest ++ [[47]]) := rfl
  rw [happ]
  by_cases hv1 : s = text "v1"
  · subst hv1
    have hnsub : ¬ (text "v1" = text "apis" ∨ text "v1" = text "openapi" ∨
        text "v1" = text "version") := by decide
    rw [matchPath_v1_slash _ _ hrest]
    simp [exactMatch, hlast2, hcount, hnsub]
  · by_cases hapi : s = text "api"
    · subst hapi
      have hnsub : ¬ (text "api" = text "apis" ∨ text "api" = text "openapi" ∨
          text "api" = text "version") := by decide
      rw [matchPath_api, matchPath_api]
      cases rest with
      | nil => simp [exactMatch, hnsub]
      | cons a b => simp [exactMatch, hlast2, hcount, hnsub]
    · by_cases hsub : s = text "apis" ∨ s = text "openapi" ∨ s = text "version"
      · rw [matchPath_subtree _ _ _ hsub, matchPath_subtree _ _ _ hsub]
        cases rest with
        | nil => simp [exactMatch, hlast2, hcount, hsub, he, hlast]
        | cons a b => simp [exactMatch, hlast2, hcount, hsub]
      · have h3' : s ≠ text "apis" := fun e => hsub (Or.inl e)
        have h4' : s ≠ text "openapi" := fun e => hsub (Or.inr (Or.inl e))
        have h5' : s ≠ text "version" := fun e => hsub (Or.inr (Or.inr e))
        by_cases hext : s = text "ext" ∧ ext = true
        · obtain ⟨hs, hx⟩ := hext
          subst hs
          subst hx
          rw [matchPath_ext, matchPath_ext]
          cases rest with
          | nil => simp [exactMatch, hsub]
          | cons a b => simp [exactMatch, hlast2, hcount, hsub]
        · have h6 : s ≠ text "ext" ∨ ext = false := by
            by_cases hs : s = text "ext"
            · right
              cases hx : ext with
              | false => rfl
              | true => exact absurd ⟨hs, hx⟩ hext
            · left; exact hs
          rw [matchPath_other _ _ _ hv1 hapi h3' h4' h5' h6,
            matchPath_other _ _ _ hv1 hapi h3' h4' h5' h6]
          simp [exactMatch, hlast2, hcount, hsub]

/-- Serving a request whose escaped path needs no cleaning: the routing table. -/
theorem route_clean (h : Handlers) (r : Request) (hclean : isClean r.EscapedPath = true) :
    (if redirects (rootCandidates h.ExtensionAPIServer) r.EscapedPath = true then
        Served.redirect
      else dispatch h r
        (matchPath (rootCandidates h.ExtensionAPIServer) (pathSegments r.EscapedPath)))
      = expectedServed h r := by
  rcases clean_cases _ hclean with
    ⟨hlast, init, hinit, hsegs⟩ | ⟨hlast, s, rest, hne, hsegs, hsegs2, hcount⟩
  · have hred : redirects (rootCandidates h.ExtensionAPIServer) r.EscapedPath = false := by
      simp [redirects, hlast]
    rw [hred, if_neg (by simp)]
    unfold expectedServed
    rw [hsegs]
    cases init with
    | nil =>
      rw [List.nil_append, dispatch_matchPath h r [47] [] (by simp)]
      obtain ⟨a, b, c, d, e, f⟩ := slash_ne_texts
      simp [a, b, c, d, e, f]
    | cons s rest =>
      have hne2 : ∀ x ∈ rest ++ [[47]], x ≠ [] := by
        intro x hx
        rcases List.mem_append.mp hx with hx | hx
        · exact hinit x (List.mem_cons_of_mem _ hx)
        · simp only [List.mem_singleton] at hx
          rw [hx]; simp
      rw [List.cons_append, dispatch_matchPath h r s (rest ++ [[47]]) hne2]
      simp
  · rw [redirects_noslash _ _ s rest hlast hne hsegs hsegs2 hcount]
    have hrest : ∀ x ∈ rest, x ≠ [] := fun x hx => hne x (List.mem_cons_of_mem _ hx)
    unfold expectedServed
    rw [hsegs]
    by_cases hsub : (s = text "apis" ∨ s = text "openapi" ∨ s = text "version") ∧ rest = []
    · have hv1 : s ≠ text "v1" := by
        rcases hsub.1 with e | e | e <;> rw [e] <;> decide
      have hapi : s ≠ text "api" := by
        rcases hsub.1 with e | e | e <;> rw [e] <;> decide
      simp [hsub.1, hsub.2, hv1, hapi]
    · rw [dispatch_matchPath h r s rest hrest]
      simp only [decide_eq_true_eq, if_neg hsub]
      by_cases h1 : s = text "apis" ∨ s = text "openapi" ∨ s = text "version"
      · have h2 : rest ≠ [] := fun e => hsub ⟨h1, e⟩
        simp [h1, h2]
      · simp [h1]

/-- Serving a request whose escaped path needs no cleaning, whatever its method. -/
theorem serve_clean (h : Handlers) (r : Request)
    (hset : h.APIRoot = true ∧ h.K8sResource = true ∧ h.K8sProxy = true)
    (huri : r.RequestURI ≠ text "*") (hclean : isClean r.EscapedPath = true) :
    serve h r = some (expectedServed h r) := by
  obtain ⟨h1, h2, h3⟩ := hset
  unfold serve Routes
  simp only [h1, h2, h3, Bool.true_eq_false, or_self, if_false]
  unfold ServeHTTP
  rw [candidates_Routes, if_neg huri, hclean]
  simp only [Bool.true_eq_false, if_false]
  rw [route_clean h r hclean]
  simp

/-- Serving a request with the request URI `*`, and a request other than `CONNECT` whose
escaped path is changed by cleaning. -/
theorem serve_unclean (h : Handlers) (r : Request)
    (hset : h.APIRoot = true ∧ h.K8sResource = true ∧ h.K8sProxy = true) :
    (r.RequestURI = text "*" → serve h r = some Served.badRequest) ∧
    (r.RequestURI ≠ text "*" → r.Method ≠ "CONNECT" → isClean r.EscapedPath = false →
      serve h r = some Served.redirect) := by
  obtain ⟨h1, h2, h3⟩ := hset
  refine ⟨?_, ?_⟩
  · intro huri
    unfold serve Routes
    simp only [h1, h2, h3, Bool.true_eq_false, or_self, if_false]
    unfold ServeHTTP
    rw [if_pos huri]
  · intro huri hm hc
    unfold serve Routes
    simp only [h1, h2, h3, Bool.true_eq_false, or_self, if_false]
    unfold ServeHTTP
    rw [if_neg huri, if_neg hm, if_pos hc]

/-- C17, the claim as stated fails. With `Next` not set (as in most cases of `TestRoutes`),
`/unknown/path` reaches the function registered at `/`, which invokes no handler. With `Next`
set: `/apis` is not passed to `Next`, the mux redirects it to `/apis/`; `/v1//pods`, which
the mux has to clean, is redirected; a request with the request URI `*` is answered with
`400`; `/v1/%2F`, whose one segment after `/v1/` decodes to `/`, is not served by
`K8sResource` but by `Next`; and with the extension server set, `/%65xt/x`, whose URL path is
`/ext/x`, is answered with `404` by `StripPrefix`, which finds no `/ext` at the start of the
raw path. The path of a `CONNECT` request is not cleaned: `CONNECT //v1` is not redirected
but served by `Next`. -/
theorem Routes_not_exactly_one_handler :
    serve (sampleHandlers false false) (plainRequest "GET" "/unknown/path")
      = some Served.nothing ∧
    serve (sampleHandlers true false) (plainRequest "GET" "/apis") = some Served.redirect ∧
    serve (sampleHandlers true false) (plainRequest "GET" "/v1//pods")
      = some Served.redirect ∧
    serve (sampleHandlers true false) (plainRequest "GET" "*") = some Served.badRequest ∧
    serve (sampleHandlers true false) (escapedRequest "GET" "/v1/%2F" "/v1//")
      = some Served.Next ∧
    serve (sampleHandlers true true) (escapedRequest "GET" "/%65xt/x" "/ext/x")
      = some Served.notFound ∧
    isClean (plainRequest "CONNECT" "//v1").EscapedPath = false ∧
    serve (sampleHandlers true false) (plainRequest "CONNECT" "//v1") = some Served.Next := by
  refine ⟨?_, ?_, ?_, ?_, ?_, ?_, ?_, ?_⟩ <;> rfl

/-- C17 (amended): for handlers whose `APIRoot`, `K8sResource` and `K8sProxy` are set (`Routes`
panics otherwise) and every request: a request with the request URI `*` is answered with
`400` by the mux; a request other than `CONNECT` whose escaped path the mux has to clean is
answered with a redirect; and every request, of any method, whose escaped path needs no
cleaning is served as the routing table `expectedServed` says on the percent-decoded
segments of that path, by at most one handler: `APIRoot` for `/v1`; `K8sResource` for `/v1/`
followed by one to four segments none of which is a trailing slash or decodes to `/`;
`K8sProxy` for `/api` and the paths under `/api/`, `/apis/`, `/openapi/` and `/version/`; the
extension server, when set, for `/ext` and the paths under `/ext/`, on the URL path and the
raw path without the prefix `/ext`, or `404` when the URL path, or a non-empty raw path, does
not start with `/ext`; a redirect by the mux, and no handler, for `/apis`, `/openapi` and
`/version`; and for every other request `APIRoot` when the URL path is `/`, else `Next` when
it is set and no handler when it is not. -/
theorem Routes_dispatch (h : Handlers) (r : Request)
    (hset : h.APIRoot = true ∧ h.K8sResource = true ∧ h.K8sProxy = true) :
    (r.RequestURI = text "*" → serve h r = some Served.badRequest) ∧
    (r.RequestURI ≠ text "*" → r.Method ≠ "CONNECT" → isClean r.EscapedPath = false →
      serve h r = some Served.redirect) ∧
    (r.RequestURI ≠ text "*" → isClean r.EscapedPath = true →
      serve h r = some (expectedServed h r)) :=
  ⟨(serve_unclean h r hset).1, (serve_unclean h r hset).2, serve_clean h r hset⟩

/-- C17 (amended), at requests of `TestRoutes` and others: `/unknown/path` with `Next` set is
served by `Next`; `/v1/pods/default` by `K8sResource` with the matches `pods` and `default`;
`/v1/pods/a%2Fb` by `K8sResource` with the matches `pods` and `a/b`; `/ext/some/path` with
the extension server set by the extension server on `/some/path`; `CONNECT /v1` by `APIRoot`;
`/v1/pods/` by `Next`; the request URI `*` is answered with `400` and `/v1/./pods` with a
redirect. -/
theorem Routes_dispatch_witness :
    serve (sampleHandlers true false) (plainRequest "GET" "/unknown/path") = some Served.Next ∧
    serve (sampleHandlers false false) (plainRequest "GET" "/v1/pods/default")
      = some (Served.K8sResource ["type", "nameorns"] [text "pods", text "default"]) ∧
    serve (sampleHandlers false false) (escapedRequest "GET" "/v1/pods/a%2Fb" "/v1/pods/a/b")
      = some (Served.K8sResource ["type", "nameorns"] [text "pods", text "a/b"]) ∧
    serve (sampleHandlers false true) (plainRequest "GET" "/ext/some/path")
      = some (Served.ExtensionAPIServer (text "/some/path") []) ∧
    serve (sampleHandlers false false) (plainRequest "CONNECT" "/v1") = some Served.APIRoot ∧
    serve (sampleHandlers true false) (plainRequest "GET" "/v1/pods/") = some Served.Next ∧
    serve (sampleHandlers true false) (plainRequest "PUT" "*") = some Served.badRequest ∧
    serve (sampleHandlers true false) (plainRequest "GET" "/v1/./pods")
      = some Served.redirect :=
  ⟨((Routes_dispatch (sampleHandlers true false) (plainRequest "GET" "/unknown/path")
      ⟨by rfl, by rfl, by rfl⟩).2.2 (by decide) (by rfl)).trans (by rfl),
    ((Routes_dispatch (sampleHandlers false false) (plainRequest "GET" "/v1/pods/default")
      ⟨by rfl, by rfl, by rfl⟩).2.2 (by decide) (by rfl)).trans (by rfl),
    ((Routes_dispatch (sampleHandlers false false)
      (escapedRequest "GET" "/v1/pods/a%2Fb" "/v1/pods/a/b")
      ⟨by rfl, by rfl, by rfl⟩).2.2 (by decide) (by rfl)).trans (by rfl),
    ((Routes_dispatch (sampleHandlers false true) (plainRequest "GET" "/ext/some/path")
      ⟨by rfl, by rfl, by rfl⟩).2.2 (by decide) (by rfl)).trans (by rfl),
    ((Routes_dispatch (sampleHandlers false false) (plainRequest "CONNECT" "/v1")
      ⟨by rfl, by rfl, by rfl⟩).2.2 (by decide) (by rfl)).trans (by rfl),
    ((Routes_dispatch (sampleHandlers true false) (plainRequest "GET" "/v1/pods/")
      ⟨by rfl, by rfl, by rfl⟩).2.2 (by decide) (by rfl)).trans (by rfl),
    (Routes_dispatch (sampleHandlers true false) (plainRequest "PUT" "*")
      ⟨by rfl, by rfl, by rfl⟩).1 (by rfl),
    (Routes_dispatch (sampleHandlers true false) (plainRequest "GET" "/v1/./pods")
      ⟨by rfl, by rfl, by rfl⟩).2.1 (by decide) (by decide) (by rfl)⟩

end Router

/-! # The handler of the k8s resources (`k8sAPI`) -/

namespace Handler

end Handler

/-! # The client factory (`NewFactory`) -/

namespace Client

/-- C20: for every rest config and every `q`, `b`, `s`: the option `WithQPSAndBurst(q, b, s)`
sets the factory options' `qps` to `q`, `burst` to `b` and `sharedQPS` to `s`; and
`NewFactory` called with that option returns, unless building the clients fails, a factory
whose client configuration has `QPS = q` and `Burst = b`, whatever `QPS` and `Burst` the
supplied config carried, the rest of the config being kept. -/
theorem NewFactory_WithQPSAndBurst (defaults : factoryOptions)
    (build : RestConfig → Option Sqlproxy.Err) (cfg : RestConfig) (impersonate : Bool)
    (q : Rat) (b : Int) (s : Bool) :
    (∀ fo : factoryOptions, (WithQPSAndBurst q b s fo).qps = q ∧
      (WithQPSAndBurst q b s fo).burst = b ∧ (WithQPSAndBurst q b s fo).sharedQPS = s) ∧
    (build { cfg with QPS := q, Burst := b } = none →
      ∃ f, NewFactory defaults build cfg impersonate [WithQPSAndBurst q b s] = Except.ok f ∧
        f.clientCfg.QPS = q ∧ f.clientCfg.Burst = b ∧ f.clientCfg.Host = cfg.Host ∧
        f.options.sharedQPS = s) ∧
    (∀ f, NewFactory defaults build cfg impersonate [WithQPSAndBurst q b s] = Except.ok f →
      f.clientCfg.QPS = q ∧ f.clientCfg.Burst = b) := by
  refine ⟨fun fo => ⟨rfl, rfl, rfl⟩, ?_, ?_⟩
  · intro hb
    refine ⟨⟨{ cfg with QPS := q, Burst := b }, impersonate,
      WithQPSAndBurst q b s defaults⟩, ?_, rfl, rfl, rfl, rfl⟩
    simp [NewFactory, WithQPSAndBurst, hb]
  · intro f hf
    unfold NewFactory at hf
    simp only [List.foldl_cons, List.foldl_nil, WithQPSAndBurst] at hf
    split at hf
    · cases hf
    · simp only [Except.ok.injEq] at hf
      rw [← hf]
      exact ⟨rfl, rfl⟩

/-- C20, at the values of `TestNewFactoryWithOptions`: a config with `QPS` 5 and `Burst` 10
and the option `WithQPSAndBurst(50, 20, false)` give a client configuration with `QPS` 50
and `Burst` 20. -/
theorem NewFactory_WithQPSAndBurst_witness :
    ∃ f, NewFactory ⟨5, 10, false⟩ (fun _ => none) ⟨"", 5, 10⟩ false
        [WithQPSAndBurst 50 20 false] = Except.ok f ∧
      f.clientCfg.QPS = 50 ∧ f.clientCfg.Burst = 20 ∧ f.clientCfg.Host = "" ∧
      f.options.sharedQPS = false :=
  (NewFactory_WithQPSAndBurst ⟨5, 10, false⟩ (fun _ => none) ⟨"", 5, 10⟩ false 50 20 false).2.1
    rfl

end Client
